import Mathlib

/-!
# go-confluence: a shallow embedding of the Confluence REST client

The client (`attachment.go`, `content.go`) builds endpoint URLs, wraps them in
HTTP requests, hands the requests to a transport and unmarshals JSON replies.
Go strings are byte sequences, so they are modelled as lists of bytes.  The
pieces of the Go standard library the client calls (`net/url`, `net/http`,
`encoding/json`, `unicode/utf8`, `mime/multipart`, `path/filepath`) are
transcribed as executable definitions; the transport, the file system and the
multipart boundary are parameters, and so are the points where releases of the
library differ, as the repository names no release of Go.
-/

namespace Confluence

/-! ## Go strings -/

/-- One byte of a Go string. -/
abbrev Byte := Fin 256

/-- Go `string` / `[]byte`: a sequence of bytes, not necessarily valid UTF-8. -/
abbrev Bytes := List Byte

/-- The byte with value `n % 256`. -/
def byte (n : Nat) : Byte := ⟨n % 256, Nat.mod_lt _ (by decide)⟩

/-- UTF-8 encoding of one Unicode scalar value of a source literal. -/
def encodeChar (c : Char) : Bytes :=
  let n := c.toNat
  if n < 0x80 then [byte n]
  else if n < 0x800 then [byte (0xC0 + n / 64), byte (0x80 + n % 64)]
  else if n < 0x10000 then
    [byte (0xE0 + n / 4096), byte (0x80 + n / 64 % 64), byte (0x80 + n % 64)]
  else
    [byte (0xF0 + n / 262144), byte (0x80 + n / 4096 % 64), byte (0x80 + n / 64 % 64),
      byte (0x80 + n % 64)]

/-- The Go string denoted by a literal: its UTF-8 bytes. -/
def str (s : String) : Bytes := s.data.flatMap encodeChar

/-- Go `error` values; only the message is kept. -/
structure Error where
  msg : String
  deriving DecidableEq, Repr

deriving instance DecidableEq for Except

/-- Result of a Go call: a value, a returned `error`, or a run-time panic. -/
inductive Outcome (α : Type) where
  | ok (a : α)
  | err (e : Error)
  | panic (msg : String)
  deriving DecidableEq, Repr

/-- The points where releases of the Go standard library differ on input that
this client can hand to it.  The repository names no release of Go, so the
client is modelled over every choice. -/
structure GoRelease where
  /-- What `net/url` `parseHost(host)` returns; later releases refuse hosts
  that earlier ones accept. -/
  parseHost : Bytes → Except Error Bytes
  /-- Whether `encoding/json` writes a byte that is not valid UTF-8 as the
  three bytes of U+FFFD (true) or as the six characters of its escape (false). -/
  rawReplacement : Bool
  /-- What `mime/multipart` `escapeQuotes(s)` returns; later releases also
  escape line breaks. -/
  escapeQuotes : Bytes → Bytes

namespace strings

/-- Go `strings.Join(elems, sep)`. -/
def Join : List Bytes → Bytes → Bytes
  | [], _ => []
  | [a], _ => a
  | a :: b :: rest, sep => a ++ sep ++ Join (b :: rest) sep

/-- Go `strings.Cut(s, sep)` for a one-byte separator: before, after, found. -/
def Cut : Bytes → Byte → Bytes × Bytes × Bool
  | [], _ => ([], [], false)
  | c :: rest, sep =>
    if c = sep then ([], rest, true)
    else
      let r := Cut rest sep
      (c :: r.1, r.2.1, r.2.2)

/-- Go `strings.Contains(s, sep)` for a one-byte separator. -/
def Contains (s : Bytes) (sep : Byte) : Bool := s.any (fun c => decide (c = sep))

/-- Go `strings.Count(s, sep)` for a one-byte separator. -/
def Count (s : Bytes) (sep : Byte) : Nat := s.countP (fun c => decide (c = sep))

/-- Go `strings.LastIndex(s, sep)` for a one-byte separator; `none` is -1. -/
def LastIndex : Bytes → Byte → Option Nat
  | [], _ => none
  | c :: rest, sep =>
    match LastIndex rest sep with
    | some i => some (i + 1)
    | none => if c = sep then some 0 else none

/-- Go `strings.HasSuffix(s, suffix)` for a one-byte suffix. -/
def endsWith (s : Bytes) (c : Byte) : Bool := s.getLast? == some c

/-- Go `strings.HasPrefix(s, p)`. -/
def startsWith (s p : Bytes) : Bool := p.isPrefixOf s

/-- Go `strings.Index(s, sub)`; `none` is -1. -/
def Index : Bytes → Bytes → Option Nat
  | [], sub => if sub = [] then some 0 else none
  | c :: rest, sub =>
    if sub.isPrefixOf (c :: rest) then some 0
    else (Index rest sub).map (fun i => i + 1)

/-- Go `strings.ToLower` on ASCII letters (the only bytes a URL scheme holds). -/
def ToLower (s : Bytes) : Bytes :=
  s.map (fun c => if 0x41 ≤ c.val ∧ c.val ≤ 0x5A then byte (c.val + 32) else c)

end strings

/-! ## net/url -/

namespace url

/-- Go `url.encoding`: the part of the URL that is being escaped. -/
inductive encoding where
  | encodePath
  | encodePathSegment
  | encodeHost
  | encodeZone
  | encodeUserPassword
  | encodeQueryComponent
  | encodeFragment
  deriving DecidableEq, Repr

open encoding

/-- ASCII letter or digit. -/
def isAlnum (c : Byte) : Bool :=
  (0x61 ≤ c.val && c.val ≤ 0x7A) || (0x41 ≤ c.val && c.val ≤ 0x5A) ||
    (0x30 ≤ c.val && c.val ≤ 0x39)

/-- Go `url.shouldEscape(c, mode)`. -/
def shouldEscape (c : Byte) (mode : encoding) : Bool :=
  if isAlnum c then false
  -- host: ! $ & ' ( ) * + , ; = : [ ] < > "
  else if (mode = encodeHost ∨ mode = encodeZone) ∧
      c.val ∈ [0x21, 0x24, 0x26, 0x27, 0x28, 0x29, 0x2A, 0x2B, 0x2C, 0x3B, 0x3D, 0x3A,
        0x5B, 0x5D, 0x3C, 0x3E, 0x22] then false
  -- unreserved marks: - _ . ~
  else if c.val ∈ [0x2D, 0x5F, 0x2E, 0x7E] then false
  -- reserved: $ & + , / : ; = ? @
  else if c.val ∈ [0x24, 0x26, 0x2B, 0x2C, 0x2F, 0x3A, 0x3B, 0x3D, 0x3F, 0x40] then
    match mode with
    | encodePath => c.val = 0x3F
    | encodePathSegment => c.val = 0x2F ∨ c.val = 0x3B ∨ c.val = 0x2C ∨ c.val = 0x3F
    | encodeUserPassword => c.val = 0x40 ∨ c.val = 0x2F ∨ c.val = 0x3F ∨ c.val = 0x3A
    | encodeQueryComponent => true
    | encodeFragment => false
    | _ => true
  -- fragment: ! ( ) *
  else if mode = encodeFragment ∧ c.val ∈ [0x21, 0x28, 0x29, 0x2A] then false
  else true

/-- Go `upperhex[n]` for a nibble. -/
def upperhex (n : Nat) : Byte := if n < 10 then byte (0x30 + n) else byte (0x41 + (n - 10))

/-- Go `url.ishex`. -/
def ishex (c : Byte) : Bool :=
  (0x30 ≤ c.val && c.val ≤ 0x39) || (0x61 ≤ c.val && c.val ≤ 0x66) ||
    (0x41 ≤ c.val && c.val ≤ 0x46)

/-- Go `url.unhex`. -/
def unhex (c : Byte) : Nat :=
  if 0x30 ≤ c.val ∧ c.val ≤ 0x39 then c.val - 0x30
  else if 0x61 ≤ c.val ∧ c.val ≤ 0x66 then c.val - 0x61 + 10
  else if 0x41 ≤ c.val ∧ c.val ≤ 0x46 then c.val - 0x41 + 10
  else 0

/-- What `url.escape` writes for one byte. -/
def escapeByte (c : Byte) (mode : encoding) : Bytes :=
  if shouldEscape c mode then
    if c.val = 0x20 ∧ mode = encodeQueryComponent then [0x2B]
    else [0x25, upperhex (c.val / 16), upperhex (c.val % 16)]
  else [c]

/-- Go `url.escape(s, mode)`. -/
def escape (s : Bytes) (mode : encoding) : Bytes := s.flatMap (fun c => escapeByte c mode)

/-- Go `url.unescape(s, mode)`: the validating scan and the rewrite in one
left-to-right pass; the first malformed position decides the error. -/
def unescape : Bytes → encoding → Except Error Bytes
  | [], _ => .ok []
  | c :: rest, mode =>
    if c.val = 0x25 then
      match rest with
      | a :: b :: rest2 =>
        if ishex a && ishex b then
          if mode = encodeHost ∧ unhex a < 8 ∧ ¬ (a.val = 0x32 ∧ b.val = 0x35) then
            .error ⟨"invalid URL escape"⟩
          else if mode = encodeZone ∧ ¬ (a.val = 0x32 ∧ b.val = 0x35) ∧
              unhex a * 16 + unhex b ≠ 0x20 ∧
              shouldEscape (byte (unhex a * 16 + unhex b)) encodeHost then
            .error ⟨"invalid URL escape"⟩
          else
            match unescape rest2 mode with
            | .ok r => .ok (byte (unhex a * 16 + unhex b) :: r)
            | .error e => .error e
        else .error ⟨"invalid URL escape"⟩
      | _ => .error ⟨"invalid URL escape"⟩
    else if c.val = 0x2B then
      match unescape rest mode with
      | .ok r => .ok ((if mode = encodeQueryComponent then 0x20 else 0x2B) :: r)
      | .error e => .error e
    else if (mode = encodeHost ∨ mode = encodeZone) ∧ c.val < 0x80 ∧
        shouldEscape c encodeHost then
      .error ⟨"invalid character in host name"⟩
    else
      match unescape rest mode with
      | .ok r => .ok (c :: r)
      | .error e => .error e

/-- Go `url.QueryEscape`. -/
def QueryEscape (s : Bytes) : Bytes := escape s encodeQueryComponent

/-- Go `url.QueryUnescape`. -/
def QueryUnescape (s : Bytes) : Except Error Bytes := unescape s encodeQueryComponent

/-- Go `url.Userinfo`. -/
structure Userinfo where
  username : Bytes
  password : Bytes
  passwordSet : Bool
  deriving DecidableEq, Repr

/-- Go `url.URL`. -/
structure URL where
  Scheme : Bytes := []
  Opaque : Bytes := []
  User : Option Userinfo := none
  Host : Bytes := []
  Path : Bytes := []
  RawPath : Bytes := []
  OmitHost : Bool := false
  ForceQuery : Bool := false
  RawQuery : Bytes := []
  Fragment : Bytes := []
  RawFragment : Bytes := []
  deriving DecidableEq, Repr

open encoding

/-- Go `url.stringContainsCTLByte`. -/
def stringContainsCTLByte (s : Bytes) : Bool := s.any (fun b => b.val < 0x20 || b.val = 0x7F)

/-- The bytes `getScheme` accepts in a scheme. -/
def isSchemeByte (c : Byte) : Prop :=
  (0x61 ≤ c.val ∧ c.val ≤ 0x7A) ∨ (0x41 ≤ c.val ∧ c.val ≤ 0x5A) ∨
    (0x30 ≤ c.val ∧ c.val ≤ 0x39) ∨ c.val = 0x2B ∨ c.val = 0x2D ∨ c.val = 0x2E

/-- The loop of Go `url.getScheme`; `i` is the index of the byte looked at. -/
def getSchemeLoop (rawURL : Bytes) : Nat → Bytes → Except Error (Bytes × Bytes)
  | _, [] => .ok ([], rawURL)
  | i, c :: cs =>
    if (0x61 ≤ c.val ∧ c.val ≤ 0x7A) ∨ (0x41 ≤ c.val ∧ c.val ≤ 0x5A) then
      getSchemeLoop rawURL (i + 1) cs
    else if (0x30 ≤ c.val ∧ c.val ≤ 0x39) ∨ c.val = 0x2B ∨ c.val = 0x2D ∨ c.val = 0x2E then
      if i = 0 then .ok ([], rawURL) else getSchemeLoop rawURL (i + 1) cs
    else if c.val = 0x3A then
      if i = 0 then .error ⟨"missing protocol scheme"⟩ else .ok (rawURL.take i, cs)
    else .ok ([], rawURL)

/-- Go `url.getScheme(rawURL)`: the scheme and what follows its colon. -/
def getScheme (rawURL : Bytes) : Except Error (Bytes × Bytes) := getSchemeLoop rawURL 0 rawURL

/-- Go `url.validOptionalPort`. -/
def validOptionalPort : Bytes → Bool
  | [] => true
  | c :: rest => c.val = 0x3A && rest.all (fun b => 0x30 ≤ b.val && b.val ≤ 0x39)

/-- Go `url.validUserinfo`. -/
def validUserinfo (s : Bytes) : Bool :=
  s.all (fun r => isAlnum r ||
    decide (r.val ∈ [0x2D, 0x2E, 0x5F, 0x3A, 0x7E, 0x21, 0x24, 0x26, 0x27, 0x28, 0x29, 0x2A,
      0x2B, 0x2C, 0x3B, 0x3D, 0x25, 0x40]))

/-- Go `url.validEncoded(s, mode)`. -/
def validEncoded (s : Bytes) (mode : encoding) : Bool :=
  s.all (fun c =>
    decide (c.val ∈ [0x21, 0x24, 0x26, 0x27, 0x28, 0x29, 0x2A, 0x2B, 0x2C, 0x3B, 0x3D, 0x3A,
      0x40, 0x5B, 0x5D, 0x25]) || !shouldEscape c mode)

/-- Go `url.parseHost(host)` as Go 1.22 has it. -/
def parseHost (host : Bytes) : Except Error Bytes :=
  if strings.startsWith host [0x5B] then
    match strings.LastIndex host 0x5D with
    | none => .error ⟨"missing ']' in host"⟩
    | some i =>
      if !validOptionalPort (host.drop (i + 1)) then .error ⟨"invalid port after host"⟩
      else
        match strings.Index (host.take i) [0x25, 0x32, 0x35] with
        | some zone =>
          match unescape (host.take zone) encodeHost with
          | .error e => .error e
          | .ok host1 =>
            match unescape ((host.take i).drop zone) encodeZone with
            | .error e => .error e
            | .ok host2 =>
              match unescape (host.drop i) encodeHost with
              | .error e => .error e
              | .ok host3 => .ok (host1 ++ host2 ++ host3)
        | none => unescape host encodeHost
  else
    match strings.LastIndex host 0x3A with
    | some i =>
      if !validOptionalPort (host.drop i) then .error ⟨"invalid port after host"⟩
      else unescape host encodeHost
    | none => unescape host encodeHost

/-- Go `url.parseAuthority(authority)`. -/
def parseAuthority (go : GoRelease) (authority : Bytes) :
    Except Error (Option Userinfo × Bytes) :=
  match strings.LastIndex authority 0x40 with
  | none =>
    match go.parseHost authority with
    | .error e => .error e
    | .ok host => .ok (none, host)
  | some i =>
    match go.parseHost (authority.drop (i + 1)) with
    | .error e => .error e
    | .ok host =>
      let userinfo := authority.take i
      if !validUserinfo userinfo then .error ⟨"net/url: invalid userinfo"⟩
      else if !strings.Contains userinfo 0x3A then
        match unescape userinfo encodeUserPassword with
        | .error e => .error e
        | .ok u => .ok (some ⟨u, [], false⟩, host)
      else
        let c := strings.Cut userinfo 0x3A
        match unescape c.1 encodeUserPassword with
        | .error e => .error e
        | .ok username =>
          match unescape c.2.1 encodeUserPassword with
          | .error e => .error e
          | .ok password => .ok (some ⟨username, password, true⟩, host)

/-- Go `(*URL).setPath(p)`. -/
def URL.setPath (u : URL) (p : Bytes) : Except Error URL :=
  match unescape p encodePath with
  | .error e => .error e
  | .ok path =>
    if p = escape path encodePath then .ok { u with Path := path, RawPath := [] }
    else .ok { u with Path := path, RawPath := p }

/-- Go `(*URL).setFragment(f)`. -/
def URL.setFragment (u : URL) (f : Bytes) : Except Error URL :=
  match unescape f encodeFragment with
  | .error e => .error e
  | .ok frag =>
    if f = escape frag encodeFragment then .ok { u with Fragment := frag, RawFragment := [] }
    else .ok { u with Fragment := frag, RawFragment := f }

/-- Go `url.parse(rawURL, viaRequest)`. -/
def parse (go : GoRelease) (rawURL : Bytes) (viaRequest : Bool) : Except Error URL :=
  if stringContainsCTLByte rawURL then .error ⟨"net/url: invalid control character in URL"⟩
  else if rawURL = [] ∧ viaRequest then .error ⟨"empty url"⟩
  else if rawURL = [0x2A] then .ok { Path := [0x2A] }
  else
    match getScheme rawURL with
    | .error e => .error e
    | .ok (scheme, rest0) =>
      let url0 : URL := { Scheme := strings.ToLower scheme }
      -- split off the query
      let url1 : URL :=
        if strings.endsWith rest0 0x3F ∧ strings.Count rest0 0x3F = 1 then
          { url0 with ForceQuery := true }
        else { url0 with RawQuery := (strings.Cut rest0 0x3F).2.1 }
      let rest1 : Bytes :=
        if strings.endsWith rest0 0x3F ∧ strings.Count rest0 0x3F = 1 then rest0.dropLast
        else (strings.Cut rest0 0x3F).1
      if !strings.startsWith rest1 [0x2F] ∧ url1.Scheme ≠ [] then
        .ok { url1 with Opaque := rest1 }
      else if !strings.startsWith rest1 [0x2F] ∧ viaRequest then
        .error ⟨"invalid URI for request"⟩
      else if !strings.startsWith rest1 [0x2F] ∧
          strings.Contains (strings.Cut rest1 0x2F).1 0x3A then
        .error ⟨"first path segment in URL cannot contain colon"⟩
      else if (url1.Scheme ≠ [] ∨ (!viaRequest ∧ !strings.startsWith rest1 [0x2F, 0x2F, 0x2F])) ∧
          strings.startsWith rest1 [0x2F, 0x2F] then
        let auth0 := rest1.drop 2
        let authority := (strings.Cut auth0 0x2F).1
        let rest2 : Bytes := if strings.Contains auth0 0x2F then 0x2F :: (strings.Cut auth0 0x2F).2.1 else []
        match parseAuthority go authority with
        | .error e => .error e
        | .ok (user, host) => URL.setPath { url1 with User := user, Host := host } rest2
      else if url1.Scheme ≠ [] ∧ strings.startsWith rest1 [0x2F] then
        URL.setPath { url1 with OmitHost := true } rest1
      else URL.setPath url1 rest1

/-- Go `url.ParseRequestURI(rawURL)`. -/
def ParseRequestURI (go : GoRelease) (rawURL : Bytes) : Except Error URL := parse go rawURL true

/-- Go `url.Parse(rawURL)`. -/
def Parse (go : GoRelease) (rawURL : Bytes) : Except Error URL :=
  let c := strings.Cut rawURL 0x23
  match parse go c.1 false with
  | .error e => .error e
  | .ok u => if c.2.1 = [] then .ok u else u.setFragment c.2.1

/-- Go `(*Userinfo).String()`. -/
def Userinfo.String (u : Userinfo) : Bytes :=
  escape u.username encodeUserPassword ++
    (if u.passwordSet then 0x3A :: escape u.password encodeUserPassword else [])

/-- Go `(*URL).EscapedPath()`. -/
def URL.EscapedPath (u : URL) : Bytes :=
  if u.RawPath ≠ [] ∧ validEncoded u.RawPath encodePath ∧
      unescape u.RawPath encodePath = .ok u.Path then u.RawPath
  else if u.Path = [0x2A] then [0x2A]
  else escape u.Path encodePath

/-- Go `(*URL).EscapedFragment()`. -/
def URL.EscapedFragment (u : URL) : Bytes :=
  if u.RawFragment ≠ [] ∧ validEncoded u.RawFragment encodeFragment ∧
      unescape u.RawFragment encodeFragment = .ok u.Fragment then u.RawFragment
  else escape u.Fragment encodeFragment

/-- The scheme and authority that `(*URL).String()` writes before the path. -/
def URL.authorityString (u : URL) : Bytes :=
  (if u.Scheme ≠ [] then u.Scheme ++ [0x3A] else []) ++
    (if u.Scheme ≠ [] ∨ u.Host ≠ [] ∨ u.User ≠ none then
      if u.OmitHost ∧ u.Host = [] ∧ u.User = none then []
      else
        (if u.Host ≠ [] ∨ u.Path ≠ [] ∨ u.User ≠ none then [0x2F, 0x2F] else []) ++
        (match u.User with
          | some ui => ui.String ++ [0x40]
          | none => []) ++
        (if u.Host ≠ [] then escape u.Host encodeHost else [])
    else [])

/-- What `(*URL).String()` writes before the query: scheme, then the opaque
part or the authority and the escaped path. -/
def URL.hierString (u : URL) : Bytes :=
  if u.Opaque ≠ [] then (if u.Scheme ≠ [] then u.Scheme ++ [0x3A] else []) ++ u.Opaque
  else
    let path := u.EscapedPath
    let buf := u.authorityString ++
      (if path ≠ [] ∧ path.head? ≠ some 0x2F ∧ u.Host ≠ [] then [0x2F] else [])
    buf ++
      (if buf = [] ∧ strings.Contains (strings.Cut path 0x2F).1 0x3A then [0x2E, 0x2F] else []) ++
      path

/-- Go `(*URL).String()`. -/
def URL.String (u : URL) : Bytes :=
  u.hierString ++
    (if u.ForceQuery ∨ u.RawQuery ≠ [] then 0x3F :: u.RawQuery else []) ++
    (if u.Fragment ≠ [] then 0x23 :: u.EscapedFragment else [])

/-- Go `url.Values`, a `map[string][]string`: keys are unique; the order of
the list carries no meaning. -/
abbrev Values := List (Bytes × List Bytes)

/-- Go `Values.Set(key, value)`: the key now maps to the one value. -/
def Values.Set : Values → Bytes → Bytes → Values
  | [], key, value => [(key, [value])]
  | (k, vs) :: rest, key, value =>
    if k = key then (key, [value]) :: rest else (k, vs) :: Values.Set rest key value

/-- Go `m[key] = append(m[key], value)`. -/
def Values.Add : Values → Bytes → Bytes → Values
  | [], key, value => [(key, [value])]
  | (k, vs) :: rest, key, value =>
    if k = key then (k, vs ++ [value]) :: rest else (k, vs) :: Values.Add rest key value

/-- Byte-wise lexicographic order of Go strings, `a <= b`. -/
def bytesLe : Bytes → Bytes → Bool
  | [], _ => true
  | _ :: _, [] => false
  | a :: as, b :: bs => a.val < b.val || (a.val = b.val && bytesLe as bs)

/-- Go `Values.Encode()`: `key=value` pairs joined by `&`, keys sorted. -/
def Values.Encode (v : Values) : Bytes :=
  strings.Join
    ((v.insertionSort (fun a b => bytesLe a.1 b.1 = true)).flatMap
      (fun kv => kv.2.map (fun value => QueryEscape kv.1 ++ [0x3D] ++ QueryEscape value)))
    [0x26]

/-- The loop of Go `url.parseQuery`: one step per `&`-separated piece. -/
def parseQueryLoop : List Bytes → Values → Option Error → Values × Option Error
  | [], m, err => (m, err)
  | piece :: rest, m, err =>
    if strings.Contains piece 0x3B then
      parseQueryLoop rest m (some ⟨"invalid semicolon separator in query"⟩)
    else if piece = [] then parseQueryLoop rest m err
    else
      let c := strings.Cut piece 0x3D
      match QueryUnescape c.1 with
      | .error e1 => parseQueryLoop rest m (if err = none then some e1 else err)
      | .ok key =>
        match QueryUnescape c.2.1 with
        | .error e1 => parseQueryLoop rest m (if err = none then some e1 else err)
        | .ok value => parseQueryLoop rest (m.Add key value) err

/-- The pieces of `s` between occurrences of `sep`. -/
def splitOn : Bytes → Byte → List Bytes
  | [], _ => [[]]
  | c :: rest, sep =>
    if c = sep then [] :: splitOn rest sep
    else
      match splitOn rest sep with
      | [] => [[c]]
      | p :: ps => (c :: p) :: ps

/-- Go `url.ParseQuery(query)`: the decoded parameters and the first error. -/
def ParseQuery (query : Bytes) : Values × Option Error :=
  parseQueryLoop (splitOn query 0x26) [] none

end url

/-! ## unicode/utf8 and unicode/utf16 -/

namespace utf8

/-- Go `utf8.RuneError`, U+FFFD. -/
def RuneError : Nat := 0xFFFD

/-- Go `utf8.DecodeRuneInString(s)`: the rune at the front of `s` and its
width; `(RuneError, 1)` for an invalid encoding, `(RuneError, 0)` for `""`. -/
def DecodeRune : Bytes → Nat × Nat
  | [] => (RuneError, 0)
  | s0 :: t =>
    if s0.val < 0x80 then (s0.val, 1)
    else if s0.val < 0xC2 ∨ 0xF4 < s0.val then (RuneError, 1)
    else
      let lo := if s0.val = 0xE0 then 0xA0 else if s0.val = 0xF0 then 0x90 else 0x80
      let hi := if s0.val = 0xED then 0x9F else if s0.val = 0xF4 then 0x8F else 0xBF
      match t with
      | [] => (RuneError, 1)
      | s1 :: t1 =>
        if s0.val < 0xE0 then
          if s1.val < lo ∨ hi < s1.val then (RuneError, 1)
          else (s0.val % 32 * 64 + s1.val % 64, 2)
        else
          match t1 with
          | [] => (RuneError, 1)
          | s2 :: t2 =>
            if s0.val < 0xF0 then
              if s1.val < lo ∨ hi < s1.val then (RuneError, 1)
              else if s2.val < 0x80 ∨ 0xBF < s2.val then (RuneError, 1)
              else (s0.val % 16 * 4096 + s1.val % 64 * 64 + s2.val % 64, 3)
            else
              match t2 with
              | [] => (RuneError, 1)
              | s3 :: _ =>
                if s1.val < lo ∨ hi < s1.val then (RuneError, 1)
                else if s2.val < 0x80 ∨ 0xBF < s2.val then (RuneError, 1)
                else if s3.val < 0x80 ∨ 0xBF < s3.val then (RuneError, 1)
                else
                  (s0.val % 8 * 262144 + s1.val % 64 * 4096 + s2.val % 64 * 64 + s3.val % 64, 4)

/-- Go `utf8.AppendRune(nil, r)`: the UTF-8 encoding of `r`, that of U+FFFD
when `r` is a surrogate or beyond U+10FFFF. -/
def EncodeRune (r : Nat) : Bytes :=
  if r ≤ 0x7F then [byte r]
  else if r ≤ 0x7FF then [byte (0xC0 + r / 64), byte (0x80 + r % 64)]
  else if 0x10FFFF < r ∨ (0xD800 ≤ r ∧ r ≤ 0xDFFF) then [0xEF, 0xBF, 0xBD]
  else if r ≤ 0xFFFF then
    [byte (0xE0 + r / 4096), byte (0x80 + r / 64 % 64), byte (0x80 + r % 64)]
  else
    [byte (0xF0 + r / 262144), byte (0x80 + r / 4096 % 64), byte (0x80 + r / 64 % 64),
      byte (0x80 + r % 64)]

/-- The loop of Go `utf8.ValidString`: no position decodes to `(RuneError, 1)`. -/
def validLoop : Nat → Bytes → Bool
  | 0, s => s.isEmpty
  | _ + 1, [] => true
  | n + 1, b :: t =>
    if (DecodeRune (b :: t)).1 = RuneError ∧ (DecodeRune (b :: t)).2 = 1 then false
    else validLoop n ((b :: t).drop (DecodeRune (b :: t)).2)

/-- Go `utf8.ValidString(s)`. -/
def ValidString (s : Bytes) : Bool := validLoop s.length s

end utf8

namespace utf16

/-- Go `utf16.IsSurrogate(r)`. -/
def IsSurrogate (r : Nat) : Bool := 0xD800 ≤ r && r < 0xE000

/-- Go `utf16.DecodeRune(r1, r2)`; U+FFFD when the pair is not valid. -/
def DecodeRune (r1 r2 : Nat) : Nat :=
  if 0xD800 ≤ r1 ∧ r1 < 0xDC00 ∧ 0xDC00 ≤ r2 ∧ r2 < 0xE000 then
    (r1 - 0xD800) * 1024 + (r2 - 0xDC00) + 0x10000
  else 0xFFFD

end utf16

/-! ## encoding/json -/

namespace json

/-- A JSON document as the decoder sees it: strings are unquoted, numbers keep
their literal, object members keep their order and duplicates. -/
inductive JSON where
  | null
  | bool (b : Bool)
  | number (lit : Bytes)
  | string (s : Bytes)
  | array (elems : List JSON)
  | object (members : List (Bytes × JSON))

/-- Go `hex[n]` of the encoder: lower-case hexadecimal digit. -/
def lowerhex (n : Nat) : Byte := if n < 10 then byte (0x30 + n) else byte (0x61 + (n - 10))

/-- Go `htmlSafeSet[b]` for an ASCII byte: printable and none of
the double quote, the backslash, `<`, `>`, `&`. -/
def htmlSafe (b : Byte) : Bool :=
  0x20 ≤ b.val && b.val < 0x80 &&
    !(b.val = 0x22 || b.val = 0x5C || b.val = 0x3C || b.val = 0x3E || b.val = 0x26)

/-- What the encoder writes for an ASCII byte that is not in `htmlSafeSet`. -/
def escapeASCII (b : Byte) : Bytes :=
  if b.val = 0x5C ∨ b.val = 0x22 then [0x5C, b]
  else if b.val = 0x08 then [0x5C, 0x62]
  else if b.val = 0x0C then [0x5C, 0x66]
  else if b.val = 0x0A then [0x5C, 0x6E]
  else if b.val = 0x0D then [0x5C, 0x72]
  else if b.val = 0x09 then [0x5C, 0x74]
  else [0x5C, 0x75, 0x30, 0x30, lowerhex (b.val / 16), lowerhex (b.val % 16)]

/-- What the encoder writes for a byte that is not valid UTF-8: the three
bytes of U+FFFD when `raw`, else the six characters of its escape. -/
def replacement (raw : Bool) : Bytes :=
  if raw then [0xEF, 0xBF, 0xBD] else [0x5C, 0x75, 0x66, 0x66, 0x66, 0x64]

/-- The loop of Go `appendString(dst, s, escapeHTML = true)` between the
quotes; `raw` is the `rawReplacement` of the release. -/
def appendStringLoop (raw : Bool) : Nat → Bytes → Bytes
  | 0, _ => []
  | _ + 1, [] => []
  | n + 1, b :: t =>
    if b.val < 0x80 then
      if htmlSafe b then b :: appendStringLoop raw n t
      else escapeASCII b ++ appendStringLoop raw n t
    else if (utf8.DecodeRune (b :: t)).1 = utf8.RuneError ∧ (utf8.DecodeRune (b :: t)).2 = 1 then
      replacement raw ++ appendStringLoop raw n t
    else if (utf8.DecodeRune (b :: t)).1 = 0x2028 ∨ (utf8.DecodeRune (b :: t)).1 = 0x2029 then
      [0x5C, 0x75, 0x32, 0x30, 0x32, lowerhex ((utf8.DecodeRune (b :: t)).1 % 16)] ++
        appendStringLoop raw n ((b :: t).drop (utf8.DecodeRune (b :: t)).2)
    else
      (b :: t).take (utf8.DecodeRune (b :: t)).2 ++
        appendStringLoop raw n ((b :: t).drop (utf8.DecodeRune (b :: t)).2)

/-- Go `appendString`: a JSON string literal for `s`. -/
def appendString (raw : Bool) (s : Bytes) : Bytes :=
  [0x22] ++ appendStringLoop raw s.length s ++ [0x22]

/-- Decimal digits of `n`, most significant first, put in front of `acc`. -/
def digitsLoop : Nat → Nat → Bytes → Bytes
  | 0, _, acc => acc
  | fuel + 1, n, acc =>
    if n < 10 then byte (0x30 + n) :: acc
    else digitsLoop fuel (n / 10) (byte (0x30 + n % 10) :: acc)

/-- Go `strconv.AppendInt(nil, i, 10)`. -/
def AppendInt (i : Int) : Bytes :=
  if i < 0 then 0x2D :: digitsLoop (i.natAbs + 1) i.natAbs []
  else digitsLoop (i.natAbs + 1) i.natAbs []

/-- Value of a run of decimal digits, `none` when a byte is not a digit or
the run is empty. -/
def parseDigits : Bytes → Nat → Option Nat
  | [], _ => none
  | [c], acc => if 0x30 ≤ c.val ∧ c.val ≤ 0x39 then some (acc * 10 + (c.val - 0x30)) else none
  | c :: d :: rest, acc =>
    if 0x30 ≤ c.val ∧ c.val ≤ 0x39 then parseDigits (d :: rest) (acc * 10 + (c.val - 0x30))
    else none

/-- Go `strconv.ParseInt(s, 10, 64)`: an optional sign and digits, the value
within the range of `int64`. -/
def ParseInt (s : Bytes) : Option Int :=
  match s with
  | [] => none
  | c :: rest =>
    if c.val = 0x2D then
      match parseDigits rest 0 with
      | some n => if n ≤ 2 ^ 63 then some (-(n : Int)) else none
      | none => none
    else if c.val = 0x2B then
      match parseDigits rest 0 with
      | some n => if n < 2 ^ 63 then some (n : Int) else none
      | none => none
    else
      match parseDigits (c :: rest) 0 with
      | some n => if n < 2 ^ 63 then some (n : Int) else none
      | none => none

/-- JSON white space: space, tab, carriage return, line feed. -/
def isSpace (c : Byte) : Bool := c.val = 0x20 || c.val = 0x09 || c.val = 0x0D || c.val = 0x0A

/-- Drop leading JSON white space. -/
def skipSpace : Bytes → Bytes
  | [] => []
  | c :: rest => if isSpace c then skipSpace rest else c :: rest

/-- Go `getu4` on the four bytes after a backslash and `u`: their value as
hexadecimal digits. -/
def getu4 : Bytes → Option Nat
  | a :: b :: c :: d :: _ =>
    if url.ishex a && url.ishex b && url.ishex c && url.ishex d then
      some (url.unhex a * 4096 + url.unhex b * 256 + url.unhex c * 16 + url.unhex d)
    else none
  | _ => none

/-- The byte a one-letter escape stands for, as the scanner accepts them. -/
def simpleEscape (e : Byte) : Option Byte :=
  if e.val = 0x22 ∨ e.val = 0x5C ∨ e.val = 0x2F then some e
  else if e.val = 0x62 then some 0x08
  else if e.val = 0x66 then some 0x0C
  else if e.val = 0x6E then some 0x0A
  else if e.val = 0x72 then some 0x0D
  else if e.val = 0x74 then some 0x09
  else none

/-- The scanner and Go `unquote` on what follows an opening quote: the
decoded string and the input after the closing quote.  Escapes are resolved,
control bytes rejected, other input coerced to valid UTF-8. -/
def unquoteLoop : Nat → Bytes → Option (Bytes × Bytes)
  | 0, _ => none
  | _ + 1, [] => none
  | n + 1, c :: t =>
    if c.val = 0x22 then some ([], t)
    else if c.val = 0x5C then
      match t with
      | [] => none
      | e :: t1 =>
        if e.val = 0x75 then
          match getu4 t1 with
          | none => none
          | some rr =>
            if utf16.IsSurrogate rr then
              match (if strings.startsWith (t1.drop 4) [0x5C, 0x75] then getu4 (t1.drop 6)
                     else none) with
              | some rr1 =>
                if utf16.DecodeRune rr rr1 ≠ 0xFFFD then
                  (unquoteLoop n (t1.drop 10)).map
                    (fun r => (utf8.EncodeRune (utf16.DecodeRune rr rr1) ++ r.1, r.2))
                else
                  (unquoteLoop n (t1.drop 4)).map (fun r => (utf8.EncodeRune 0xFFFD ++ r.1, r.2))
              | none =>
                (unquoteLoop n (t1.drop 4)).map (fun r => (utf8.EncodeRune 0xFFFD ++ r.1, r.2))
            else (unquoteLoop n (t1.drop 4)).map (fun r => (utf8.EncodeRune rr ++ r.1, r.2))
        else
          match simpleEscape e with
          | none => none
          | some b => (unquoteLoop n t1).map (fun r => (b :: r.1, r.2))
    else if c.val < 0x20 then none
    else if c.val < 0x80 then (unquoteLoop n t).map (fun r => (c :: r.1, r.2))
    else
      (unquoteLoop n ((c :: t).drop (utf8.DecodeRune (c :: t)).2)).map
        (fun r => (utf8.EncodeRune (utf8.DecodeRune (c :: t)).1 ++ r.1, r.2))

/-- A string literal after its opening quote. -/
def parseString (s : Bytes) : Option (Bytes × Bytes) := unquoteLoop (s.length + 1) s

/-- Leading decimal digits of `s` and what follows them. -/
def spanDigits : Bytes → Bytes × Bytes
  | [] => ([], [])
  | c :: rest =>
    if 0x30 ≤ c.val ∧ c.val ≤ 0x39 then ((c :: (spanDigits rest).1), (spanDigits rest).2)
    else ([], c :: rest)

/-- The exponent of a number, after the integer part and the fraction
`lit`: `([eE] [+-]? [0-9]+)?`. -/
def parseExponent (lit s : Bytes) : Option (Bytes × Bytes) :=
  match s with
  | [] => some (lit, [])
  | e :: s1 =>
    if e.val = 0x65 ∨ e.val = 0x45 then
      match s1 with
      | [] => none
      | g :: s2 =>
        if g.val = 0x2B ∨ g.val = 0x2D then
          if (spanDigits s2).1 = [] then none
          else some (lit ++ [e, g] ++ (spanDigits s2).1, (spanDigits s2).2)
        else if (spanDigits s1).1 = [] then none
        else some (lit ++ [e] ++ (spanDigits s1).1, (spanDigits s1).2)
    else some (lit, s)

/-- The fraction and exponent of a number, after the integer part `lit`:
`(. [0-9]+)?` and then the exponent. -/
def parseFraction (lit s : Bytes) : Option (Bytes × Bytes) :=
  match s with
  | [] => some (lit, [])
  | p :: s1 =>
    if p.val = 0x2E then
      if (spanDigits s1).1 = [] then none
      else parseExponent (lit ++ [p] ++ (spanDigits s1).1) (spanDigits s1).2
    else parseExponent lit s

/-- The integer part of a number after the optional sign `lit`:
`0 | [1-9][0-9]*`, then fraction and exponent. -/
def parseIntPart (lit s : Bytes) : Option (Bytes × Bytes) :=
  match s with
  | [] => none
  | d :: r =>
    if d.val = 0x30 then parseFraction (lit ++ [d]) r
    else if 0x31 ≤ d.val ∧ d.val ≤ 0x39 then
      parseFraction (lit ++ d :: (spanDigits r).1) (spanDigits r).2
    else none

/-- The scanner on a number: `-? (0 | [1-9][0-9]*) (. [0-9]+)? ([eE] [+-]? [0-9]+)?`;
the literal and the input after it. -/
def parseNumber (s : Bytes) : Option (Bytes × Bytes) :=
  match s with
  | [] => none
  | c :: r => if c.val = 0x2D then parseIntPart [c] r else parseIntPart [] (c :: r)

/-- The elements of an array after the first, up to the closing bracket;
`pv` scans one value. -/
def parseElements (pv : Bytes → Option (JSON × Bytes)) :
    Nat → Bytes → Option (List JSON × Bytes)
  | 0, _ => none
  | n + 1, s =>
    match skipSpace s with
    | [] => none
    | c :: r =>
      if c.val = 0x5D then some ([], r)
      else if c.val = 0x2C then
        match pv r with
        | none => none
        | some (v, r1) => (parseElements pv n r1).map (fun x => (v :: x.1, x.2))
      else none

/-- One `"key": value` member; `pv` scans the value. -/
def parseMember (pv : Bytes → Option (JSON × Bytes)) (s : Bytes) :
    Option ((Bytes × JSON) × Bytes) :=
  match skipSpace s with
  | [] => none
  | q :: r =>
    if q.val = 0x22 then
      match parseString r with
      | none => none
      | some (key, r1) =>
        match skipSpace r1 with
        | [] => none
        | c :: r2 =>
          if c.val = 0x3A then
            match pv r2 with
            | none => none
            | some (v, r3) => some ((key, v), r3)
          else none
    else none

/-- The members of an object after the first, up to the closing brace. -/
def parseMembers (pv : Bytes → Option (JSON × Bytes)) :
    Nat → Bytes → Option (List (Bytes × JSON) × Bytes)
  | 0, _ => none
  | n + 1, s =>
    match skipSpace s with
    | [] => none
    | c :: r =>
      if c.val = 0x7D then some ([], r)
      else if c.val = 0x2C then
        match parseMember pv r with
        | none => none
        | some (m, r1) => (parseMembers pv n r1).map (fun x => (m :: x.1, x.2))
      else none

/-- The scanner on one JSON value, white space before it allowed; an array
or object may open while `depth` is above zero, as the scanner refuses the one
that would make the nesting exceed `maxNestingDepth`. -/
def parseValue : Nat → Bytes → Option (JSON × Bytes)
  | 0, _ => none
  | depth + 1, s =>
    match skipSpace s with
    | [] => none
    | c :: r =>
      if c.val = 0x7B then
        if depth = 0 then none
        else
          match skipSpace r with
          | [] => none
          | x :: r1 =>
            if x.val = 0x7D then some (.object [], r1)
            else
              match parseMember (parseValue depth) (x :: r1) with
              | none => none
              | some (m, r2) =>
                (parseMembers (parseValue depth) (r2.length + 1) r2).map
                  (fun y => (.object (m :: y.1), y.2))
      else if c.val = 0x5B then
        if depth = 0 then none
        else
          match skipSpace r with
          | [] => none
          | x :: r1 =>
            if x.val = 0x5D then some (.array [], r1)
            else
              match parseValue depth (x :: r1) with
              | none => none
              | some (v, r2) =>
                (parseElements (parseValue depth) (r2.length + 1) r2).map
                  (fun y => (.array (v :: y.1), y.2))
      else if c.val = 0x22 then (parseString r).map (fun y => (.string y.1, y.2))
      else if strings.startsWith (c :: r) [0x74, 0x72, 0x75, 0x65] then
        some (.bool true, r.drop 3)
      else if strings.startsWith (c :: r) [0x66, 0x61, 0x6C, 0x73, 0x65] then
        some (.bool false, r.drop 4)
      else if strings.startsWith (c :: r) [0x6E, 0x75, 0x6C, 0x6C] then some (.null, r.drop 3)
      else (parseNumber (c :: r)).map (fun y => (.number y.1, y.2))

/-- Go `maxNestingDepth`: arrays and objects may nest this deep. -/
def maxNestingDepth : Nat := 10000

/-- Go `checkValid` and the scan of `data`: one JSON value with white space
around it; `none` is a syntax error. -/
def parse (data : Bytes) : Option JSON :=
  match parseValue (maxNestingDepth + 1) data with
  | none => none
  | some (v, rest) => if skipSpace rest = [] then some v else none

/-- The loop of `coerceUTF8`. -/
def coerceLoop : Nat → Bytes → Bytes
  | 0, _ => []
  | _ + 1, [] => []
  | n + 1, b :: t =>
    if (utf8.DecodeRune (b :: t)).1 = utf8.RuneError ∧ (utf8.DecodeRune (b :: t)).2 = 1 then
      [0xEF, 0xBF, 0xBD] ++ coerceLoop n t
    else
      (b :: t).take (utf8.DecodeRune (b :: t)).2 ++
        coerceLoop n ((b :: t).drop (utf8.DecodeRune (b :: t)).2)

/-- The string that a JSON string literal written by `appendString` for `s`
denotes, in every release: `s` with each byte that is not part of a valid
UTF-8 encoding replaced by the encoding of U+FFFD. -/
def coerceUTF8 (s : Bytes) : Bytes := coerceLoop s.length s

/-- The keys of the members of an object, in order; `none` for a value that
is not an object. -/
def JSON.objectKeys : JSON → Option (List Bytes)
  | .object ms => some (ms.map (fun m => m.1))
  | _ => none

/-- Whether `data` is one JSON value that is an object. -/
def isObject (data : Bytes) : Bool :=
  match parse data with
  | some (.object _) => true
  | _ => false

/-- The members of the object that `data` is, in order and with duplicates;
none for other data. -/
def membersOf (data : Bytes) : List (Bytes × JSON) :=
  match parse data with
  | some (.object ms) => ms
  | _ => []

/-- The error `Unmarshal` returns for input that is not one JSON value. -/
def SyntaxError : Error := ⟨"json: syntax error"⟩

/-- The error `Unmarshal` returns when a JSON value does not fit the Go type. -/
def UnmarshalTypeError : Error := ⟨"json: cannot unmarshal value into Go value"⟩

/-- The loop of Go `foldName`: ASCII letters in upper case, the Kelvin sign
(E2 84 AA) as K and the long s (C5 BF) as S.  Other bytes belong to runes that
fold to a rune outside ASCII and are kept, as they never equal a byte of an
ASCII field name. -/
def foldLoop : Nat → Bytes → Bytes
  | 0, _ => []
  | _ + 1, [] => []
  | n + 1, c :: t =>
    if c.val = 0xE2 ∧ strings.startsWith t [0x84, 0xAA] then 0x4B :: foldLoop n (t.drop 2)
    else if c.val = 0xC5 ∧ strings.startsWith t [0xBF] then 0x53 :: foldLoop n (t.drop 1)
    else if 0x61 ≤ c.val ∧ c.val ≤ 0x7A then byte (c.val - 32) :: foldLoop n t
    else c :: foldLoop n t

/-- Go `foldName(key)`. -/
def foldName (s : Bytes) : Bytes := foldLoop s.length s

/-- Whether the object key `key` selects the struct field tagged `name`: the
exact name, or equal to it under case folding. -/
def keyMatches (key name : Bytes) : Bool := key = name || foldName key = foldName name

/-- Decode a JSON value into a Go `string` holding `cur`. -/
def decodeString (cur : Bytes) : JSON → Except Error Bytes
  | .string s => .ok s
  | .null => .ok cur
  | _ => .error UnmarshalTypeError

/-- Decode a JSON value into a Go `int` (64 bits) holding `cur`. -/
def decodeInt (cur : Int) : JSON → Except Error Int
  | .number lit =>
    match ParseInt lit with
    | some i => .ok i
    | none => .error UnmarshalTypeError
  | .null => .ok cur
  | _ => .error UnmarshalTypeError

/-- The members of an object applied in order to a struct value: `setField`
decodes one member into the field its key selects, or skips it. -/
def decodeMembers {α : Type} (setField : α → Bytes → JSON → Except Error α) :
    List (Bytes × JSON) → α → Except Error α
  | [], cur => .ok cur
  | m :: rest, cur =>
    match setField cur m.1 m.2 with
    | .error e => .error e
    | .ok next => decodeMembers setField rest next

/-- Decode a JSON value into a Go struct holding `cur`: an object sets the
fields its keys select, `null` changes nothing, anything else is an error. -/
def decodeStruct {α : Type} (setField : α → Bytes → JSON → Except Error α) (cur : α) :
    JSON → Except Error α
  | .object ms => decodeMembers setField ms cur
  | .null => .ok cur
  | _ => .error UnmarshalTypeError

/-- A Go slice as the decoder finds it: its elements (`none` is the nil
slice) and the elements that its backing array holds beyond its length, left
there when the slice was cut back to a shorter array. -/
structure Slice (α : Type) where
  elems : Option (List α) := none
  spare : List α := []
  deriving DecidableEq, Repr

/-- The loop of Go `(*decodeState).array` on a slice: element `i` of the
array is decoded into element `i` of the backing array, `backing` being what
it holds from `i` on, and into a zero value beyond it. -/
def decodeElements {α : Type} (zero : α) (elem : α → JSON → Except Error α) :
    List JSON → List α → Except Error (List α)
  | [], _ => .ok []
  | v :: rest, backing =>
    match elem (backing.headD zero) v with
    | .error e => .error e
    | .ok a =>
      match decodeElements zero elem rest backing.tail with
      | .error e => .error e
      | .ok as => .ok (a :: as)

/-- Decode a JSON value into a Go slice holding `cur`: an array decodes its
elements into those of the backing array and cuts the slice to its length, the
empty array gives a fresh empty slice, `null` gives nil; anything else is an
error. -/
def decodeSlice {α : Type} (zero : α) (elem : α → JSON → Except Error α) (cur : Slice α) :
    JSON → Except Error (Slice α)
  | .array [] => .ok { elems := some [], spare := [] }
  | .array (e :: es) =>
    match decodeElements zero elem (e :: es) (cur.elems.getD [] ++ cur.spare) with
    | .error err => .error err
    | .ok l =>
      .ok { elems := some l, spare := (cur.elems.getD [] ++ cur.spare).drop (es.length + 1) }
  | .null => .ok { elems := none, spare := [] }
  | _ => .error UnmarshalTypeError

/-- Go `json.Unmarshal(data, &v)` for a struct `v` holding `zero`. -/
def UnmarshalWith {α : Type} (decode : JSON → Except Error α) (data : Bytes) : Except Error α :=
  match parse data with
  | none => .error SyntaxError
  | some v => decode v

end json

/-! ## net/http -/

namespace http

/-- Go `http.Header`, a `map[string][]string`. -/
abbrev Header := List (Bytes × List Bytes)

/-- Go `httpguts.IsTokenRune` on a byte: the characters of an HTTP token. -/
def isTokenByte (c : Byte) : Bool :=
  url.isAlnum c ||
    decide (c.val ∈ [0x21, 0x23, 0x24, 0x25, 0x26, 0x27, 0x2A, 0x2B, 0x2D, 0x2E, 0x5E, 0x5F,
      0x60, 0x7C, 0x7E])

/-- The loop of Go `textproto.CanonicalMIMEHeaderKey`: upper case at the start
and after a hyphen, lower case elsewhere. -/
def canonicalLoop : Bool → Bytes → Bytes
  | _, [] => []
  | upper, c :: rest =>
    let c1 : Byte :=
      if upper ∧ 0x61 ≤ c.val ∧ c.val ≤ 0x7A then byte (c.val - 32)
      else if ¬ upper ∧ 0x41 ≤ c.val ∧ c.val ≤ 0x5A then byte (c.val + 32)
      else c
    c1 :: canonicalLoop (c1.val = 0x2D) rest

/-- Go `textproto.CanonicalMIMEHeaderKey(s)`; a key with a byte that is not a
token character is returned unchanged. -/
def CanonicalMIMEHeaderKey (s : Bytes) : Bytes :=
  if s.all isTokenByte then canonicalLoop true s else s

/-- Go `Header.Add(key, value)`. -/
def Header.Add (h : Header) (key value : Bytes) : Header :=
  url.Values.Add h (CanonicalMIMEHeaderKey key) value

/-- Go `Header.Values(key)`: all values of the key. -/
def Header.Values (h : Header) (key : Bytes) : List Bytes :=
  match h.find? (fun kv => kv.1 = CanonicalMIMEHeaderKey key) with
  | some kv => kv.2
  | none => []

/-- Go `http.Request`, the fields this client sets; `Body = none` is a nil body. -/
structure Request where
  Method : Bytes
  URL : url.URL
  Header : Header
  Body : Option Bytes
  Host : Bytes
  deriving DecidableEq, Repr

/-- Go `http.validMethod`. -/
def validMethod (method : Bytes) : Bool := method ≠ [] && method.all isTokenByte

/-- Go `http.removeEmptyPort(host)`: drop a trailing `:` that ends the host. -/
def removeEmptyPort (host : Bytes) : Bytes :=
  let hasPort : Bool :=
    match strings.LastIndex host 0x3A, strings.LastIndex host 0x5D with
    | some i, some j => j < i
    | some _, none => true
    | none, _ => false
  if hasPort ∧ strings.endsWith host 0x3A then host.dropLast else host

/-- Go `http.NewRequest(method, url, body)`. -/
def NewRequest (go : GoRelease) (method urlStr : Bytes) (body : Option Bytes) :
    Except Error Request :=
  let method1 := if method = [] then str "GET" else method
  if !validMethod method1 then .error ⟨"net/http: invalid method"⟩
  else
    match url.Parse go urlStr with
    | .error e => .error e
    | .ok u =>
      .ok { Method := method1, URL := { u with Host := removeEmptyPort u.Host }, Header := [],
            Body := body, Host := removeEmptyPort u.Host }

end http

/-! ## mime/multipart, path/filepath, os -/

namespace filepath

/-- Go `filepath.Base(path)` with `/` as the separator. -/
def Base (path : Bytes) : Bytes :=
  if path = [] then [0x2E]
  else
    let stripped := (path.reverse.dropWhile (fun c => c.val = 0x2F)).reverse
    let last := (stripped.reverse.takeWhile (fun c => c.val ≠ 0x2F)).reverse
    if last = [] then [0x2F] else last

end filepath

namespace multipart

/-- Go `multipart.escapeQuotes` as Go 1.22 has it: a backslash before each
backslash and each double quote. -/
def escapeQuotes (s : Bytes) : Bytes :=
  s.flatMap (fun c => if c.val = 0x5C ∨ c.val = 0x22 then [0x5C, c] else [c])

/-- Go `(*Writer).CreateFormFile(fieldname, filename)` on a fresh writer over
a `bytes.Buffer`: the buffer then holds the boundary line and the part
header; writes to the buffer have no error. -/
def CreateFormFile (go : GoRelease) (boundary fieldname filename : Bytes) :
    Except Error Bytes :=
  .ok (str "--" ++ boundary ++ str "\r\n" ++
    str "Content-Disposition: form-data; name=\"" ++ go.escapeQuotes fieldname ++
    str "\"; filename=\"" ++ go.escapeQuotes filename ++ str "\"\r\n" ++
    str "Content-Type: application/octet-stream\r\n\r\n")

/-- Go `(*Writer).Close()` on a buffer holding `buf`: the closing boundary
line is written; the returned error is nil. -/
def Close (boundary buf : Bytes) : Bytes × Option Error :=
  (buf ++ str "\r\n--" ++ boundary ++ str "--\r\n", none)

/-- Go `(*Writer).FormDataContentType()`. -/
def FormDataContentType (boundary : Bytes) : Bytes :=
  str "multipart/form-data; boundary=" ++
    (if boundary.any (fun c => decide (c ∈ str "()<>@,;:\\\"/[]?= ")) then
      [0x22] ++ boundary ++ [0x22]
    else boundary)

end multipart

/-- Go 1.22 at the points where releases differ. -/
def GoRelease.go122 : GoRelease :=
  { parseHost := url.parseHost, rawReplacement := false, escapeQuotes := multipart.escapeQuotes }

namespace os

/-- An opened file as `io.Copy` sees it: the bytes its reads deliver, and the
error that ends the reads when it is not end-of-file. -/
structure File where
  data : Bytes
  readErr : Option Error
  deriving DecidableEq, Repr

end os

namespace io

/-- Go `io.Copy(part, file)` into a buffer holding `buf`: what the reads
deliver is written to the buffer; the error is the one that ended the reads. -/
def Copy (buf : Bytes) (file : os.File) : Bytes × Option Error := (buf ++ file.data, file.readErr)

end io

/-- What the process finds around it: the file system behind `os.Open`, and
the boundary `multipart.NewWriter` draws at random. -/
structure Env where
  Open : Bytes → Except Error os.File
  randomBoundary : Bytes

/-! ## The client: shared state -/

/-- Go `Wiki`, as far as these files use it: the API endpoint base, the site
root, and the method `sendRequest`, whose body is not in these files.
`transport sent req` is what `sendRequest` returns for `req` when the requests
`sent` went out before it. -/
structure Wiki where
  endPoint : url.URL
  root : url.URL
  transport : List http.Request → http.Request → Except Error Bytes

/-- A run of client code: from the requests sent so far to the result and
the requests sent after it. -/
def Run (α : Type) : Type := List http.Request → Outcome α × List http.Request

/-- A run that returns `a` and sends nothing. -/
def Run.pure {α : Type} (a : α) : Run α := fun sent => (.ok a, sent)

/-- A run that returns the error `e`: Go `return nil, err`. -/
def Run.err {α : Type} (e : Error) : Run α := fun sent => (.err e, sent)

/-- A run that panics. -/
def Run.panic {α : Type} (msg : String) : Run α := fun sent => (.panic msg, sent)

/-- Sequencing: `x, err := f(); if err != nil { return nil, err }; g(x)`.  An
error or a panic of `f` ends the run; what was sent stays sent. -/
def Run.bind {α β : Type} (f : Run α) (g : α → Run β) : Run β := fun sent =>
  match f sent with
  | (.ok a, sent1) => g a sent1
  | (.err e, sent1) => (.err e, sent1)
  | (.panic m, sent1) => (.panic m, sent1)

instance : Monad Run where
  pure := Run.pure
  bind := Run.bind

/-- A call of a function that returns `(value, error)` and sends nothing. -/
def Run.ofExcept {α : Type} : Except Error α → Run α
  | .ok a => Run.pure a
  | .error e => Run.err e

/-- A use of `p.field` where `p, err := f()` and `err` was not looked at: a
nil `p` is dereferenced when `f` failed. -/
def Run.derefOrPanic {α : Type} : Except Error α → Run α
  | .ok a => Run.pure a
  | .error _ => Run.panic "runtime error: invalid memory address or nil pointer dereference"

/-- Go `s[0]` on a slice. -/
def Run.index0 {α : Type} : List α → Run α
  | [] => Run.panic "runtime error: index out of range [0] with length 0"
  | a :: _ => Run.pure a

/-- Go `w.sendRequest(req)`: the request goes out, the transport answers. -/
def Wiki.sendRequest (w : Wiki) (req : http.Request) : Run Bytes := fun sent =>
  match w.transport sent req with
  | .ok res => (.ok res, sent ++ [req])
  | .error e => (.err e, sent ++ [req])

/-- Modelled from the spec: the struct `ResultPagination` embedded in the
result envelopes is declared outside these files; the spec names its paging
metadata size, limit and start. -/
structure ResultPagination where
  Size : Int := 0
  Limit : Int := 0
  Start : Int := 0
  deriving DecidableEq, Repr

/-- Decode one object member into `ResultPagination`. -/
def ResultPagination.setField (p : ResultPagination) (key : Bytes) (v : json.JSON) :
    Except Error ResultPagination :=
  if json.keyMatches key (str "size") then
    (json.decodeInt p.Size v).map (fun x => { p with Size := x })
  else if json.keyMatches key (str "limit") then
    (json.decodeInt p.Limit v).map (fun x => { p with Limit := x })
  else if json.keyMatches key (str "start") then
    (json.decodeInt p.Start v).map (fun x => { p with Start := x })
  else .ok p

/-! ## content.go -/

/-- Go `ContentAncestor`. -/
structure ContentAncestor where
  Id : Bytes := []
  deriving DecidableEq, Repr

/-- Go `Content.Body.Storage`. -/
structure ContentStorage where
  Value : Bytes := []
  Representation : Bytes := []
  deriving DecidableEq, Repr

/-- Go `Content.Body`. -/
structure ContentBody where
  Storage : ContentStorage := {}
  deriving DecidableEq, Repr

/-- Go `Content.Version`; `Number` is a Go `int`. -/
structure ContentVersion where
  Number : Int := 0
  deriving DecidableEq, Repr

/-- Go `Content`; `Type_` is the field `Type`, `Ancestors = none` the nil slice. -/
structure Content where
  Id : Bytes := []
  Type_ : Bytes := []
  Status : Bytes := []
  Title : Bytes := []
  Body : ContentBody := {}
  Version : ContentVersion := {}
  Ancestors : Option (List ContentAncestor) := none
  deriving DecidableEq, Repr

/-- Go `ChildResults`. -/
structure ChildResults where
  ResultPagination : ResultPagination := {}
  Results : Option (List Content) := none
  deriving DecidableEq, Repr

/-- What `json.Marshal` writes for a `ContentAncestor`. -/
def ContentAncestor.Marshal (raw : Bool) (a : ContentAncestor) : Bytes :=
  str "\x7b\"id\":" ++ json.appendString raw a.Id ++ str "\x7d"

/-- What `json.Marshal` writes for a `[]ContentAncestor` that is not nil: the
elements separated by commas. -/
def marshalAncestors (raw : Bool) : List ContentAncestor → Bytes
  | [] => []
  | [a] => a.Marshal raw
  | a :: b :: rest => a.Marshal raw ++ [0x2C] ++ marshalAncestors raw (b :: rest)

/-- Go `json.Marshal(content)`: every field under the name of its tag, in the
order of declaration; no field is tagged `omitempty`.  `raw` is the
`rawReplacement` of the release. -/
def Content.Marshal (raw : Bool) (c : Content) : Bytes :=
  str "\x7b\"id\":" ++ json.appendString raw c.Id ++
  str ",\"type\":" ++ json.appendString raw c.Type_ ++
  str ",\"status\":" ++ json.appendString raw c.Status ++
  str ",\"title\":" ++ json.appendString raw c.Title ++
  str ",\"body\":\x7b\"storage\":\x7b\"value\":" ++
    json.appendString raw c.Body.Storage.Value ++
  str ",\"representation\":" ++ json.appendString raw c.Body.Storage.Representation ++
  str "\x7d\x7d,\"version\":\x7b\"number\":" ++ json.AppendInt c.Version.Number ++
  str "\x7d,\"ancestors\":" ++
  (match c.Ancestors with
    | none => str "null"
    | some l => [0x5B] ++ marshalAncestors raw l ++ [0x5D]) ++
  str "\x7d"

/-- The document that `ContentAncestor.Marshal` writes. -/
def ContentAncestor.document (a : ContentAncestor) : json.JSON :=
  .object [(str "id", .string (json.coerceUTF8 a.Id))]

/-- The document that `Content.Marshal` writes: one member for each field. -/
def Content.document (c : Content) : json.JSON :=
  .object
    [(str "id", .string (json.coerceUTF8 c.Id)),
     (str "type", .string (json.coerceUTF8 c.Type_)),
     (str "status", .string (json.coerceUTF8 c.Status)),
     (str "title", .string (json.coerceUTF8 c.Title)),
     (str "body", .object [(str "storage", .object
        [(str "value", .string (json.coerceUTF8 c.Body.Storage.Value)),
         (str "representation", .string (json.coerceUTF8 c.Body.Storage.Representation))])]),
     (str "version", .object [(str "number", .number (json.AppendInt c.Version.Number))]),
     (str "ancestors",
        match c.Ancestors with
        | none => .null
        | some l => .array (l.map ContentAncestor.document))]

/-- Whether an object key selects a field of `Content`. -/
def Content.hasField (key : Bytes) : Bool :=
  json.keyMatches key (str "id") || json.keyMatches key (str "type") ||
    json.keyMatches key (str "status") || json.keyMatches key (str "title") ||
    json.keyMatches key (str "body") || json.keyMatches key (str "version") ||
    json.keyMatches key (str "ancestors")

/-- All strings of a `Content` are valid UTF-8 and its version number is in
the range of a Go `int` (64 bits). -/
def Content.WellFormed (c : Content) : Prop :=
  utf8.ValidString c.Id = true ∧ utf8.ValidString c.Type_ = true ∧
    utf8.ValidString c.Status = true ∧ utf8.ValidString c.Title = true ∧
    utf8.ValidString c.Body.Storage.Value = true ∧
    utf8.ValidString c.Body.Storage.Representation = true ∧
    (∀ a ∈ c.Ancestors.getD [], utf8.ValidString a.Id = true) ∧
    -(2 : Int) ^ 63 ≤ c.Version.Number ∧ c.Version.Number < (2 : Int) ^ 63

/-- Decode one object member into a `ContentAncestor`. -/
def ContentAncestor.setField (a : ContentAncestor) (key : Bytes) (v : json.JSON) :
    Except Error ContentAncestor :=
  if json.keyMatches key (str "id") then
    (json.decodeString a.Id v).map (fun x => { a with Id := x })
  else .ok a

/-- Decode one object member into `Content.Body.Storage`. -/
def ContentStorage.setField (s : ContentStorage) (key : Bytes) (v : json.JSON) :
    Except Error ContentStorage :=
  if json.keyMatches key (str "value") then
    (json.decodeString s.Value v).map (fun x => { s with Value := x })
  else if json.keyMatches key (str "representation") then
    (json.decodeString s.Representation v).map (fun x => { s with Representation := x })
  else .ok s

/-- Decode one object member into `Content.Body`. -/
def ContentBody.setField (b : ContentBody) (key : Bytes) (v : json.JSON) :
    Except Error ContentBody :=
  if json.keyMatches key (str "storage") then
    (json.decodeStruct ContentStorage.setField b.Storage v).map (fun x => { b with Storage := x })
  else .ok b

/-- Decode one object member into `Content.Version`. -/
def ContentVersion.setField (n : ContentVersion) (key : Bytes) (v : json.JSON) :
    Except Error ContentVersion :=
  if json.keyMatches key (str "number") then
    (json.decodeInt n.Number v).map (fun x => { n with Number := x })
  else .ok n

/-- A `Content` while the decoder fills it: the value, and the elements that
the backing array of `Ancestors` holds beyond its length. -/
structure ContentCell where
  val : Content := {}
  spare : List ContentAncestor := []
  deriving DecidableEq, Repr

/-- Decode one object member into a `Content`: the key selects a field by its
tag; a key that selects none is skipped. -/
def ContentCell.setField (c : ContentCell) (key : Bytes) (v : json.JSON) :
    Except Error ContentCell :=
  if json.keyMatches key (str "id") then
    (json.decodeString c.val.Id v).map (fun x => { c with val := { c.val with Id := x } })
  else if json.keyMatches key (str "type") then
    (json.decodeString c.val.Type_ v).map (fun x => { c with val := { c.val with Type_ := x } })
  else if json.keyMatches key (str "status") then
    (json.decodeString c.val.Status v).map (fun x => { c with val := { c.val with Status := x } })
  else if json.keyMatches key (str "title") then
    (json.decodeString c.val.Title v).map (fun x => { c with val := { c.val with Title := x } })
  else if json.keyMatches key (str "body") then
    (json.decodeStruct ContentBody.setField c.val.Body v).map
      (fun x => { c with val := { c.val with Body := x } })
  else if json.keyMatches key (str "version") then
    (json.decodeStruct ContentVersion.setField c.val.Version v).map
      (fun x => { c with val := { c.val with Version := x } })
  else if json.keyMatches key (str "ancestors") then
    (json.decodeSlice {} (json.decodeStruct ContentAncestor.setField)
        { elems := c.val.Ancestors, spare := c.spare } v).map
      (fun x => { val := { c.val with Ancestors := x.elems }, spare := x.spare })
  else .ok c

/-- Go `json.Unmarshal(res, &content)` for a zero `Content`. -/
def Content.Unmarshal (data : Bytes) : Except Error Content :=
  (json.UnmarshalWith (json.decodeStruct ContentCell.setField {}) data).map (fun c => c.val)

/-- A `ChildResults` while the decoder fills it: the elements of `Results`
are filled in place, and the backing array of `Results` may hold more. -/
structure ChildResultsCell where
  ResultPagination : ResultPagination := {}
  Results : json.Slice ContentCell := {}
  deriving DecidableEq, Repr

/-- The `ChildResults` that a filled cell holds. -/
def ChildResultsCell.val (r : ChildResultsCell) : ChildResults :=
  { ResultPagination := r.ResultPagination,
    Results := r.Results.elems.map (fun l => l.map (fun c => c.val)) }

/-- Decode one object member into a `ChildResults`; the fields of the embedded
`ResultPagination` are promoted. -/
def ChildResultsCell.setField (r : ChildResultsCell) (key : Bytes) (v : json.JSON) :
    Except Error ChildResultsCell :=
  if json.keyMatches key (str "results") then
    (json.decodeSlice {} (json.decodeStruct ContentCell.setField) r.Results v).map
      (fun x => { r with Results := x })
  else
    (r.ResultPagination.setField key v).map (fun x => { r with ResultPagination := x })

/-- Go `json.Unmarshal(res, &content)` for a zero `ChildResults`. -/
def ChildResults.Unmarshal (data : Bytes) : Except Error ChildResults :=
  (json.UnmarshalWith (json.decodeStruct ChildResultsCell.setField {}) data).map
    (fun r => r.val)

/-- Go `(w *Wiki) existingContentEndpoint(contentID)`. -/
def Wiki.existingContentEndpoint (go : GoRelease) (w : Wiki) (contentID : Bytes) :
    Except Error url.URL :=
  url.ParseRequestURI go (w.endPoint.String ++ str "/content/" ++ contentID)

/-- Go `(w *Wiki) contentChildPagesEndpoint(contentID)`. -/
def Wiki.contentChildPagesEndpoint (go : GoRelease) (w : Wiki) (contentID : Bytes) :
    Except Error url.URL :=
  url.ParseRequestURI go (w.endPoint.String ++ str "/content/" ++ contentID ++ str "/child/page")

/-- Go `(w *Wiki) newContentEndpoint()`. -/
def Wiki.newContentEndpoint (go : GoRelease) (w : Wiki) : Except Error url.URL :=
  url.ParseRequestURI go (w.endPoint.String ++ str "/content")

/-- Go `(w *Wiki) DeleteContent(contentID)`. -/
def Wiki.DeleteContent (go : GoRelease) (w : Wiki) (contentID : Bytes) : Run Unit := do
  let contentEndPoint ← Run.ofExcept (w.existingContentEndpoint go contentID)
  let req ← Run.ofExcept (http.NewRequest go (str "DELETE") contentEndPoint.String none)
  let _ ← w.sendRequest req
  return ()

/-- Go `(w *Wiki) GetContent(contentID, expand)`. -/
def Wiki.GetContent (go : GoRelease) (w : Wiki) (contentID : Bytes) (expand : List Bytes) :
    Run Content := do
  let contentEndPoint ← Run.ofExcept (w.existingContentEndpoint go contentID)
  let data : url.Values := url.Values.Set [] (str "expand") (strings.Join expand (str ","))
  let contentEndPoint : url.URL := { contentEndPoint with RawQuery := data.Encode }
  let req ← Run.ofExcept (http.NewRequest go (str "GET") contentEndPoint.String none)
  let res ← w.sendRequest req
  let content ← Run.ofExcept (Content.Unmarshal res)
  return content

/-- Go `(w *Wiki) internalCreateOrUpdateContent(content, contentEndPoint, method)`.
`json.Marshal` has no error for a `Content`.  The error of `http.NewRequest`
is not looked at before `req.Header.Add`. -/
def Wiki.internalCreateOrUpdateContent (go : GoRelease) (w : Wiki) (content : Content)
    (contentEndPoint : url.URL) (method : Bytes) : Run Content := do
  let jsonBody := content.Marshal go.rawReplacement
  let req ← Run.derefOrPanic (http.NewRequest go method contentEndPoint.String (some jsonBody))
  let req : http.Request :=
    { req with Header := req.Header.Add (str "Content-Type") (str "application/json") }
  let res ← w.sendRequest req
  let newContent ← Run.ofExcept (Content.Unmarshal res)
  return newContent

/-- Go `(w *Wiki) UpdateContent(content)`. -/
def Wiki.UpdateContent (go : GoRelease) (w : Wiki) (content : Content) : Run Content := do
  let contentEndPoint ← Run.ofExcept (w.existingContentEndpoint go content.Id)
  w.internalCreateOrUpdateContent go content contentEndPoint (str "PUT")

/-- Go `(w *Wiki) CreateContent(content)`. -/
def Wiki.CreateContent (go : GoRelease) (w : Wiki) (content : Content) : Run Content := do
  let contentEndPoint ← Run.ofExcept (w.newContentEndpoint go)
  w.internalCreateOrUpdateContent go content contentEndPoint (str "POST")

/-- Go `(w *Wiki) GetContentChildPages(contentID, expand)`. -/
def Wiki.GetContentChildPages (go : GoRelease) (w : Wiki) (contentID : Bytes)
    (expand : List Bytes) : Run ChildResults := do
  let contentEndPoint ← Run.ofExcept (w.contentChildPagesEndpoint go contentID)
  let data : url.Values := url.Values.Set [] (str "expand") (strings.Join expand (str ","))
  let contentEndPoint : url.URL := { contentEndPoint with RawQuery := data.Encode }
  let req ← Run.ofExcept (http.NewRequest go (str "GET") contentEndPoint.String none)
  let res ← w.sendRequest req
  let content ← Run.ofExcept (ChildResults.Unmarshal res)
  return content

/-! ## attachment.go -/

/-- Go `Attachment.Links`. -/
structure AttachmentLinks where
  Download : Bytes := []
  deriving DecidableEq, Repr

/-- Go `Attachment`. -/
structure Attachment where
  ID : Bytes := []
  Title : Bytes := []
  Links : AttachmentLinks := {}
  deriving DecidableEq, Repr

/-- Go `AttachmentResults`; `Results = none` is the nil slice. -/
structure AttachmentResults where
  ResultPagination : ResultPagination := {}
  Results : Option (List Attachment) := none
  deriving DecidableEq, Repr

/-- Decode one object member into `Attachment.Links`. -/
def AttachmentLinks.setField (l : AttachmentLinks) (key : Bytes) (v : json.JSON) :
    Except Error AttachmentLinks :=
  if json.keyMatches key (str "download") then
    (json.decodeString l.Download v).map (fun x => { l with Download := x })
  else .ok l

/-- Decode one object member into an `Attachment`. -/
def Attachment.setField (a : Attachment) (key : Bytes) (v : json.JSON) :
    Except Error Attachment :=
  if json.keyMatches key (str "id") then
    (json.decodeString a.ID v).map (fun x => { a with ID := x })
  else if json.keyMatches key (str "title") then
    (json.decodeString a.Title v).map (fun x => { a with Title := x })
  else if json.keyMatches key (str "_links") then
    (json.decodeStruct AttachmentLinks.setField a.Links v).map (fun x => { a with Links := x })
  else .ok a

/-- An `AttachmentResults` while the decoder fills it: the value, and the
elements that the backing array of `Results` holds beyond its length. -/
structure AttachmentResultsCell where
  val : AttachmentResults := {}
  spare : List Attachment := []
  deriving DecidableEq, Repr

/-- Decode one object member into an `AttachmentResults`; the fields of the
embedded `ResultPagination` are promoted. -/
def AttachmentResultsCell.setField (r : AttachmentResultsCell) (key : Bytes) (v : json.JSON) :
    Except Error AttachmentResultsCell :=
  if json.keyMatches key (str "results") then
    (json.decodeSlice {} (json.decodeStruct Attachment.setField)
        { elems := r.val.Results, spare := r.spare } v).map
      (fun x => { val := { r.val with Results := x.elems }, spare := x.spare })
  else
    (r.val.ResultPagination.setField key v).map
      (fun x => { r with val := { r.val with ResultPagination := x } })

/-- Go `json.Unmarshal(res, &results)` for a zero `AttachmentResults`. -/
def AttachmentResults.Unmarshal (data : Bytes) : Except Error AttachmentResults :=
  (json.UnmarshalWith (json.decodeStruct AttachmentResultsCell.setField {}) data).map
    (fun r => r.val)

/-- Go `(w *Wiki) getAttachmentByFilenameEndpoint(contentID, filename)`;
`fmt.Sprintf` with `%v` puts each string in as it is. -/
def Wiki.getAttachmentByFilenameEndpoint (go : GoRelease) (w : Wiki)
    (contentID filename : Bytes) : Except Error url.URL :=
  url.ParseRequestURI go
    (w.endPoint.String ++ str "/content/" ++ contentID ++ str "/child/attachment?filename=" ++
      filename)

/-- Go `(w *Wiki) createAttachmentEndpoint(contentID)`. -/
def Wiki.createAttachmentEndpoint (go : GoRelease) (w : Wiki) (contentID : Bytes) :
    Except Error url.URL :=
  url.ParseRequestURI go
    (w.endPoint.String ++ str "/content/" ++ contentID ++ str "/child/attachment")

/-- Go `(w *Wiki) updateAttachmentEndpoint(contentID, attachmentID)`. -/
def Wiki.updateAttachmentEndpoint (go : GoRelease) (w : Wiki) (contentID attachmentID : Bytes) :
    Except Error url.URL :=
  url.ParseRequestURI go
    (w.endPoint.String ++ str "/content/" ++ contentID ++ str "/child/attachment/" ++
      attachmentID ++ str "/data")

/-- Go `(w *Wiki) GetAttachment(contentID, filename)`. -/
def Wiki.GetAttachment (go : GoRelease) (w : Wiki) (contentID filename : Bytes) :
    Run AttachmentResults := do
  let endpoint ← Run.ofExcept (w.getAttachmentByFilenameEndpoint go contentID filename)
  let req ← Run.ofExcept (http.NewRequest go (str "GET") endpoint.String none)
  let res ← w.sendRequest req
  let results ← Run.ofExcept (AttachmentResults.Unmarshal res)
  return results

/-- Go `(w *Wiki) GetAttachmentData(contentID, filename)`.  `result.Results[0]`
is evaluated without a look at the length of `Results`. -/
def Wiki.GetAttachmentData (go : GoRelease) (w : Wiki) (contentID filename : Bytes) :
    Run Bytes := do
  let result ← w.GetAttachment go contentID filename
  let first ← Run.index0 (result.Results.getD [])
  let req ← Run.ofExcept
    (http.NewRequest go (str "GET") (w.root.String ++ first.Links.Download) none)
  let res ← w.sendRequest req
  return res

/-- Go `(w *Wiki) createOrUpdateAttachment(endpoint, path)`.  The multipart
writer writes to a `bytes.Buffer`, so `CreateFormFile` and `Close` have no
error.  The error of `io.Copy` is assigned to `err` and `err` is assigned
again from `writer.Close()` before it is looked at.  The error of
`http.NewRequest` is looked at only after `req.Header.Add`. -/
def Wiki.createOrUpdateAttachment (go : GoRelease) (env : Env) (w : Wiki) (endpoint : url.URL)
    (path : Bytes) : Run AttachmentResults := do
  let file ← Run.ofExcept (env.Open path)
  let boundary := env.randomBoundary
  let part ← Run.ofExcept
    (multipart.CreateFormFile go boundary (str "file") (filepath.Base path))
  let copied := io.Copy part file
  let _err := copied.2
  let closed := multipart.Close boundary copied.1
  let err := closed.2
  match err with
  | some e => Run.err e
  | none =>
    let body := closed.1
    let req ← Run.derefOrPanic (http.NewRequest go (str "POST") endpoint.String (some body))
    let req : http.Request :=
      { req with
        Header := (req.Header.Add (str "Content-Type") (multipart.FormDataContentType boundary)) }
    let req : http.Request :=
      { req with Header := req.Header.Add (str "X-Atlassian-Token") (str "nocheck") }
    let res ← w.sendRequest req
    let results ← Run.ofExcept (AttachmentResults.Unmarshal res)
    return results

/-- Go `(w *Wiki) CreateAttachment(contentID, path)`. -/
def Wiki.CreateAttachment (go : GoRelease) (env : Env) (w : Wiki) (contentID path : Bytes) :
    Run AttachmentResults := do
  let endpoint ← Run.ofExcept (w.createAttachmentEndpoint go contentID)
  w.createOrUpdateAttachment go env endpoint path

/-- Go `(w *Wiki) UpdateAttachment(contentID, path, attachmentID)`. -/
def Wiki.UpdateAttachment (go : GoRelease) (env : Env) (w : Wiki)
    (contentID path attachmentID : Bytes) : Run AttachmentResults := do
  let endpoint ← Run.ofExcept (w.updateAttachmentEndpoint go contentID attachmentID)
  w.createOrUpdateAttachment go env endpoint path

/-! ## Concrete inputs used to run the definitions -/

/-- A wiki at `https://wiki.example.com` whose `sendRequest` behaves as `t`. -/
def exampleWiki (t : List http.Request → http.Request → Except Error Bytes) : Wiki :=
  { endPoint := { Scheme := str "https", Host := str "wiki.example.com", Path := str "/rest/api" },
    root := { Scheme := str "https", Host := str "wiki.example.com" },
    transport := t }

/-- A transport that answers every request with the bytes `reply`. -/
def constTransport (reply : Bytes) : List http.Request → http.Request → Except Error Bytes :=
  fun _ _ => .ok reply

/-- A transport that answers the first request with `first` and later ones
with `later`. -/
def twoStepTransport (first later : Bytes) :
    List http.Request → http.Request → Except Error Bytes :=
  fun sent _ => if sent = [] then .ok first else .ok later

/-- A file system in which every path opens and its reads deliver `data`
and then end with `readErr`. -/
def exampleEnv (data : Bytes) (readErr : Option Error) : Env :=
  { Open := fun _ => .ok { data := data, readErr := readErr },
    randomBoundary := str "0123456789abcdef" }

/-- The reply of a server to a lookup that found one attachment. -/
def exampleLookupReply : Bytes :=
  str "\x7b\"results\":[\x7b\"id\":\"att1\",\"title\":\"a.txt\",\"_links\":\x7b\"download\":\"/download/attachments/123/a.txt\"\x7d\x7d],\"size\":1\x7d"

/-- The reply of a server to a lookup that found one attachment whose
download link is `/%zz`. -/
def exampleBadLinkReply : Bytes :=
  str "\x7b\"results\":[\x7b\"_links\":\x7b\"download\":\"/%zz\"\x7d\x7d]\x7d"

/-- A GET request to `wiki.example.com` with the given path and query. -/
def exampleGet (path query : Bytes) : http.Request :=
  { Method := str "GET",
    URL := { Scheme := str "https", Host := str "wiki.example.com", Path := path,
             RawQuery := query },
    Header := [], Body := none, Host := str "wiki.example.com" }

/-- The request that a content write sends to `wiki.example.com`. -/
def exampleWrite (method path body : Bytes) : http.Request :=
  { Method := method,
    URL := { Scheme := str "https", Host := str "wiki.example.com", Path := path },
    Header := [(str "Content-Type", [str "application/json"])], Body := some body,
    Host := str "wiki.example.com" }

/-- A page whose title is not valid UTF-8: `caf\xe9` in Latin-1. -/
def exampleLatin1Page : Content :=
  { Id := str "123", Type_ := str "page", Status := str "current",
    Title := [0x63, 0x61, 0x66, 0xE9],
    Body := { Storage := { Value := str "<p>menu</p>", Representation := str "storage" } },
    Version := { Number := 7 }, Ancestors := some [{ Id := str "100" }] }

/-- A reply with members that no field of `Content` is tagged with. -/
def exampleUnknownReply : Bytes :=
  str "\x7b\"_expandable\":\x7b\"children\":\"/rest/api/content/123/child\"\x7d,\"extensions\":[1,2.5e3,null,true]\x7d"

/-- A reply with the members id and title and with members that no field of
`Content` is tagged with. -/
def exampleMixedReply : Bytes :=
  str "\x7b\"id\":\"5\",\"_links\":\x7b\"self\":\"/rest/api/content/5\"\x7d,\"title\":\"T\",\"_expandable\":\x7b\x7d,\"extensions\":[1,2.5e3,null,true]\x7d"

/-- A page to create or update. -/
def examplePage : Content :=
  { Id := str "123", Type_ := str "page", Status := str "current", Title := str "Release notes",
    Body := { Storage := { Value := str "<p>Fixed &amp; tested</p>",
                           Representation := str "storage" } },
    Version := { Number := 7 }, Ancestors := some [{ Id := str "100" }] }

/-- What an operation returns for the reply `reply` of the transport when it
decodes a successful reply with `k`: the error of the transport, the error of
the decoder, or the decoded value. -/
def decodeReply {β : Type} (k : Bytes → Except Error β) (reply : Except Error Bytes) :
    Outcome β :=
  match reply with
  | .error e => .err e
  | .ok res =>
    match k res with
    | .error e => .err e
    | .ok r => .ok r

/-- The run `f` sends nothing but requests that satisfy `P`, after those
already sent. -/
def Run.SendsOnly {α : Type} (f : Run α) (P : http.Request → Prop) : Prop :=
  ∀ sent, ∃ new, (f sent).2 = sent ++ new ∧ ∀ r ∈ new, P r

/-- The headers an attachment upload has to carry, for the boundary `b`. -/
def uploadHeaders (b : Bytes) (req : http.Request) : Prop :=
  req.Header.Values (str "X-Atlassian-Token") = [str "nocheck"] ∧
    req.Header.Values (str "Content-Type") = [multipart.FormDataContentType b]

/-! ## Properties -/

/-! ### Runs -/

theorem Run.bind_eq {α β : Type} (f : Run α) (g : α → Run β) : (f >>= g) = Run.bind f g := rfl

theorem Run.pure_eq {α : Type} (a : α) : (Pure.pure a : Run α) = Run.pure a := rfl

theorem Run.bind_of_ok {α β : Type} {f : Run α} {g : α → Run β} {sent sent1 : List http.Request}
    {a : α} (h : f sent = (.ok a, sent1)) : Run.bind f g sent = g a sent1 := by
  unfold Run.bind
  rw [h]

theorem Run.bind_of_err {α β : Type} {f : Run α} {g : α → Run β}
    {sent sent1 : List http.Request} {e : Error} (h : f sent = (.err e, sent1)) :
    Run.bind f g sent = (.err e, sent1) := by
  unfold Run.bind
  rw [h]

theorem Run.bind_of_panic {α β : Type} {f : Run α} {g : α → Run β}
    {sent sent1 : List http.Request} {m : String} (h : f sent = (.panic m, sent1)) :
    Run.bind f g sent = (.panic m, sent1) := by
  unfold Run.bind
  rw [h]

theorem Run.ofExcept_ok {α : Type} (a : α) (sent : List http.Request) :
    Run.ofExcept (.ok a) sent = (.ok a, sent) := rfl

theorem Run.ofExcept_error {α : Type} (e : Error) (sent : List http.Request) :
    (Run.ofExcept (.error e) : Run α) sent = (.err e, sent) := rfl

theorem Run.pure_bind {α β : Type} (a : α) (g : α → Run β) : Run.bind (Run.pure a) g = g a := rfl

theorem Run.ofExcept_ok_bind {α β : Type} (a : α) (g : α → Run β) :
    Run.bind (Run.ofExcept (.ok a)) g = g a := rfl

theorem Run.ofExcept_error_bind {α β : Type} (e : Error) (g : α → Run β) :
    Run.bind (Run.ofExcept (.error e)) g = Run.err e := rfl

theorem Run.derefOrPanic_ok_bind {α β : Type} (a : α) (g : α → Run β) :
    Run.bind (Run.derefOrPanic (.ok a)) g = g a := rfl

theorem Run.derefOrPanic_error_bind {α β : Type} (e : Error) (g : α → Run β) :
    Run.bind (Run.derefOrPanic (.error e)) g =
      Run.panic "runtime error: invalid memory address or nil pointer dereference" := rfl

theorem sendRequest_eq (w : Wiki) (req : http.Request) (sent : List http.Request) :
    w.sendRequest req sent = (decodeReply Except.ok (w.transport sent req), sent ++ [req]) := by
  unfold Wiki.sendRequest decodeReply
  cases w.transport sent req <;> rfl

theorem sendRequest_decode {β : Type} (w : Wiki) (req : http.Request) (sent : List http.Request)
    (k : Bytes → Except Error β) :
    Run.bind (w.sendRequest req) (fun res => Run.bind (Run.ofExcept (k res)) Run.pure) sent =
      (decodeReply k (w.transport sent req), sent ++ [req]) := by
  unfold Run.bind
  rw [sendRequest_eq]
  unfold decodeReply
  cases w.transport sent req with
  | error e => rfl
  | ok res =>
    dsimp only
    cases k res <;> rfl

theorem SendsOnly.pure {α : Type} (a : α) (P : http.Request → Prop) :
    (Run.pure a).SendsOnly P := fun sent => ⟨[], by simp [Run.pure], by simp⟩

theorem SendsOnly.err {α : Type} (e : Error) (P : http.Request → Prop) :
    (Run.err e : Run α).SendsOnly P := fun sent => ⟨[], by simp [Run.err], by simp⟩

theorem SendsOnly.panic {α : Type} (m : String) (P : http.Request → Prop) :
    (Run.panic m : Run α).SendsOnly P := fun sent => ⟨[], by simp [Run.panic], by simp⟩

theorem SendsOnly.ofExcept {α : Type} (x : Except Error α) (P : http.Request → Prop) :
    (Run.ofExcept x).SendsOnly P := by
  cases x with
  | ok a => exact SendsOnly.pure a P
  | error e => exact SendsOnly.err e P

theorem SendsOnly.sendRequest (w : Wiki) (req : http.Request) (P : http.Request → Prop)
    (h : P req) : (w.sendRequest req).SendsOnly P := by
  intro sent
  refine ⟨[req], ?_, ?_⟩
  · rw [sendRequest_eq]
  · intro r hr
    simp only [List.mem_singleton] at hr
    subst hr
    exact h

theorem SendsOnly.bind {α β : Type} {f : Run α} {g : α → Run β} {P : http.Request → Prop}
    (hf : f.SendsOnly P) (hg : ∀ a, (g a).SendsOnly P) : (Run.bind f g).SendsOnly P := by
  intro sent
  obtain ⟨new1, h1, hP1⟩ := hf sent
  unfold Run.bind
  rcases hfs : f sent with ⟨o, sent1⟩
  rw [hfs] at h1
  simp only at h1
  subst h1
  cases o with
  | ok a =>
    obtain ⟨new2, h2, hP2⟩ := hg a (sent ++ new1)
    refine ⟨new1 ++ new2, ?_, ?_⟩
    · simp only [h2, List.append_assoc]
    · intro r hr
      rcases List.mem_append.mp hr with h | h
      · exact hP1 r h
      · exact hP2 r h
  | err e => exact ⟨new1, rfl, hP1⟩
  | panic m => exact ⟨new1, rfl, hP1⟩

/-! ### net/http -/

theorem NewRequest_header {go : GoRelease} {method u : Bytes} {body : Option Bytes}
    {req : http.Request} (h : http.NewRequest go method u body = .ok req) :
    req.Header = [] ∧ req.Body = body := by
  unfold http.NewRequest at h
  dsimp only at h
  cases hp : url.Parse go u with
  | error e =>
    rw [hp] at h
    split_ifs at h
  | ok v =>
    rw [hp] at h
    split_ifs at h <;> (cases h; exact ⟨rfl, rfl⟩)

theorem NewRequest_method {go : GoRelease} {method u : Bytes} {body : Option Bytes}
    {req : http.Request} (h : http.NewRequest go method u body = .ok req) (hm : method ≠ []) :
    req.Method = method ∧
      ∃ v, url.Parse go u = .ok v ∧ req.URL = { v with Host := http.removeEmptyPort v.Host } := by
  unfold http.NewRequest at h
  dsimp only at h
  simp only [if_neg hm] at h
  cases hp : url.Parse go u with
  | error e =>
    rw [hp] at h
    split_ifs at h
  | ok v =>
    rw [hp] at h
    split_ifs at h
    cases h
    exact ⟨rfl, v, rfl, rfl⟩

theorem attachment_header_values (v : Bytes) :
    http.Header.Values
        (http.Header.Add (http.Header.Add [] (str "Content-Type") v)
          (str "X-Atlassian-Token") (str "nocheck"))
        (str "X-Atlassian-Token") = [str "nocheck"] ∧
    http.Header.Values
        (http.Header.Add (http.Header.Add [] (str "Content-Type") v)
          (str "X-Atlassian-Token") (str "nocheck"))
        (str "Content-Type") = [v] := by
  have h1 : http.CanonicalMIMEHeaderKey (str "Content-Type") = str "Content-Type" := by decide
  have h2 : http.CanonicalMIMEHeaderKey (str "X-Atlassian-Token") = str "X-Atlassian-Token" := by
    decide
  have h3 : str "Content-Type" ≠ str "X-Atlassian-Token" := by decide
  have h4 : str "X-Atlassian-Token" ≠ str "Content-Type" := by decide
  simp [http.Header.Values, http.Header.Add, h1, h2, url.Values.Add, h3, h4, List.find?]

/-! ### attachment.go: lookup and download -/

/-- C1, on the code: whenever the metadata lookup succeeds with an empty (or
nil) `Results`, `GetAttachmentData` does not return an error: the index
expression `Results[0]` panics, after the one lookup request. -/
theorem C1_GetAttachmentData_empty_results_panics (go : GoRelease) (w : Wiki)
    (contentID filename : Bytes)
    (sent sent1 : List http.Request) (result : AttachmentResults)
    (hget : w.GetAttachment go contentID filename sent = (.ok result, sent1))
    (hempty : result.Results.getD [] = []) :
    w.GetAttachmentData go contentID filename sent =
      (.panic "runtime error: index out of range [0] with length 0", sent1) := by
  unfold Wiki.GetAttachmentData
  rw [Run.bind_eq, Run.bind_of_ok hget, hempty, Run.bind_eq]
  rfl

set_option maxRecDepth 100000 in
/-- C1 at a concrete input: the server answers the lookup with an empty
result list, and the call panics. -/
theorem C1_GetAttachmentData_empty_results_witness :
    (exampleWiki (constTransport (str "\x7b\"results\":[]\x7d"))).GetAttachmentData
        GoRelease.go122 (str "123") (str "missing.txt") [] =
      (.panic "runtime error: index out of range [0] with length 0",
        ((exampleWiki (constTransport (str "\x7b\"results\":[]\x7d"))).GetAttachment
          GoRelease.go122 (str "123") (str "missing.txt") []).2) :=
  C1_GetAttachmentData_empty_results_panics GoRelease.go122 _ _ _ [] _ { Results := some [] }
    (by decide!) (by decide)

set_option maxRecDepth 100000 in
/-- C8 as stated fails: the lookup returns a result list that is not empty,
whose first result has the download link `/%zz`.  `http.NewRequest` refuses
the URL made of the site root and this link, so `GetAttachmentData` returns
that error, and the lookup stays the only request sent. -/
theorem C8_no_second_request_for_a_refused_link :
    (exampleWiki (constTransport exampleBadLinkReply)).GetAttachment GoRelease.go122
        (str "123") (str "a.txt") [] =
      (.ok { Results := some [{ Links := { Download := str "/%zz" } }] },
        [exampleGet (str "/rest/api/content/123/child/attachment") (str "filename=a.txt")]) ∧
    (exampleWiki (constTransport exampleBadLinkReply)).GetAttachmentData GoRelease.go122
        (str "123") (str "a.txt") [] =
      (.err ⟨"invalid URL escape"⟩,
        [exampleGet (str "/rest/api/content/123/child/attachment") (str "filename=a.txt")]) := by
  refine ⟨by decide!, by decide!⟩

/-- C8, amended: when the lookup returns a non-empty result list, the URL of
the download is the site root followed by the download link of the first
result.  When `http.NewRequest` accepts it, `GetAttachmentData` sends one more
request, a GET with no body to the URL parsed from it, and returns the reply
of the transport to it unchanged (its bytes, or its error); when
`http.NewRequest` refuses it, `GetAttachmentData` returns that error and sends
nothing more.  The results after the first play no part. -/
theorem C8_GetAttachmentData_downloads_first_result (go : GoRelease) (w : Wiki)
    (contentID filename : Bytes)
    (sent sent1 : List http.Request) (result : AttachmentResults) (first : Attachment)
    (rest : List Attachment)
    (hget : w.GetAttachment go contentID filename sent = (.ok result, sent1))
    (hres : result.Results = some (first :: rest)) :
    (∀ req,
      http.NewRequest go (str "GET") (w.root.String ++ first.Links.Download) none = .ok req →
      w.GetAttachmentData go contentID filename sent =
          ((match w.transport sent1 req with
            | .ok res => Outcome.ok res
            | .error e => Outcome.err e), sent1 ++ [req]) ∧
        req.Method = str "GET" ∧ req.Body = none ∧ req.Header = [] ∧
        ∃ v, url.Parse go (w.root.String ++ first.Links.Download) = .ok v ∧
          req.URL = { v with Host := http.removeEmptyPort v.Host }) ∧
    (∀ e,
      http.NewRequest go (str "GET") (w.root.String ++ first.Links.Download) none = .error e →
      w.GetAttachmentData go contentID filename sent = (.err e, sent1)) := by
  constructor
  · intro req hreq
    refine ⟨?_, (NewRequest_method hreq (by decide)).1, (NewRequest_header hreq).2,
      (NewRequest_header hreq).1, (NewRequest_method hreq (by decide)).2⟩
    unfold Wiki.GetAttachmentData
    rw [Run.bind_eq, Run.bind_of_ok hget, hres]
    simp only [Option.getD_some, Run.index0, Run.bind_eq, Run.pure_bind, hreq,
      Run.ofExcept_ok_bind]
    unfold Run.bind
    rw [sendRequest_eq]
    unfold decodeReply
    cases w.transport sent1 req <;> rfl
  · intro e hreq
    unfold Wiki.GetAttachmentData
    rw [Run.bind_eq, Run.bind_of_ok hget, hres]
    simp only [Option.getD_some, Run.index0, Run.bind_eq, Run.pure_bind, hreq,
      Run.ofExcept_error_bind]
    rfl

set_option maxRecDepth 100000 in
/-- C8 at two concrete inputs: the lookup finds `a.txt`, and the second GET
goes to the site root followed by its download link; the lookup finds a
result with the link `/%zz`, and the error of `http.NewRequest` comes back. -/
theorem C8_GetAttachmentData_downloads_first_result_witness :
    (exampleWiki (twoStepTransport exampleLookupReply (str "hello"))).GetAttachmentData
        GoRelease.go122 (str "123") (str "a.txt") [] =
      (.ok (str "hello"),
        [exampleGet (str "/rest/api/content/123/child/attachment") (str "filename=a.txt"),
         exampleGet (str "/download/attachments/123/a.txt") []]) ∧
    (exampleWiki (constTransport exampleBadLinkReply)).GetAttachmentData GoRelease.go122
        (str "123") (str "a.txt") [] =
      (.err ⟨"invalid URL escape"⟩,
        [exampleGet (str "/rest/api/content/123/child/attachment") (str "filename=a.txt")]) :=
  ⟨((C8_GetAttachmentData_downloads_first_result GoRelease.go122
      (exampleWiki (twoStepTransport exampleLookupReply (str "hello"))) (str "123") (str "a.txt") []
      [exampleGet (str "/rest/api/content/123/child/attachment") (str "filename=a.txt")]
      { ResultPagination := { Size := 1 },
        Results := some [{ ID := str "att1", Title := str "a.txt",
                           Links := { Download := str "/download/attachments/123/a.txt" } }] }
      { ID := str "att1", Title := str "a.txt",
        Links := { Download := str "/download/attachments/123/a.txt" } }
      [] (by decide!) (by decide!)).1
        (exampleGet (str "/download/attachments/123/a.txt") []) (by decide!)).1.trans
      (by decide!),
    (C8_GetAttachmentData_downloads_first_result GoRelease.go122
      (exampleWiki (constTransport exampleBadLinkReply)) (str "123") (str "a.txt") []
      [exampleGet (str "/rest/api/content/123/child/attachment") (str "filename=a.txt")]
      { Results := some [{ Links := { Download := str "/%zz" } }] }
      { Links := { Download := str "/%zz" } }
      [] (by decide!) (by decide!)).2 ⟨"invalid URL escape"⟩ (by decide!)⟩

/-! ### attachment.go: upload -/

theorem createOrUpdateAttachment_sendsOnly (go : GoRelease) (env : Env) (w : Wiki)
    (endpoint : url.URL) (path : Bytes) :
    (w.createOrUpdateAttachment go env endpoint path).SendsOnly
      (uploadHeaders env.randomBoundary) := by
  unfold Wiki.createOrUpdateAttachment
  simp only [Run.bind_eq, Run.pure_eq, multipart.Close]
  refine SendsOnly.bind (SendsOnly.ofExcept _ _) (fun file => ?_)
  refine SendsOnly.bind (SendsOnly.ofExcept _ _) (fun part => ?_)
  cases hreq : http.NewRequest go (str "POST") endpoint.String
      (some ((io.Copy part file).1 ++ str "\r\n--" ++ env.randomBoundary ++ str "--\r\n")) with
  | error e =>
    rw [Run.derefOrPanic_error_bind]
    exact SendsOnly.panic _ _
  | ok req0 =>
    rw [Run.derefOrPanic_ok_bind]
    refine SendsOnly.bind (SendsOnly.sendRequest _ _ _ ?_) (fun res => ?_)
    · unfold uploadHeaders
      rw [(NewRequest_header hreq).1]
      exact attachment_header_values _
    · exact SendsOnly.bind (SendsOnly.ofExcept _ _) (fun r => SendsOnly.pure _ _)

/-- C2: every request that `CreateAttachment` and `UpdateAttachment` hand to
the transport carries `X-Atlassian-Token: nocheck` and the multipart
`Content-Type` of the writer: after either call the requests sent are those
sent before, followed by requests that carry both headers. -/
theorem C2_attachment_requests_carry_nocheck (go : GoRelease) (env : Env) (w : Wiki)
    (contentID attachmentID path : Bytes) (sent : List http.Request) :
    (∃ new, (w.CreateAttachment go env contentID path sent).2 = sent ++ new ∧
      ∀ req ∈ new,
        req.Header.Values (str "X-Atlassian-Token") = [str "nocheck"] ∧
        req.Header.Values (str "Content-Type") =
          [multipart.FormDataContentType env.randomBoundary]) ∧
    (∃ new, (w.UpdateAttachment go env contentID path attachmentID sent).2 = sent ++ new ∧
      ∀ req ∈ new,
        req.Header.Values (str "X-Atlassian-Token") = [str "nocheck"] ∧
        req.Header.Values (str "Content-Type") =
          [multipart.FormDataContentType env.randomBoundary]) := by
  constructor
  · exact SendsOnly.bind (SendsOnly.ofExcept _ _)
      (fun endpoint => createOrUpdateAttachment_sendsOnly go env w endpoint path) sent
  · exact SendsOnly.bind (SendsOnly.ofExcept _ _)
      (fun endpoint => createOrUpdateAttachment_sendsOnly go env w endpoint path) sent

/-- C5, on the code: when the file opens and its reads end with an error `e`,
`createOrUpdateAttachment` does not return `e`.  It sends a request whose body
holds the bytes read before the failure between the part header and the
closing boundary, and returns what the reply of the transport decodes to. -/
theorem C5_copy_error_is_dropped (go : GoRelease) (env : Env) (w : Wiki) (endpoint : url.URL)
    (path : Bytes)
    (sent : List http.Request) (file : os.File) (e : Error) (part : Bytes)
    (req0 : http.Request)
    (hopen : env.Open path = .ok file) (herr : file.readErr = some e)
    (hpart : multipart.CreateFormFile go env.randomBoundary (str "file") (filepath.Base path) =
      .ok part)
    (hreq : http.NewRequest go (str "POST") endpoint.String
      (some (part ++ file.data ++ str "\r\n--" ++ env.randomBoundary ++ str "--\r\n")) = .ok req0) :
    (io.Copy part file).2 = some e ∧
    ∃ req, w.createOrUpdateAttachment go env endpoint path sent =
        (decodeReply AttachmentResults.Unmarshal (w.transport sent req), sent ++ [req]) ∧
      req.Body = some (part ++ file.data ++ str "\r\n--" ++ env.randomBoundary ++ str "--\r\n") := by
  refine ⟨herr, { req0 with
    Header := (http.Header.Add (http.Header.Add req0.Header (str "Content-Type")
      (multipart.FormDataContentType env.randomBoundary))
      (str "X-Atlassian-Token") (str "nocheck")) }, ?_, (NewRequest_header hreq).2⟩
  unfold Wiki.createOrUpdateAttachment
  simp only [Run.bind_eq, Run.pure_eq, multipart.Close, io.Copy, hopen, hpart,
    Run.ofExcept_ok_bind, hreq, Run.derefOrPanic_ok_bind]
  exact sendRequest_decode w _ sent AttachmentResults.Unmarshal

set_option maxRecDepth 100000 in
/-- C5 at a concrete input: the path is a directory, whose reads fail; the
upload goes out all the same and its result is that of the reply. -/
theorem C5_copy_error_is_dropped_witness :
    (io.Copy
        (str "--0123456789abcdef\r\nContent-Disposition: form-data; name=\"file\"; filename=\"dir\"\r\nContent-Type: application/octet-stream\r\n\r\n")
        { data := str "par", readErr := some ⟨"read /tmp/dir: is a directory"⟩ }).2 =
      some ⟨"read /tmp/dir: is a directory"⟩ ∧
    ∃ req,
      (exampleWiki (constTransport (str "\x7b\"results\":[]\x7d"))).createOrUpdateAttachment
          GoRelease.go122
          (exampleEnv (str "par") (some ⟨"read /tmp/dir: is a directory"⟩))
          { Scheme := str "https", Host := str "wiki.example.com",
            Path := str "/rest/api/content/123/child/attachment" }
          (str "/tmp/dir") [] =
        (decodeReply AttachmentResults.Unmarshal
          (constTransport (str "\x7b\"results\":[]\x7d") [] req), [] ++ [req]) ∧
      req.Body = some
        (str "--0123456789abcdef\r\nContent-Disposition: form-data; name=\"file\"; filename=\"dir\"\r\nContent-Type: application/octet-stream\r\n\r\n" ++
          str "par" ++ str "\r\n--" ++ str "0123456789abcdef" ++ str "--\r\n") :=
  C5_copy_error_is_dropped GoRelease.go122
    (exampleEnv (str "par") (some ⟨"read /tmp/dir: is a directory"⟩))
    (exampleWiki (constTransport (str "\x7b\"results\":[]\x7d")))
    { Scheme := str "https", Host := str "wiki.example.com",
      Path := str "/rest/api/content/123/child/attachment" }
    (str "/tmp/dir") [] { data := str "par", readErr := some ⟨"read /tmp/dir: is a directory"⟩ }
    ⟨"read /tmp/dir: is a directory"⟩ _
    { Method := str "POST",
      URL := { Scheme := str "https", Host := str "wiki.example.com",
               Path := str "/rest/api/content/123/child/attachment" },
      Header := [],
      Body := some
        (str "--0123456789abcdef\r\nContent-Disposition: form-data; name=\"file\"; filename=\"dir\"\r\nContent-Type: application/octet-stream\r\n\r\n" ++
          str "par" ++ str "\r\n--" ++ str "0123456789abcdef" ++ str "--\r\n"),
      Host := str "wiki.example.com" }
    rfl rfl (by decide!) (by decide!)

/-! ### content.go: writes -/

theorem content_header_values :
    http.Header.Values (http.Header.Add [] (str "Content-Type") (str "application/json"))
      (str "Content-Type") = [str "application/json"] := by decide

theorem internalCreateOrUpdateContent_eq (go : GoRelease) (w : Wiki) (c : Content) (u : url.URL)
    (method : Bytes) (sent : List http.Request) (req0 : http.Request) (hm : method ≠ [])
    (hreq : http.NewRequest go method u.String (some (c.Marshal go.rawReplacement)) = .ok req0) :
    ∃ req, w.internalCreateOrUpdateContent go c u method sent =
        (decodeReply Content.Unmarshal (w.transport sent req), sent ++ [req]) ∧
      req.Method = method ∧
      (∃ v, url.Parse go u.String = .ok v ∧
        req.URL = { v with Host := http.removeEmptyPort v.Host }) ∧
      req.Header.Values (str "Content-Type") = [str "application/json"] ∧
      req.Body = some (c.Marshal go.rawReplacement) := by
  refine ⟨{ req0 with
    Header := (http.Header.Add req0.Header (str "Content-Type") (str "application/json")) },
    ?_, (NewRequest_method hreq hm).1, (NewRequest_method hreq hm).2, ?_,
    (NewRequest_header hreq).2⟩
  · unfold Wiki.internalCreateOrUpdateContent
    simp only [Run.bind_eq, Run.pure_eq, hreq, Run.derefOrPanic_ok_bind]
    exact sendRequest_decode w _ sent Content.Unmarshal
  · show http.Header.Values (http.Header.Add req0.Header _ _) _ = _
    rw [(NewRequest_header hreq).1]
    exact content_header_values

theorem internalCreateOrUpdateContent_panic (go : GoRelease) (w : Wiki) (c : Content)
    (u : url.URL) (method : Bytes) (sent : List http.Request) (e : Error)
    (hreq : http.NewRequest go method u.String (some (c.Marshal go.rawReplacement)) = .error e) :
    w.internalCreateOrUpdateContent go c u method sent =
      (.panic "runtime error: invalid memory address or nil pointer dereference", sent) := by
  unfold Wiki.internalCreateOrUpdateContent
  simp only [Run.bind_eq, Run.pure_eq, hreq, Run.derefOrPanic_error_bind]
  rfl

/-- C7, on the code.  Let the endpoint `{base}/content/{c.Id}` parse to `u`.
When `http.NewRequest` refuses `u.String()`, `UpdateContent` does not return
an error: the request is nil, `req.Header.Add` dereferences it, and the call
panics with nothing sent.  When `http.NewRequest` accepts it, `UpdateContent`
sends exactly one request: method PUT, the URL parsed from `u.String()`,
header `Content-Type: application/json`, body the JSON serialization of `c`;
its result is the reply of the transport deserialized as a `Content`.
`CreateContent` does the same with method POST and the endpoint
`{base}/content`. -/
theorem C7_content_write_panics_on_refused_request (go : GoRelease) (w : Wiki) (c : Content)
    (sent : List http.Request) :
    (∀ u, url.ParseRequestURI go (w.endPoint.String ++ str "/content/" ++ c.Id) = .ok u →
      (∀ e,
        http.NewRequest go (str "PUT") u.String (some (c.Marshal go.rawReplacement)) =
          .error e →
        w.UpdateContent go c sent =
          (.panic "runtime error: invalid memory address or nil pointer dereference", sent)) ∧
      (∀ req0,
        http.NewRequest go (str "PUT") u.String (some (c.Marshal go.rawReplacement)) =
          .ok req0 →
        ∃ req, w.UpdateContent go c sent =
            (decodeReply Content.Unmarshal (w.transport sent req), sent ++ [req]) ∧
          req.Method = str "PUT" ∧
          (∃ v, url.Parse go u.String = .ok v ∧
            req.URL = { v with Host := http.removeEmptyPort v.Host }) ∧
          req.Header.Values (str "Content-Type") = [str "application/json"] ∧
          req.Body = some (c.Marshal go.rawReplacement))) ∧
    (∀ u, url.ParseRequestURI go (w.endPoint.String ++ str "/content") = .ok u →
      (∀ e,
        http.NewRequest go (str "POST") u.String (some (c.Marshal go.rawReplacement)) =
          .error e →
        w.CreateContent go c sent =
          (.panic "runtime error: invalid memory address or nil pointer dereference", sent)) ∧
      (∀ req0,
        http.NewRequest go (str "POST") u.String (some (c.Marshal go.rawReplacement)) =
          .ok req0 →
        ∃ req, w.CreateContent go c sent =
            (decodeReply Content.Unmarshal (w.transport sent req), sent ++ [req]) ∧
          req.Method = str "POST" ∧
          (∃ v, url.Parse go u.String = .ok v ∧
            req.URL = { v with Host := http.removeEmptyPort v.Host }) ∧
          req.Header.Values (str "Content-Type") = [str "application/json"] ∧
          req.Body = some (c.Marshal go.rawReplacement))) := by
  constructor
  · intro u hu
    have hu' : w.existingContentEndpoint go c.Id = .ok u := hu
    constructor
    · intro e hreq
      unfold Wiki.UpdateContent
      rw [Run.bind_eq, hu', Run.ofExcept_ok_bind]
      exact internalCreateOrUpdateContent_panic go w c u _ sent e hreq
    · intro req0 hreq
      unfold Wiki.UpdateContent
      rw [Run.bind_eq, hu', Run.ofExcept_ok_bind]
      exact internalCreateOrUpdateContent_eq go w c u _ sent req0 (by decide) hreq
  · intro u hu
    have hu' : w.newContentEndpoint go = .ok u := hu
    constructor
    · intro e hreq
      unfold Wiki.CreateContent
      rw [Run.bind_eq, hu', Run.ofExcept_ok_bind]
      exact internalCreateOrUpdateContent_panic go w c u _ sent e hreq
    · intro req0 hreq
      unfold Wiki.CreateContent
      rw [Run.bind_eq, hu', Run.ofExcept_ok_bind]
      exact internalCreateOrUpdateContent_eq go w c u _ sent req0 (by decide) hreq

set_option maxRecDepth 100000 in
/-- C7 at concrete inputs.  The page has the Id `x?#%zz`: its endpoint
parses, with the query `#%zz`; `http.NewRequest` reads `%zz` as a fragment and
refuses it; `UpdateContent` panics and sends nothing.  The page has the Id
`123` and the transport answers with the page: `UpdateContent` sends one PUT
to `https://wiki.example.com/rest/api/content/123`, `CreateContent` one POST
to `https://wiki.example.com/rest/api/content`, and both return the page. -/
theorem C7_content_write_panics_on_refused_request_witness :
    url.ParseRequestURI GoRelease.go122
        ((exampleWiki (constTransport [])).endPoint.String ++ str "/content/" ++ str "x?#%zz") =
      .ok { Scheme := str "https", Host := str "wiki.example.com",
            Path := str "/rest/api/content/x", RawQuery := str "#%zz" } ∧
    (exampleWiki (constTransport [])).UpdateContent GoRelease.go122
        { examplePage with Id := str "x?#%zz" } [] =
      (.panic "runtime error: invalid memory address or nil pointer dereference", []) ∧
    (exampleWiki (constTransport (examplePage.Marshal false))).UpdateContent GoRelease.go122
        examplePage [] =
      (.ok examplePage,
        [exampleWrite (str "PUT") (str "/rest/api/content/123") (examplePage.Marshal false)]) ∧
    (exampleWiki (constTransport (examplePage.Marshal false))).CreateContent GoRelease.go122
        examplePage [] =
      (.ok examplePage,
        [exampleWrite (str "POST") (str "/rest/api/content") (examplePage.Marshal false)]) ∧
    (exampleWrite (str "PUT") (str "/rest/api/content/123") []).URL.String =
      str "https://wiki.example.com/rest/api/content/123" ∧
    (exampleWrite (str "POST") (str "/rest/api/content") []).URL.String =
      str "https://wiki.example.com/rest/api/content" :=
  ⟨by decide!,
    ((C7_content_write_panics_on_refused_request GoRelease.go122 (exampleWiki (constTransport []))
      { examplePage with Id := str "x?#%zz" } []).1
      { Scheme := str "https", Host := str "wiki.example.com",
        Path := str "/rest/api/content/x", RawQuery := str "#%zz" }
      (by decide!)).1 ⟨"invalid URL escape"⟩ (by decide!),
    by decide!, by decide!, by decide!, by decide!⟩

/-! ### attachment.go: the lookup URL -/

set_option maxRecDepth 100000 in
/-- C4, on the code: the filename goes into the URL as it is.  For the
filename `a&b=c` the query of the endpoint is `filename=a&b=c`, which decodes
to two parameters, `filename = a` and `b = c`; for `100%` decoding the query
fails; `a+b` decodes to `a b`. -/
theorem C4_filename_is_not_escaped :
    ((exampleWiki (constTransport [])).getAttachmentByFilenameEndpoint GoRelease.go122 (str "123")
        (str "a&b=c")).map (fun u => u.String) =
      .ok (str "https://wiki.example.com/rest/api/content/123/child/attachment?filename=a&b=c") ∧
    ((exampleWiki (constTransport [])).getAttachmentByFilenameEndpoint GoRelease.go122 (str "123")
        (str "a&b=c")).map (fun u => url.ParseQuery u.RawQuery) =
      .ok ([(str "filename", [str "a"]), (str "b", [str "c"])], none) ∧
    ((exampleWiki (constTransport [])).getAttachmentByFilenameEndpoint GoRelease.go122 (str "123")
        (str "100%")).map (fun u => url.ParseQuery u.RawQuery) =
      .ok ([], some ⟨"invalid URL escape"⟩) ∧
    ((exampleWiki (constTransport [])).getAttachmentByFilenameEndpoint GoRelease.go122 (str "123")
        (str "a+b")).map (fun u => url.ParseQuery u.RawQuery) =
      .ok ([(str "filename", [str "a b"])], none) := by
  refine ⟨by decide!, by decide!, by decide!, by decide!⟩

/-! ### unicode/utf8 -/

theorem byte_val (n : Nat) : (byte n).val = n % 256 := rfl

theorem byte_eq_of_val {n : Nat} {b : Byte} (h : n = b.val) : byte n = b := by
  apply Fin.ext
  rw [byte_val, h]
  exact Nat.mod_eq_of_lt b.isLt

theorem DecodeRune_ascii (s0 : Byte) (t : Bytes) (h : s0.val < 0x80) :
    utf8.DecodeRune (s0 :: t) = (s0.val, 1) := by
  simp [utf8.DecodeRune, h]

theorem DecodeRune_two (s0 s1 : Byte) (t : Bytes) (h0 : 0xC2 ≤ s0.val) (h0' : s0.val < 0xE0)
    (h1 : 0x80 ≤ s1.val) (h1' : s1.val ≤ 0xBF) :
    utf8.DecodeRune (s0 :: s1 :: t) = (s0.val % 32 * 64 + s1.val % 64, 2) := by
  have e1 : ¬ s0.val < 0x80 := by omega
  have e2 : ¬ (s0.val < 0xC2 ∨ 0xF4 < s0.val) := by omega
  have e3 : ¬ s0.val = 0xE0 := by omega
  have e4 : ¬ s0.val = 0xF0 := by omega
  have e5 : ¬ s0.val = 0xED := by omega
  have e6 : ¬ s0.val = 0xF4 := by omega
  have e7 : ¬ (s1.val < 0x80 ∨ 0xBF < s1.val) := by omega
  simp [utf8.DecodeRune, e1, e2, e3, e4, e5, e6, e7, h0']

theorem DecodeRune_three (s0 s1 s2 : Byte) (t : Bytes) (h0 : 0xE0 ≤ s0.val)
    (h0' : s0.val < 0xF0) (h1 : 0x80 ≤ s1.val) (h1' : s1.val ≤ 0xBF)
    (hE0 : s0.val = 0xE0 → 0xA0 ≤ s1.val) (hED : s0.val = 0xED → s1.val ≤ 0x9F)
    (h2 : 0x80 ≤ s2.val) (h2' : s2.val ≤ 0xBF) :
    utf8.DecodeRune (s0 :: s1 :: s2 :: t) =
      (s0.val % 16 * 4096 + s1.val % 64 * 64 + s2.val % 64, 3) := by
  have e1 : ¬ s0.val < 0x80 := by omega
  have e2 : ¬ (s0.val < 0xC2 ∨ 0xF4 < s0.val) := by omega
  have e3 : ¬ s0.val < 0xE0 := by omega
  have e4 : ¬ s0.val = 0xF0 := by omega
  have e6 : ¬ s0.val = 0xF4 := by omega
  have e7 : ¬ (s2.val < 0x80 ∨ 0xBF < s2.val) := by omega
  by_cases c1 : s0.val = 0xE0
  · have e5 : ¬ s0.val = 0xED := by omega
    have e8 : ¬ (s1.val < 0xA0 ∨ 0xBF < s1.val) := by have := hE0 c1; omega
    simp [utf8.DecodeRune, e1, e2, e3, e4, e5, e6, e7, e8, h0', c1]
  · by_cases c2 : s0.val = 0xED
    · have e8 : ¬ (s1.val < 0x80 ∨ 0x9F < s1.val) := by have := hED c2; omega
      simp [utf8.DecodeRune, e1, e2, e3, e4, e6, e7, e8, h0', c2]
    · have e8 : ¬ (s1.val < 0x80 ∨ 0xBF < s1.val) := by omega
      simp [utf8.DecodeRune, e1, e2, e3, e4, e6, e7, e8, h0', c1, c2]

theorem DecodeRune_four (s0 s1 s2 s3 : Byte) (t : Bytes) (h0 : 0xF0 ≤ s0.val)
    (h0' : s0.val ≤ 0xF4) (h1 : 0x80 ≤ s1.val) (h1' : s1.val ≤ 0xBF)
    (hF0 : s0.val = 0xF0 → 0x90 ≤ s1.val) (hF4 : s0.val = 0xF4 → s1.val ≤ 0x8F)
    (h2 : 0x80 ≤ s2.val) (h2' : s2.val ≤ 0xBF) (h3 : 0x80 ≤ s3.val) (h3' : s3.val ≤ 0xBF) :
    utf8.DecodeRune (s0 :: s1 :: s2 :: s3 :: t) =
      (s0.val % 8 * 262144 + s1.val % 64 * 4096 + s2.val % 64 * 64 + s3.val % 64, 4) := by
  have e1 : ¬ s0.val < 0x80 := by omega
  have e2 : ¬ (s0.val < 0xC2 ∨ 0xF4 < s0.val) := by omega
  have e3 : ¬ s0.val < 0xE0 := by omega
  have e3' : ¬ s0.val < 0xF0 := by omega
  have e4 : ¬ s0.val = 0xE0 := by omega
  have e5 : ¬ s0.val = 0xED := by omega
  have e7 : ¬ (s2.val < 0x80 ∨ 0xBF < s2.val) := by omega
  have e9 : ¬ (s3.val < 0x80 ∨ 0xBF < s3.val) := by omega
  by_cases c1 : s0.val = 0xF0
  · have e6 : ¬ s0.val = 0xF4 := by omega
    have e8 : ¬ (s1.val < 0x90 ∨ 0xBF < s1.val) := by have := hF0 c1; omega
    simp [utf8.DecodeRune, e1, e2, e3, e3', e4, e5, e6, e7, e8, e9, c1]
  · by_cases c2 : s0.val = 0xF4
    · have e8 : ¬ (s1.val < 0x80 ∨ 0x8F < s1.val) := by have := hF4 c2; omega
      simp [utf8.DecodeRune, e1, e2, e3, e3', e4, e5, e7, e8, e9, c2]
    · have e8 : ¬ (s1.val < 0x80 ∨ 0xBF < s1.val) := by omega
      simp [utf8.DecodeRune, e1, e2, e3, e3', e4, e5, e7, e8, e9, c1, c2]

set_option maxHeartbeats 2000000 in
/-- The shapes of a position that `DecodeRune` accepts: one ASCII byte, or a
well-formed sequence of two, three or four bytes. -/
theorem DecodeRune_inv (s0 : Byte) (t : Bytes)
    (hv : ¬ ((utf8.DecodeRune (s0 :: t)).1 = utf8.RuneError ∧ (utf8.DecodeRune (s0 :: t)).2 = 1)) :
    s0.val < 0x80 ∨
    (∃ s1 t1, t = s1 :: t1 ∧ 0xC2 ≤ s0.val ∧ s0.val < 0xE0 ∧ 0x80 ≤ s1.val ∧ s1.val ≤ 0xBF) ∨
    (∃ s1 s2 t2, t = s1 :: s2 :: t2 ∧ 0xE0 ≤ s0.val ∧ s0.val < 0xF0 ∧ 0x80 ≤ s1.val ∧
      s1.val ≤ 0xBF ∧ (s0.val = 0xE0 → 0xA0 ≤ s1.val) ∧ (s0.val = 0xED → s1.val ≤ 0x9F) ∧
      0x80 ≤ s2.val ∧ s2.val ≤ 0xBF) ∨
    (∃ s1 s2 s3 t3, t = s1 :: s2 :: s3 :: t3 ∧ 0xF0 ≤ s0.val ∧ s0.val ≤ 0xF4 ∧ 0x80 ≤ s1.val ∧
      s1.val ≤ 0xBF ∧ (s0.val = 0xF0 → 0x90 ≤ s1.val) ∧ (s0.val = 0xF4 → s1.val ≤ 0x8F) ∧
      0x80 ≤ s2.val ∧ s2.val ≤ 0xBF ∧ 0x80 ≤ s3.val ∧ s3.val ≤ 0xBF) := by
  by_cases c1 : s0.val < 0x80
  · exact Or.inl c1
  · right
    by_cases c2 : s0.val < 0xC2 ∨ 0xF4 < s0.val
    · exfalso; apply hv; simp [utf8.DecodeRune, c1, c2]
    · rcases t with _ | ⟨s1, t1⟩
      · exfalso; apply hv; simp [utf8.DecodeRune, c1, c2]
      · by_cases c3 : s0.val < 0xE0
        · left
          refine ⟨s1, t1, rfl, by omega, c3, ?_⟩
          by_contra hc
          apply hv
          have e1 : ¬ s0.val = 0xE0 := by omega
          have e2 : ¬ s0.val = 0xF0 := by omega
          have e3 : ¬ s0.val = 0xED := by omega
          have e4 : ¬ s0.val = 0xF4 := by omega
          have e5 : s1.val < 0x80 ∨ 0xBF < s1.val := by omega
          simp [utf8.DecodeRune, c1, c2, c3, e1, e2, e3, e4, e5]
        · right
          rcases t1 with _ | ⟨s2, t2⟩
          · exfalso; apply hv; simp [utf8.DecodeRune, c1, c2, c3]
          · by_cases c4 : s0.val < 0xF0
            · left
              refine ⟨s1, s2, t2, rfl, by omega, c4, ?_⟩
              by_contra hc
              apply hv
              have e2 : ¬ s0.val = 0xF0 := by omega
              have e4 : ¬ s0.val = 0xF4 := by omega
              by_cases d1 : s0.val = 0xE0
              · have e3 : ¬ s0.val = 0xED := by omega
                have e5 : s1.val < 0xA0 ∨ 0xBF < s1.val ∨ s2.val < 0x80 ∨ 0xBF < s2.val := by
                  omega
                simp only [utf8.DecodeRune, c1, c2, c3, c4, d1, e2, e3, e4, if_true, if_false]
                split_ifs <;> first | exact ⟨rfl, rfl⟩ | omega
              · by_cases d2 : s0.val = 0xED
                · have e5 : s1.val < 0x80 ∨ 0x9F < s1.val ∨ s2.val < 0x80 ∨ 0xBF < s2.val := by
                    omega
                  simp only [utf8.DecodeRune, c1, c2, c3, c4, d1, d2, e2, e4, if_true, if_false]
                  split_ifs <;> first | exact ⟨rfl, rfl⟩ | omega
                · have e5 : s1.val < 0x80 ∨ 0xBF < s1.val ∨ s2.val < 0x80 ∨ 0xBF < s2.val := by
                    omega
                  simp only [utf8.DecodeRune, c1, c2, c3, c4, d1, d2, e2, e4, if_true, if_false]
                  split_ifs <;> first | exact ⟨rfl, rfl⟩ | omega
            · right
              rcases t2 with _ | ⟨s3, t3⟩
              · exfalso; apply hv; simp [utf8.DecodeRune, c1, c2, c3, c4]
              · refine ⟨s1, s2, s3, t3, rfl, by omega, by omega, ?_⟩
                by_contra hc
                apply hv
                have e1 : ¬ s0.val = 0xE0 := by omega
                have e3 : ¬ s0.val = 0xED := by omega
                by_cases d1 : s0.val = 0xF0
                · have e4 : ¬ s0.val = 0xF4 := by omega
                  have e5 : s1.val < 0x90 ∨ 0xBF < s1.val ∨ s2.val < 0x80 ∨ 0xBF < s2.val ∨
                      s3.val < 0x80 ∨ 0xBF < s3.val := by omega
                  simp only [utf8.DecodeRune, c1, c2, c3, c4, d1, e1, e3, e4, if_true, if_false]
                  split_ifs <;> first | exact ⟨rfl, rfl⟩ | omega
                · by_cases d2 : s0.val = 0xF4
                  · have e5 : s1.val < 0x80 ∨ 0x8F < s1.val ∨ s2.val < 0x80 ∨ 0xBF < s2.val ∨
                        s3.val < 0x80 ∨ 0xBF < s3.val := by omega
                    simp only [utf8.DecodeRune, c1, c2, c3, c4, d1, d2, e1, e3, if_true, if_false]
                    split_ifs <;> first | exact ⟨rfl, rfl⟩ | omega
                  · have e5 : s1.val < 0x80 ∨ 0xBF < s1.val ∨ s2.val < 0x80 ∨ 0xBF < s2.val ∨
                        s3.val < 0x80 ∨ 0xBF < s3.val := by omega
                    simp only [utf8.DecodeRune, c1, c2, c3, c4, d1, d2, e1, e3, if_true, if_false]
                    split_ifs <;> first | exact ⟨rfl, rfl⟩ | omega

/-- At a position that `DecodeRune` accepts, encoding the rune gives back the
bytes it was decoded from, and the decoding looks at these bytes only. -/
theorem DecodeRune_valid (s0 : Byte) (t : Bytes)
    (hv : ¬ ((utf8.DecodeRune (s0 :: t)).1 = utf8.RuneError ∧ (utf8.DecodeRune (s0 :: t)).2 = 1)) :
    utf8.EncodeRune (utf8.DecodeRune (s0 :: t)).1 = (s0 :: t).take (utf8.DecodeRune (s0 :: t)).2 ∧
      1 ≤ (utf8.DecodeRune (s0 :: t)).2 ∧ (utf8.DecodeRune (s0 :: t)).2 ≤ (s0 :: t).length ∧
      ∀ X, utf8.DecodeRune ((s0 :: t).take (utf8.DecodeRune (s0 :: t)).2 ++ X) =
        utf8.DecodeRune (s0 :: t) := by
  have b0 := s0.isLt
  rcases DecodeRune_inv s0 t hv with h | ⟨s1, t1, rfl, h0, h0', h1, h1'⟩ |
    ⟨s1, s2, t2, rfl, h0, h0', h1, h1', hE0, hED, h2, h2'⟩ |
    ⟨s1, s2, s3, t3, rfl, h0, h0', h1, h1', hF0, hF4, h2, h2', h3, h3'⟩
  · rw [DecodeRune_ascii s0 t h]
    refine ⟨?_, by simp, by simp, ?_⟩
    · unfold utf8.EncodeRune
      rw [if_pos (by show s0.val ≤ 0x7F; omega), byte_eq_of_val (b := s0) rfl]
      rfl
    · intro X
      simp [DecodeRune_ascii s0 _ h]
  · have b1 := s1.isLt
    rw [DecodeRune_two s0 s1 t1 h0 h0' h1 h1']
    refine ⟨?_, by simp, by simp, ?_⟩
    · unfold utf8.EncodeRune
      rw [if_neg (by omega), if_pos (by omega)]
      simp only [List.take_succ_cons, List.take_zero]
      rw [byte_eq_of_val (b := s0) (by omega), byte_eq_of_val (b := s1) (by omega)]
    · intro X
      simp [DecodeRune_two s0 s1 _ h0 h0' h1 h1']
  · have b1 := s1.isLt
    have b2 := s2.isLt
    rw [DecodeRune_three s0 s1 s2 t2 h0 h0' h1 h1' hE0 hED h2 h2']
    refine ⟨?_, by simp, by simp, ?_⟩
    · unfold utf8.EncodeRune
      have := hE0
      have := hED
      rw [if_neg (by omega), if_neg (by omega), if_neg (by omega), if_pos (by omega)]
      simp only [List.take_succ_cons, List.take_zero]
      rw [byte_eq_of_val (b := s0) (by omega), byte_eq_of_val (b := s1) (by omega),
        byte_eq_of_val (b := s2) (by omega)]
    · intro X
      simp [DecodeRune_three s0 s1 s2 _ h0 h0' h1 h1' hE0 hED h2 h2']
  · have b1 := s1.isLt
    have b2 := s2.isLt
    have b3 := s3.isLt
    rw [DecodeRune_four s0 s1 s2 s3 t3 h0 h0' h1 h1' hF0 hF4 h2 h2' h3 h3']
    refine ⟨?_, by simp, by simp, ?_⟩
    · unfold utf8.EncodeRune
      rw [if_neg (by omega), if_neg (by omega), if_neg (by omega), if_neg (by omega)]
      simp only [List.take_succ_cons, List.take_zero]
      rw [byte_eq_of_val (b := s0) (by omega), byte_eq_of_val (b := s1) (by omega),
        byte_eq_of_val (b := s2) (by omega), byte_eq_of_val (b := s3) (by omega)]
    · intro X
      simp [DecodeRune_four s0 s1 s2 s3 _ h0 h0' h1 h1' hF0 hF4 h2 h2' h3 h3']

/-! ### encoding/json: strings -/

theorem unquoteLoop_quote (m : Nat) (Y : Bytes) :
    json.unquoteLoop (m + 1) (0x22 :: Y) = some ([], Y) := by
  simp [json.unquoteLoop, Fin.coe_ofNat_eq_mod]

theorem unquoteLoop_plain (m : Nat) (b : Byte) (Y : Bytes) (h1 : 0x20 ≤ b.val)
    (h2 : b.val < 0x80) (h3 : b.val ≠ 0x22) (h4 : b.val ≠ 0x5C) :
    json.unquoteLoop (m + 1) (b :: Y) =
      (json.unquoteLoop m Y).map (fun r => (b :: r.1, r.2)) := by
  have e1 : ¬ b.val < 0x20 := by omega
  simp [json.unquoteLoop, h2, h3, h4, e1]

theorem unquoteLoop_multi (m : Nat) (b : Byte) (Y : Bytes) (h : 0x80 ≤ b.val) :
    json.unquoteLoop (m + 1) (b :: Y) =
      (json.unquoteLoop m ((b :: Y).drop (utf8.DecodeRune (b :: Y)).2)).map
        (fun r => (utf8.EncodeRune (utf8.DecodeRune (b :: Y)).1 ++ r.1, r.2)) := by
  have e1 : ¬ b.val < 0x20 := by omega
  have e2 : ¬ b.val < 0x80 := by omega
  have e3 : ¬ b.val = 0x22 := by omega
  have e4 : ¬ b.val = 0x5C := by omega
  simp only [json.unquoteLoop, e1, e2, e3, e4, if_false]

theorem unquoteLoop_simple (m : Nat) (e b : Byte) (Y : Bytes) (h : json.simpleEscape e = some b)
    (hu : e.val ≠ 0x75) :
    json.unquoteLoop (m + 1) (0x5C :: e :: Y) =
      (json.unquoteLoop m Y).map (fun r => (b :: r.1, r.2)) := by
  simp [json.unquoteLoop, h, hu, Fin.coe_ofNat_eq_mod]

theorem unquoteLoop_u4 (m : Nat) (a b c d : Byte) (Y : Bytes) (rr : Nat)
    (h : json.getu4 [a, b, c, d] = some rr) (hs : utf16.IsSurrogate rr = false) :
    json.unquoteLoop (m + 1) (0x5C :: 0x75 :: a :: b :: c :: d :: Y) =
      (json.unquoteLoop m Y).map (fun r => (utf8.EncodeRune rr ++ r.1, r.2)) := by
  have h' : json.getu4 (a :: b :: c :: d :: Y) = some rr := by
    simpa [json.getu4] using h
  simp [json.unquoteLoop, h', hs, Fin.coe_ofNat_eq_mod]

set_option maxRecDepth 100000 in
theorem getu4_lowerhex :
    ∀ b : Byte, b.val < 0x80 →
      json.getu4 [0x30, 0x30, json.lowerhex (b.val / 16), json.lowerhex (b.val % 16)] =
        some b.val := by
  decide!

theorem EncodeRune_ascii (b : Byte) (h : b.val < 0x80) : utf8.EncodeRune b.val = [b] := by
  unfold utf8.EncodeRune
  rw [if_pos (by omega), byte_eq_of_val (b := b) rfl]

theorem unquoteLoop_escapeASCII (m : Nat) (b : Byte) (Y : Bytes) (h : b.val < 0x80)
    (hs : json.htmlSafe b = false) :
    json.unquoteLoop (m + 1) (json.escapeASCII b ++ Y) =
      (json.unquoteLoop m Y).map (fun r => (b :: r.1, r.2)) := by
  unfold json.escapeASCII
  by_cases c1 : b.val = 0x5C ∨ b.val = 0x22
  · rw [if_pos c1]
    have hse : json.simpleEscape b = some b := by
      unfold json.simpleEscape
      rw [if_pos (by omega)]
    exact unquoteLoop_simple m b b Y hse (by omega)
  · rw [if_neg c1]
    by_cases c2 : b.val = 0x08
    · rw [if_pos c2]
      have hb : b = 0x08 := Fin.ext c2
      subst hb
      exact unquoteLoop_simple m 0x62 0x08 Y (by decide) (by decide)
    · rw [if_neg c2]
      by_cases c3 : b.val = 0x0C
      · rw [if_pos c3]
        have hb : b = 0x0C := Fin.ext c3
        subst hb
        exact unquoteLoop_simple m 0x66 0x0C Y (by decide) (by decide)
      · rw [if_neg c3]
        by_cases c4 : b.val = 0x0A
        · rw [if_pos c4]
          have hb : b = 0x0A := Fin.ext c4
          subst hb
          exact unquoteLoop_simple m 0x6E 0x0A Y (by decide) (by decide)
        · rw [if_neg c4]
          by_cases c5 : b.val = 0x0D
          · rw [if_pos c5]
            have hb : b = 0x0D := Fin.ext c5
            subst hb
            exact unquoteLoop_simple m 0x72 0x0D Y (by decide) (by decide)
          · rw [if_neg c5]
            by_cases c6 : b.val = 0x09
            · rw [if_pos c6]
              have hb : b = 0x09 := Fin.ext c6
              subst hb
              exact unquoteLoop_simple m 0x74 0x09 Y (by decide) (by decide)
            · rw [if_neg c6]
              have hsur : utf16.IsSurrogate b.val = false := by
                simp only [utf16.IsSurrogate, Bool.and_eq_false_imp, decide_eq_true_eq,
                  decide_eq_false_iff_not]
                omega
              have := unquoteLoop_u4 m 0x30 0x30 (json.lowerhex (b.val / 16))
                (json.lowerhex (b.val % 16)) Y b.val (getu4_lowerhex b h) hsur
              rw [EncodeRune_ascii b h] at this
              exact this

theorem escapeASCII_length (b : Byte) : 2 ≤ (json.escapeASCII b).length := by
  unfold json.escapeASCII
  split_ifs <;> simp

/-- The decoder reads a string literal written by the encoder back as the
string coerced to valid UTF-8. -/
theorem unquote_appendString (raw : Bool) (n : Nat) :
    ∀ (s rest : Bytes) (m : Nat), s.length ≤ n → (json.appendStringLoop raw n s).length + 1 ≤ m →
      json.unquoteLoop m (json.appendStringLoop raw n s ++ 0x22 :: rest) =
        some (json.coerceLoop n s, rest) := by
  induction n with
  | zero =>
    intro s rest m _ hm
    obtain ⟨m', rfl⟩ : ∃ m', m = m' + 1 := ⟨m - 1, by omega⟩
    simp [json.appendStringLoop, json.coerceLoop, unquoteLoop_quote]
  | succ n ih =>
    intro s rest m hs hm
    obtain ⟨m', rfl⟩ : ∃ m', m = m' + 1 := ⟨m - 1, by omega⟩
    rcases s with _ | ⟨b, t⟩
    · simp [json.appendStringLoop, json.coerceLoop, unquoteLoop_quote]
    · have hb := b.isLt
      simp only [List.length_cons] at hs
      by_cases c1 : b.val < 0x80
      · -- one ASCII byte
        have hd := DecodeRune_ascii b t c1
        have hco : json.coerceLoop (n + 1) (b :: t) = b :: json.coerceLoop n t := by
          have : ¬ (b.val = utf8.RuneError) := by unfold utf8.RuneError; omega
          simp [json.coerceLoop, hd, this]
        rw [hco]
        by_cases c2 : json.htmlSafe b = true
        · have ha : json.appendStringLoop raw (n + 1) (b :: t) = b :: json.appendStringLoop raw n t := by
            simp [json.appendStringLoop, c1, c2]
          rw [ha] at hm ⊢
          have hsafe := c2
          simp only [json.htmlSafe, Bool.and_eq_true, decide_eq_true_eq, Bool.not_eq_true',
            Bool.or_eq_false_iff, decide_eq_false_iff_not] at hsafe
          obtain ⟨⟨h20, _⟩, ⟨⟨⟨⟨h22, h5c⟩, _⟩, _⟩, _⟩⟩ := hsafe
          simp only [List.cons_append]
          rw [unquoteLoop_plain m' b _ h20 c1 h22 h5c,
            ih t rest m' (by omega) (by simp only [List.length_cons] at hm; omega)]
          rfl
        · have c2' : json.htmlSafe b = false := by simpa using c2
          have ha : json.appendStringLoop raw (n + 1) (b :: t) =
              json.escapeASCII b ++ json.appendStringLoop raw n t := by
            simp [json.appendStringLoop, c1, c2']
          rw [ha] at hm ⊢
          have hl := escapeASCII_length b
          rw [List.append_assoc, unquoteLoop_escapeASCII m' b _ c1 c2',
            ih t rest m' (by omega) (by simp only [List.length_append] at hm; omega)]
          rfl
      · -- a byte outside ASCII
        have c1' : 0x80 ≤ b.val := by omega
        by_cases cv : (utf8.DecodeRune (b :: t)).1 = utf8.RuneError ∧
            (utf8.DecodeRune (b :: t)).2 = 1
        · -- not the start of a valid encoding
          have ha : json.appendStringLoop raw (n + 1) (b :: t) =
              json.replacement raw ++ json.appendStringLoop raw n t := by
            simp only [json.appendStringLoop, c1, cv, and_self, if_true, if_false]
          have hco : json.coerceLoop (n + 1) (b :: t) =
              [0xEF, 0xBF, 0xBD] ++ json.coerceLoop n t := by
            simp only [json.coerceLoop, cv, and_self, if_true]
          rw [ha] at hm ⊢
          rw [hco]
          have he : utf8.EncodeRune 0xFFFD = [0xEF, 0xBF, 0xBD] := by decide
          cases raw with
          | false =>
            have hr : json.replacement false = [0x5C, 0x75, 0x66, 0x66, 0x66, 0x64] := rfl
            rw [hr] at hm ⊢
            simp only [List.length_append, List.length_cons, List.length_nil] at hm
            have hu := unquoteLoop_u4 m' 0x66 0x66 0x66 0x64
              (json.appendStringLoop false n t ++ 0x22 :: rest) 0xFFFD (by decide) (by decide)
            rw [he] at hu
            simp only [List.cons_append, List.nil_append] at hu ⊢
            rw [hu, ih t rest m' (by omega) (by omega)]
            rfl
          | true =>
            have hr : json.replacement true = [0xEF, 0xBF, 0xBD] := rfl
            rw [hr] at hm ⊢
            simp only [List.length_append, List.length_cons, List.length_nil] at hm
            have hd : utf8.DecodeRune
                (0xEF :: 0xBF :: 0xBD :: (json.appendStringLoop true n t ++ 0x22 :: rest)) =
                (0xFFFD, 3) :=
              DecodeRune_three 0xEF 0xBF 0xBD _ (by decide) (by decide) (by decide) (by decide)
                (by decide) (by decide) (by decide) (by decide)
            have hmul := unquoteLoop_multi m' 0xEF
              (0xBF :: 0xBD :: (json.appendStringLoop true n t ++ 0x22 :: rest)) (by decide)
            rw [hd] at hmul
            simp only [List.cons_append, List.nil_append] at hmul ⊢
            rw [hmul, he]
            simp only [List.drop_succ_cons, List.drop_zero]
            rw [ih t rest m' (by omega) (by omega)]
            rfl
        · obtain ⟨henc, hk1, hkle, hpre⟩ := DecodeRune_valid b t cv
          rcases hdr : utf8.DecodeRune (b :: t) with ⟨r, k⟩
          rw [hdr] at henc hk1 hkle hpre cv
          simp only at henc hk1 hkle hpre cv
          simp only [List.length_cons] at hkle
          have hco : json.coerceLoop (n + 1) (b :: t) =
              (b :: t).take k ++ json.coerceLoop n ((b :: t).drop k) := by
            simp only [json.coerceLoop, hdr, cv, if_false]
          have hdl : ((b :: t).drop k).length ≤ n := by
            simp only [List.length_drop, List.length_cons]
            omega
          rw [hco]
          by_cases c28 : r = 0x2028 ∨ r = 0x2029
          · have ha : json.appendStringLoop raw (n + 1) (b :: t) =
                [0x5C, 0x75, 0x32, 0x30, 0x32, json.lowerhex (r % 16)] ++
                  json.appendStringLoop raw n ((b :: t).drop k) := by
              simp only [json.appendStringLoop, c1, hdr, cv, c28, if_true, if_false]
            rw [ha] at hm ⊢
            simp only [List.length_append, List.length_cons, List.length_nil] at hm
            have hg : json.getu4 [0x32, 0x30, 0x32, json.lowerhex (r % 16)] = some r := by
              rcases c28 with h | h <;> subst h <;> decide
            have hsur : utf16.IsSurrogate r = false := by
              rcases c28 with h | h <;> subst h <;> decide
            have hu := unquoteLoop_u4 m' 0x32 0x30 0x32 (json.lowerhex (r % 16))
              (json.appendStringLoop raw n ((b :: t).drop k) ++ 0x22 :: rest) r hg hsur
            simp only [List.cons_append, List.nil_append] at hu ⊢
            rw [hu, ih _ rest m' hdl (by omega), henc]
            rfl
          · have ha : json.appendStringLoop raw (n + 1) (b :: t) =
                (b :: t).take k ++ json.appendStringLoop raw n ((b :: t).drop k) := by
              simp only [json.appendStringLoop, c1, hdr, cv, c28, if_false]
            rw [ha] at hm ⊢
            simp only [List.length_append, List.length_take, List.length_cons] at hm
            obtain ⟨k', rfl⟩ : ∃ k', k = k' + 1 := ⟨k - 1, by omega⟩
            have hX := hpre (json.appendStringLoop raw n ((b :: t).drop (k' + 1)) ++ 0x22 :: rest)
            rw [List.append_assoc]
            have hdrop : ((b :: t).take (k' + 1) ++
                (json.appendStringLoop raw n ((b :: t).drop (k' + 1)) ++ 0x22 :: rest)).drop (k' + 1) =
                json.appendStringLoop raw n ((b :: t).drop (k' + 1)) ++ 0x22 :: rest := by
              apply List.drop_left'
              simp only [List.length_take, List.length_cons]
              omega
            have hmul := unquoteLoop_multi m' b
              (t.take k' ++ (json.appendStringLoop raw n ((b :: t).drop (k' + 1)) ++ 0x22 :: rest)) c1'
            rw [List.take_succ_cons] at hX hdrop ⊢
            simp only [List.cons_append] at hX hdrop hmul ⊢
            rw [hmul, hX, hdrop, ih _ rest m' hdl (by omega)]
            simp only [Option.map_some', henc, List.take_succ_cons]
            rfl

theorem coerceLoop_valid (n : Nat) :
    ∀ s : Bytes, s.length ≤ n → utf8.validLoop n s = true → json.coerceLoop n s = s := by
  induction n with
  | zero =>
    intro s hs _
    have : s = [] := List.length_eq_zero.mp (by omega)
    subst this
    rfl
  | succ n ih =>
    intro s hs hv
    rcases s with _ | ⟨b, t⟩
    · rfl
    · simp only [List.length_cons] at hs
      by_cases cv : (utf8.DecodeRune (b :: t)).1 = utf8.RuneError ∧
          (utf8.DecodeRune (b :: t)).2 = 1
      · simp [utf8.validLoop, cv] at hv
      · obtain ⟨_, hk1, hkle, _⟩ := DecodeRune_valid b t cv
        simp only [List.length_cons] at hkle
        simp only [utf8.validLoop, cv, if_false] at hv
        simp only [json.coerceLoop, cv, if_false]
        rw [ih _ (by simp only [List.length_drop, List.length_cons]; omega) hv]
        exact List.take_append_drop _ _

/-- A string literal of the encoder, read back by the decoder. -/
theorem parseString_appendString (raw : Bool) (s rest : Bytes) :
    json.parseString (json.appendStringLoop raw s.length s ++ 0x22 :: rest) =
      some (json.coerceUTF8 s, rest) := by
  unfold json.parseString json.coerceUTF8
  exact unquote_appendString raw s.length s rest _ (le_refl _)
    (by simp only [List.length_append, List.length_cons]; omega)

theorem coerceUTF8_valid (s : Bytes) (h : utf8.ValidString s = true) : json.coerceUTF8 s = s :=
  coerceLoop_valid s.length s (le_refl _) h

/-! ### encoding/json: numbers -/

theorem digitsLoop_acc (fuel : Nat) :
    ∀ (n : Nat) (acc : Bytes), json.digitsLoop fuel n acc = json.digitsLoop fuel n [] ++ acc := by
  induction fuel with
  | zero => intro n acc; rfl
  | succ fuel ih =>
    intro n acc
    simp only [json.digitsLoop]
    split_ifs
    · rfl
    · rw [ih (n / 10) (byte (0x30 + n % 10) :: acc), ih (n / 10) [byte (0x30 + n % 10)]]
      simp

theorem digit_val (n : Nat) (h : n < 10) : (byte (0x30 + n)).val = 0x30 + n := by
  rw [byte_val]
  omega

/-- The digits that `AppendInt` writes for `n`: at least one, all decimal
digits, no leading zero except for 0 itself, and their value is `n`. -/
theorem digitsLoop_spec (fuel : Nat) :
    ∀ n : Nat, n < fuel →
      ∃ d ds, json.digitsLoop fuel n [] = d :: ds ∧
        (∀ b ∈ d :: ds, 0x30 ≤ b.val ∧ b.val ≤ 0x39) ∧
        (d.val = 0x30 → n = 0 ∧ ds = []) ∧
        (d :: ds).foldl (fun a b => a * 10 + (b.val - 0x30)) 0 = n := by
  induction fuel with
  | zero => intro n h; omega
  | succ fuel ih =>
    intro n hn
    simp only [json.digitsLoop]
    by_cases c : n < 10
    · rw [if_pos c]
      refine ⟨byte (0x30 + n), [], rfl, ?_, ?_, ?_⟩
      · intro b hb
        simp only [List.mem_singleton] at hb
        subst hb
        rw [digit_val n c]
        omega
      · intro h
        rw [digit_val n c] at h
        exact ⟨by omega, rfl⟩
      · simp only [List.foldl_cons, List.foldl_nil, digit_val n c]
        omega
    · rw [if_neg c, digitsLoop_acc]
      obtain ⟨d, ds, hd, hall, hz, hval⟩ := ih (n / 10) (by omega)
      rw [hd]
      refine ⟨d, ds ++ [byte (0x30 + n % 10)], rfl, ?_, ?_, ?_⟩
      · intro b hb
        rw [← List.cons_append, List.mem_append] at hb
        rcases hb with hb | hb
        · exact hall b hb
        · simp only [List.mem_singleton] at hb
          subst hb
          rw [digit_val _ (Nat.mod_lt _ (by decide))]
          omega
      · intro h
        have := (hz h).1
        omega
      · rw [← List.cons_append, List.foldl_append, hval]
        simp only [List.foldl_cons, List.foldl_nil, digit_val _ (Nat.mod_lt n (by decide : 0 < 10))]
        omega

theorem parseDigits_eq :
    ∀ (ds : Bytes) (acc : Nat), ds ≠ [] → (∀ b ∈ ds, 0x30 ≤ b.val ∧ b.val ≤ 0x39) →
      json.parseDigits ds acc = some (ds.foldl (fun a b => a * 10 + (b.val - 0x30)) acc) := by
  intro ds
  induction ds with
  | nil => intro acc h; exact absurd rfl h
  | cons c rest ih =>
    intro acc _ hall
    have hc := hall c (List.mem_cons_self _ _)
    rcases rest with _ | ⟨d, rest'⟩
    · simp [json.parseDigits, hc]
    · simp only [json.parseDigits, hc, and_self, if_true, List.foldl_cons]
      rw [ih _ (by simp) (fun b hb => hall b (List.mem_cons_of_mem _ hb))]
      rfl

theorem spanDigits_append (ds : Bytes) (c : Byte) (rest : Bytes)
    (hall : ∀ b ∈ ds, 0x30 ≤ b.val ∧ b.val ≤ 0x39) (hc : ¬ (0x30 ≤ c.val ∧ c.val ≤ 0x39)) :
    json.spanDigits (ds ++ c :: rest) = (ds, c :: rest) := by
  induction ds with
  | nil => simp [json.spanDigits, hc]
  | cons d ds ih =>
    have hd := hall d (List.mem_cons_self _ _)
    simp only [List.cons_append, json.spanDigits, hd, and_self, if_true, List.append_eq]
    rw [ih (fun b hb => hall b (List.mem_cons_of_mem _ hb))]

/-- The scanner reads a number that `AppendInt` wrote, up to the closing
brace that follows it. -/
theorem parseNumber_AppendInt (i : Int) (rest : Bytes) :
    json.parseNumber (json.AppendInt i ++ 0x7D :: rest) =
      some (json.AppendInt i, 0x7D :: rest) := by
  have key : ∀ (lit : Bytes) (n : Nat),
      json.parseIntPart lit (json.digitsLoop (n + 1) n [] ++ 0x7D :: rest) =
        some (lit ++ json.digitsLoop (n + 1) n [], 0x7D :: rest) := by
    intro lit n
    obtain ⟨d, ds, hd, hall, hz, _⟩ := digitsLoop_spec (n + 1) n (by omega)
    rw [hd]
    have hdd := hall d (List.mem_cons_self _ _)
    simp only [List.cons_append, json.parseIntPart]
    by_cases c0 : d.val = 0x30
    · obtain ⟨_, rfl⟩ := hz c0
      simp [c0, json.parseFraction, json.parseExponent, Fin.coe_ofNat_eq_mod]
    · have c1 : 0x31 ≤ d.val ∧ d.val ≤ 0x39 := by omega
      rw [if_neg c0, if_pos c1, spanDigits_append ds 0x7D rest
        (fun b hb => hall b (List.mem_cons_of_mem _ hb)) (by decide)]
      simp [json.parseFraction, json.parseExponent, Fin.coe_ofNat_eq_mod]
  unfold json.AppendInt
  by_cases hneg : i < 0
  · rw [if_pos hneg]
    simp only [List.cons_append, json.parseNumber, Fin.coe_ofNat_eq_mod]
    simp only [Nat.reduceMod, if_true]
    rw [key]
    rfl
  · rw [if_neg hneg]
    obtain ⟨d, ds, hd, hall, _, _⟩ := digitsLoop_spec (i.natAbs + 1) i.natAbs (by omega)
    have hdd := hall d (List.mem_cons_self _ _)
    have := key [] i.natAbs
    rw [hd] at this ⊢
    simp only [List.cons_append, json.parseNumber]
    rw [if_neg (by omega)]
    simpa using this

/-- `ParseInt` reads back what `AppendInt` wrote for a 64-bit integer. -/
theorem ParseInt_AppendInt (i : Int) (hlo : -(2 : Int) ^ 63 ≤ i) (hhi : i < (2 : Int) ^ 63) :
    json.ParseInt (json.AppendInt i) = some i := by
  obtain ⟨d, ds, hd, hall, _, hval⟩ := digitsLoop_spec (i.natAbs + 1) i.natAbs (by omega)
  have hdd := hall d (List.mem_cons_self _ _)
  have hp := parseDigits_eq (d :: ds) 0 (by simp) hall
  rw [hval] at hp
  unfold json.AppendInt
  by_cases hneg : i < 0
  · rw [if_pos hneg, hd]
    simp only [json.ParseInt, Fin.coe_ofNat_eq_mod, Nat.reduceMod, if_true, hp]
    have h1 : i.natAbs ≤ 2 ^ 63 := by omega
    rw [if_pos h1]
    congr 1
    omega
  · rw [if_neg hneg, hd]
    simp only [json.ParseInt]
    rw [if_neg (by omega), if_neg (by omega), hp]
    have h1 : i.natAbs < 2 ^ 63 := by omega
    simp only [h1, if_true]
    congr 1
    omega

/-! ### encoding/json: documents -/

theorem skipSpace_cons (c : Byte) (Y : Bytes) (h : json.isSpace c = false) :
    json.skipSpace (c :: Y) = c :: Y := by
  simp [json.skipSpace, h]

theorem parseString_key {raw : Bool} (k Y : Bytes) (h1 : json.appendStringLoop raw k.length k = k)
    (h2 : json.coerceUTF8 k = k) : json.parseString (k ++ 0x22 :: Y) = some (k, Y) := by
  have := parseString_appendString raw k Y
  rw [h1, h2] at this
  exact this

theorem parseMember_key {raw : Bool}
    (pv : Bytes → Option (json.JSON × Bytes)) (k V : Bytes) (v : json.JSON)
    (r : Bytes) (h1 : json.appendStringLoop raw k.length k = k) (h2 : json.coerceUTF8 k = k)
    (hv : pv V = some (v, r)) :
    json.parseMember pv (0x22 :: (k ++ 0x22 :: 0x3A :: V)) = some ((k, v), r) := by
  unfold json.parseMember
  rw [skipSpace_cons _ _ (by decide)]
  simp only [Fin.coe_ofNat_eq_mod, Nat.reduceMod, if_true]
  rw [parseString_key k _ h1 h2]
  simp only
  rw [skipSpace_cons _ _ (by decide)]
  simp only [Fin.coe_ofNat_eq_mod, Nat.reduceMod, if_true, hv]

theorem parseMembers_close (pv : Bytes → Option (json.JSON × Bytes)) (n : Nat) (Y : Bytes) :
    json.parseMembers pv (n + 1) (0x7D :: Y) = some ([], Y) := by
  unfold json.parseMembers
  rw [skipSpace_cons _ _ (by decide)]
  simp [Fin.coe_ofNat_eq_mod]

theorem parseMembers_comma (pv : Bytes → Option (json.JSON × Bytes)) (n : Nat) (Y r : Bytes)
    (m : Bytes × json.JSON) (hm : json.parseMember pv Y = some (m, r)) :
    json.parseMembers pv (n + 1) (0x2C :: Y) =
      (json.parseMembers pv n r).map (fun x => (m :: x.1, x.2)) := by
  rw [json.parseMembers]
  rw [skipSpace_cons _ _ (by decide)]
  simp [Fin.coe_ofNat_eq_mod, hm]

theorem parseMembers_mono (pv : Bytes → Option (json.JSON × Bytes)) (n : Nat) :
    ∀ (s : Bytes) (res : List (Bytes × json.JSON) × Bytes) (n' : Nat), n ≤ n' →
      json.parseMembers pv n s = some res → json.parseMembers pv n' s = some res := by
  induction n with
  | zero => intro s res n' _ h; simp [json.parseMembers] at h
  | succ n ih =>
    intro s res n' hn h
    obtain ⟨k, rfl⟩ : ∃ k, n' = k + 1 := ⟨n' - 1, by omega⟩
    rw [json.parseMembers] at h ⊢
    cases hsk : json.skipSpace s with
    | nil => rw [hsk] at h; simp at h
    | cons c r =>
      rw [hsk] at h
      simp only at h ⊢
      by_cases h1 : c.val = 0x7D
      · rw [if_pos h1] at h ⊢
        exact h
      · rw [if_neg h1] at h ⊢
        by_cases h2 : c.val = 0x2C
        · rw [if_pos h2] at h ⊢
          cases hmem : json.parseMember pv r with
          | none => rw [hmem] at h; simp at h
          | some mr =>
            rw [hmem] at h
            obtain ⟨m, r1⟩ := mr
            simp only at h ⊢
            cases hrec : json.parseMembers pv n r1 with
            | none => rw [hrec] at h; simp at h
            | some x =>
              rw [hrec] at h
              rw [ih r1 x k (by omega) hrec]
              exact h
        · rw [if_neg h2] at h
          simp at h

theorem parseElements_close (pv : Bytes → Option (json.JSON × Bytes)) (n : Nat) (Y : Bytes) :
    json.parseElements pv (n + 1) (0x5D :: Y) = some ([], Y) := by
  unfold json.parseElements
  rw [skipSpace_cons _ _ (by decide)]
  simp [Fin.coe_ofNat_eq_mod]

theorem parseElements_comma (pv : Bytes → Option (json.JSON × Bytes)) (n : Nat) (Y r : Bytes)
    (v : json.JSON) (hv : pv Y = some (v, r)) :
    json.parseElements pv (n + 1) (0x2C :: Y) =
      (json.parseElements pv n r).map (fun x => (v :: x.1, x.2)) := by
  rw [json.parseElements]
  rw [skipSpace_cons _ _ (by decide)]
  simp [Fin.coe_ofNat_eq_mod, hv]

theorem parseValue_string (raw : Bool) (d : Nat) (s Y : Bytes) :
    json.parseValue (d + 1) (json.appendString raw s ++ Y) =
      some (.string (json.coerceUTF8 s), Y) := by
  unfold json.appendString
  simp only [List.append_assoc, List.cons_append, List.nil_append]
  rw [json.parseValue, skipSpace_cons _ _ (by decide)]
  simp only [Fin.coe_ofNat_eq_mod, Nat.reduceMod]
  simp only [Nat.reduceEqDiff, if_false, if_true]
  rw [parseString_appendString]
  rfl

theorem parseElements_mono (pv : Bytes → Option (json.JSON × Bytes)) (n : Nat) :
    ∀ (s : Bytes) (res : List json.JSON × Bytes) (n' : Nat), n ≤ n' →
      json.parseElements pv n s = some res → json.parseElements pv n' s = some res := by
  induction n with
  | zero => intro s res n' _ h; simp [json.parseElements] at h
  | succ n ih =>
    intro s res n' hn h
    obtain ⟨k, rfl⟩ : ∃ k, n' = k + 1 := ⟨n' - 1, by omega⟩
    rw [json.parseElements] at h ⊢
    cases hsk : json.skipSpace s with
    | nil => rw [hsk] at h; simp at h
    | cons c r =>
      rw [hsk] at h
      simp only at h ⊢
      by_cases h1 : c.val = 0x5D
      · rw [if_pos h1] at h ⊢
        exact h
      · rw [if_neg h1] at h ⊢
        by_cases h2 : c.val = 0x2C
        · rw [if_pos h2] at h ⊢
          cases hmem : pv r with
          | none => rw [hmem] at h; simp at h
          | some mr =>
            rw [hmem] at h
            obtain ⟨m, r1⟩ := mr
            simp only at h ⊢
            cases hrec : json.parseElements pv n r1 with
            | none => rw [hrec] at h; simp at h
            | some x =>
              rw [hrec] at h
              rw [ih r1 x k (by omega) hrec]
              exact h
        · rw [if_neg h2] at h
          simp at h

theorem parseValue_object (d n : Nat) (Y r2 r3 : Bytes) (m : Bytes × json.JSON)
    (ms : List (Bytes × json.JSON))
    (hm : json.parseMember (json.parseValue (d + 1)) (0x22 :: Y) = some (m, r2))
    (hms : json.parseMembers (json.parseValue (d + 1)) n r2 = some (ms, r3))
    (hn : n ≤ r2.length + 1) :
    json.parseValue (d + 2) (0x7B :: 0x22 :: Y) = some (.object (m :: ms), r3) := by
  rw [json.parseValue, skipSpace_cons _ _ (by decide)]
  simp only [Fin.coe_ofNat_eq_mod, Nat.reduceMod, if_true, Nat.add_one_ne_zero, if_false]
  rw [skipSpace_cons _ _ (by decide)]
  simp only [Fin.coe_ofNat_eq_mod, Nat.reduceMod, Nat.reduceEqDiff, if_false, hm]
  rw [parseMembers_mono _ n r2 _ _ hn hms]
  rfl

theorem parseValue_array (d n : Nat) (Y r2 r3 : Bytes) (v : json.JSON) (vs : List json.JSON)
    (hv : json.parseValue (d + 1) (0x7B :: Y) = some (v, r2))
    (hvs : json.parseElements (json.parseValue (d + 1)) n r2 = some (vs, r3))
    (hn : n ≤ r2.length + 1) :
    json.parseValue (d + 2) (0x5B :: 0x7B :: Y) = some (.array (v :: vs), r3) := by
  rw [json.parseValue, skipSpace_cons _ _ (by decide)]
  simp only [Fin.coe_ofNat_eq_mod, Nat.reduceMod, Nat.reduceEqDiff, if_false, if_true,
    Nat.add_one_ne_zero]
  rw [skipSpace_cons _ _ (by decide)]
  simp only [Fin.coe_ofNat_eq_mod, Nat.reduceMod, Nat.reduceEqDiff, if_false, hv]
  rw [parseElements_mono _ n r2 _ _ hn hvs]
  rfl

theorem parseValue_empty_array (d : Nat) (Y : Bytes) :
    json.parseValue (d + 2) (0x5B :: 0x5D :: Y) = some (.array [], Y) := by
  rw [json.parseValue, skipSpace_cons _ _ (by decide)]
  simp only [Fin.coe_ofNat_eq_mod, Nat.reduceMod, Nat.reduceEqDiff, if_false, if_true,
    Nat.add_one_ne_zero]
  rw [skipSpace_cons _ _ (by decide)]
  simp only [Fin.coe_ofNat_eq_mod, Nat.reduceMod, if_true]

theorem parseValue_null (d : Nat) (Y : Bytes) :
    json.parseValue (d + 1) (0x6E :: 0x75 :: 0x6C :: 0x6C :: Y) = some (.null, Y) := by
  rw [json.parseValue, skipSpace_cons _ _ (by decide)]
  simp [Fin.coe_ofNat_eq_mod, strings.startsWith]

theorem AppendInt_head (i : Int) :
    ∃ h tl, json.AppendInt i = h :: tl ∧ (h.val = 0x2D ∨ (0x30 ≤ h.val ∧ h.val ≤ 0x39)) := by
  unfold json.AppendInt
  by_cases hneg : i < 0
  · rw [if_pos hneg]
    exact ⟨_, _, rfl, Or.inl rfl⟩
  · rw [if_neg hneg]
    obtain ⟨d, ds, hd, hall, _, _⟩ := digitsLoop_spec (i.natAbs + 1) i.natAbs (by omega)
    exact ⟨d, ds, hd, Or.inr (hall d (List.mem_cons_self _ _))⟩

theorem parseValue_number (d : Nat) (i : Int) (Y : Bytes) :
    json.parseValue (d + 1) (json.AppendInt i ++ 0x7D :: Y) =
      some (.number (json.AppendInt i), 0x7D :: Y) := by
  have hp := parseNumber_AppendInt i Y
  obtain ⟨h, tl, hh, hv⟩ := AppendInt_head i
  rw [hh] at hp ⊢
  have hb := h.isLt
  have hsp : json.isSpace h = false := by
    simp only [json.isSpace, Bool.or_eq_false_iff, decide_eq_false_iff_not]
    omega
  simp only [List.cons_append] at hp ⊢
  rw [json.parseValue, skipSpace_cons _ _ hsp]
  have e1 : ¬ h.val = 0x7B := by omega
  have e2 : ¬ h.val = 0x5B := by omega
  have e3 : ¬ h.val = 0x22 := by omega
  have e4 : ((0x74 : Byte) == h) = false := by
    rw [beq_eq_false_iff_ne]
    intro e; rw [← e] at hv; revert hv; decide
  have e5 : ((0x66 : Byte) == h) = false := by
    rw [beq_eq_false_iff_ne]
    intro e; rw [← e] at hv; revert hv; decide
  have e6 : ((0x6E : Byte) == h) = false := by
    rw [beq_eq_false_iff_ne]
    intro e; rw [← e] at hv; revert hv; decide
  simp only [e1, e2, e3, if_false, strings.startsWith, List.isPrefixOf, e4, e5, e6,
    Bool.false_and, hp, Bool.false_eq_true]
  rfl

theorem key_facts :
    ∀ raw : Bool, ∀ k ∈ [str "id", str "type", str "status", str "title", str "body", str "storage",
        str "value", str "representation", str "version", str "number", str "ancestors"],
      json.appendStringLoop raw k.length k = k ∧ json.coerceUTF8 k = k := by
  decide

theorem ContentAncestor.parseValue_Marshal_object (raw : Bool)
    (d : Nat) (a : ContentAncestor) (Y : Bytes) :
    json.parseValue (d + 2) (a.Marshal raw ++ Y) = some (a.document, Y) := by
  have hk := key_facts raw (str "id") (by decide)
  have e : a.Marshal raw ++ Y =
      0x7B :: 0x22 :: (str "id" ++ 0x22 :: 0x3A :: (json.appendString raw a.Id ++ 0x7D :: Y)) := by
    unfold ContentAncestor.Marshal
    have h1 : str "\x7b\"id\":" = 0x7B :: 0x22 :: (str "id" ++ [0x22, 0x3A]) := by decide
    have h2 : str "\x7d" = [0x7D] := by decide
    rw [h1, h2]
    simp only [List.append_assoc, List.cons_append, List.nil_append]
  rw [e]
  exact parseValue_object d 1 _ _ _ _ []
    (parseMember_key _ _ _ _ _ hk.1 hk.2 (parseValue_string raw d a.Id _))
    (parseMembers_close _ 0 Y) (by simp)

theorem marshalAncestors_cons (raw : Bool) (a : ContentAncestor) (l : List ContentAncestor) :
    marshalAncestors raw (a :: l) = a.Marshal raw ++ l.flatMap (fun b => 0x2C :: b.Marshal raw) := by
  induction l generalizing a with
  | nil => simp [marshalAncestors]
  | cons b l ih =>
    rw [marshalAncestors, ih b]
    simp only [List.flatMap_cons, List.append_assoc, List.cons_append, List.nil_append,
      List.singleton_append]

theorem flatMap_Marshal_length (raw : Bool) (l : List ContentAncestor) :
    l.length ≤ (l.flatMap (fun b => 0x2C :: b.Marshal raw)).length := by
  induction l with
  | nil => simp
  | cons b l ih =>
    simp only [List.flatMap_cons, List.length_append, List.length_cons]
    omega

theorem parseElements_ancestors (raw : Bool) (d : Nat) (l : List ContentAncestor) (Y : Bytes) :
    json.parseElements (json.parseValue (d + 2)) (l.length + 1)
        (l.flatMap (fun b => 0x2C :: b.Marshal raw) ++ 0x5D :: Y) =
      some (l.map ContentAncestor.document, Y) := by
  induction l with
  | nil => exact parseElements_close _ 0 Y
  | cons b l ih =>
    simp only [List.flatMap_cons, List.append_assoc, List.cons_append, List.length_cons,
      List.map_cons]
    rw [parseElements_comma _ _ _ _ _ (ContentAncestor.parseValue_Marshal_object raw d b _), ih]
    rfl

theorem ContentAncestor.Marshal_head (raw : Bool) (a : ContentAncestor) :
    ∃ tl, a.Marshal raw = 0x7B :: tl := by
  unfold ContentAncestor.Marshal
  have h1 : str "\x7b\"id\":" = 0x7B :: 0x22 :: (str "id" ++ [0x22, 0x3A]) := by decide
  rw [h1]
  exact ⟨_, rfl⟩

/-- The scanner reads the `ancestors` value that `Content.Marshal raw` writes. -/
theorem parseValue_ancestors (raw : Bool)
    (d : Nat) (anc : Option (List ContentAncestor)) (Y : Bytes) :
    json.parseValue (d + 3)
        ((match anc with
          | none => str "null"
          | some l => [0x5B] ++ marshalAncestors raw l ++ [0x5D]) ++ Y) =
      some ((match anc with
        | none => json.JSON.null
        | some l => json.JSON.array (l.map ContentAncestor.document)), Y) := by
  rcases anc with _ | l
  · have h : str "null" = [0x6E, 0x75, 0x6C, 0x6C] := by decide
    simp only [h, List.cons_append, List.nil_append]
    exact parseValue_null _ Y
  · rcases l with _ | ⟨a, l⟩
    · simp only [marshalAncestors, List.append_nil, List.cons_append, List.nil_append,
        List.map_nil]
      exact parseValue_empty_array _ Y
    · obtain ⟨tl, htl⟩ := ContentAncestor.Marshal_head raw a
      have hp := ContentAncestor.parseValue_Marshal_object raw d a
        (l.flatMap (fun b => 0x2C :: b.Marshal raw) ++ 0x5D :: Y)
      simp only [marshalAncestors_cons, List.append_assoc, List.cons_append, List.nil_append,
        List.map_cons]
      rw [htl] at hp ⊢
      simp only [List.cons_append] at hp ⊢
      refine parseValue_array (d + 1) (l.length + 1) _ _ _ _ _ hp
        (parseElements_ancestors raw d l Y) ?_
      have := flatMap_Marshal_length raw l
      simp only [List.length_append, List.length_cons]
      omega

theorem parseMembers_member {raw : Bool} (pv : Bytes → Option (json.JSON × Bytes)) (n : Nat)
    (k V r r' : Bytes) (v : json.JSON) (ms : List (Bytes × json.JSON))
    (hk : json.appendStringLoop raw k.length k = k ∧ json.coerceUTF8 k = k)
    (hv : pv V = some (v, r)) (hms : json.parseMembers pv n r = some (ms, r')) :
    json.parseMembers pv (n + 1) (0x2C :: 0x22 :: (k ++ 0x22 :: 0x3A :: V)) =
      some ((k, v) :: ms, r') := by
  rw [parseMembers_comma pv n _ r (k, v) (parseMember_key pv k V v r hk.1 hk.2 hv), hms]
  rfl

theorem parseValue_storage (raw : Bool) (d : Nat) (value repr Y : Bytes) :
    json.parseValue (d + 2)
        (0x7B :: 0x22 :: (str "value" ++ 0x22 :: 0x3A :: (json.appendString raw value ++
          0x2C :: 0x22 :: (str "representation" ++ 0x22 :: 0x3A :: (json.appendString raw repr ++
            0x7D :: Y))))) =
      some (.object [(str "value", .string (json.coerceUTF8 value)),
        (str "representation", .string (json.coerceUTF8 repr))], Y) := by
  have k1 := key_facts raw (str "value") (by decide)
  have k2 := key_facts raw (str "representation") (by decide)
  refine parseValue_object d 2 _ _ _ _ _
    (parseMember_key _ _ _ _ _ k1.1 k1.2 (parseValue_string raw d value _))
    (parseMembers_member _ 1 _ _ _ _ _ _ k2 (parseValue_string raw d repr _)
      (parseMembers_close _ 0 Y)) ?_
  simp only [List.length_append, List.length_cons]
  omega

theorem parseValue_body (raw : Bool) (d : Nat) (value repr Y : Bytes) :
    json.parseValue (d + 3)
        (0x7B :: 0x22 :: (str "storage" ++ 0x22 :: 0x3A ::
          (0x7B :: 0x22 :: (str "value" ++ 0x22 :: 0x3A :: (json.appendString raw value ++
            0x2C :: 0x22 :: (str "representation" ++ 0x22 :: 0x3A :: (json.appendString raw repr ++
              0x7D :: 0x7D :: Y))))))) =
      some (.object [(str "storage", .object
        [(str "value", .string (json.coerceUTF8 value)),
         (str "representation", .string (json.coerceUTF8 repr))])], Y) := by
  have k1 := key_facts raw (str "storage") (by decide)
  exact parseValue_object (d + 1) 1 _ _ _ _ []
    (parseMember_key _ _ _ _ _ k1.1 k1.2 (parseValue_storage raw d value repr _))
    (parseMembers_close _ 0 Y) (by simp)

theorem parseValue_version (d : Nat) (i : Int) (Y : Bytes) :
    json.parseValue (d + 2)
        (0x7B :: 0x22 :: (str "number" ++ 0x22 :: 0x3A :: (json.AppendInt i ++ 0x7D :: Y))) =
      some (.object [(str "number", .number (json.AppendInt i))], Y) := by
  have k1 := key_facts false (str "number") (by decide)
  exact parseValue_object d 1 _ _ _ _ []
    (parseMember_key _ _ _ _ _ k1.1 k1.2 (parseValue_number d i _))
    (parseMembers_close _ 0 Y) (by simp)

theorem Content.Marshal_eq (raw : Bool) (c : Content) (Y : Bytes) :
    c.Marshal raw ++ Y =
      0x7B :: 0x22 :: (str "id" ++ 0x22 :: 0x3A :: (json.appendString raw c.Id ++
      0x2C :: 0x22 :: (str "type" ++ 0x22 :: 0x3A :: (json.appendString raw c.Type_ ++
      0x2C :: 0x22 :: (str "status" ++ 0x22 :: 0x3A :: (json.appendString raw c.Status ++
      0x2C :: 0x22 :: (str "title" ++ 0x22 :: 0x3A :: (json.appendString raw c.Title ++
      0x2C :: 0x22 :: (str "body" ++ 0x22 :: 0x3A :: (0x7B :: 0x22 :: (str "storage" ++ 0x22 :: 0x3A :: (0x7B :: 0x22 :: (str "value" ++ 0x22 :: 0x3A :: (json.appendString raw c.Body.Storage.Value ++
        0x2C :: 0x22 :: (str "representation" ++ 0x22 :: 0x3A :: (json.appendString raw c.Body.Storage.Representation ++
        0x7D :: 0x7D :: 0x2C :: 0x22 :: (str "version" ++ 0x22 :: 0x3A :: (0x7B :: 0x22 :: (str "number" ++ 0x22 :: 0x3A :: (json.AppendInt c.Version.Number ++
        0x7D :: 0x2C :: 0x22 :: (str "ancestors" ++ 0x22 :: 0x3A :: ((match c.Ancestors with
          | none => str "null"
          | some l => [0x5B] ++ marshalAncestors raw l ++ [0x5D]) ++
        0x7D :: Y)))))))))))))))))))))) := by
  unfold Content.Marshal
  have h1 : str "\x7b\"id\":" = 0x7B :: 0x22 :: (str "id" ++ [0x22, 0x3A]) := by decide
  have h2 : str ",\"type\":" = 0x2C :: 0x22 :: (str "type" ++ [0x22, 0x3A]) := by decide
  have h3 : str ",\"status\":" = 0x2C :: 0x22 :: (str "status" ++ [0x22, 0x3A]) := by decide
  have h4 : str ",\"title\":" = 0x2C :: 0x22 :: (str "title" ++ [0x22, 0x3A]) := by decide
  have h5 : str ",\"body\":\x7b\"storage\":\x7b\"value\":" =
      0x2C :: 0x22 :: (str "body" ++ 0x22 :: 0x3A :: 0x7B :: 0x22 :: (str "storage" ++
        0x22 :: 0x3A :: 0x7B :: 0x22 :: (str "value" ++ [0x22, 0x3A]))) := by decide
  have h6 : str ",\"representation\":" =
      0x2C :: 0x22 :: (str "representation" ++ [0x22, 0x3A]) := by decide
  have h7 : str "\x7d\x7d,\"version\":\x7b\"number\":" =
      0x7D :: 0x7D :: 0x2C :: 0x22 :: (str "version" ++ 0x22 :: 0x3A :: 0x7B :: 0x22 ::
        (str "number" ++ [0x22, 0x3A])) := by decide
  have h8 : str "\x7d,\"ancestors\":" =
      0x7D :: 0x2C :: 0x22 :: (str "ancestors" ++ [0x22, 0x3A]) := by decide
  have h9 : str "\x7d" = [0x7D] := by decide
  rw [h1, h2, h3, h4, h5, h6, h7, h8, h9]
  simp only [List.append_assoc, List.cons_append, List.nil_append]

/-- The scanner reads what `Content.Marshal raw` wrote as the document of the
content. -/
theorem Content.parseValue_Marshal (raw : Bool) (d : Nat) (c : Content) (Y : Bytes) :
    json.parseValue (d + 4) (c.Marshal raw ++ Y) = some (c.document, Y) := by
  rw [Content.Marshal_eq]
  have k := key_facts raw
  refine parseValue_object (d + 2) 7 _ _ _ _ _
    (parseMember_key _ _ _ _ _ (k _ (by decide)).1 (k _ (by decide)).2
      (parseValue_string raw (d + 2) c.Id _))
    (parseMembers_member _ 6 _ _ _ _ _ _ (k _ (by decide)) (parseValue_string raw (d + 2) c.Type_ _)
    (parseMembers_member _ 5 _ _ _ _ _ _ (k _ (by decide)) (parseValue_string raw (d + 2) c.Status _)
    (parseMembers_member _ 4 _ _ _ _ _ _ (k _ (by decide)) (parseValue_string raw (d + 2) c.Title _)
    (parseMembers_member _ 3 _ _ _ _ _ _ (k _ (by decide))
      (parseValue_body raw d c.Body.Storage.Value c.Body.Storage.Representation _)
    (parseMembers_member _ 2 _ _ _ _ _ _ (k _ (by decide))
      (parseValue_version (d + 1) c.Version.Number _)
    (parseMembers_member _ 1 _ _ _ _ _ _ (k _ (by decide))
      (parseValue_ancestors raw d c.Ancestors _)
    (parseMembers_close _ 0 Y))))))) ?_
  simp only [List.length_append, List.length_cons]
  omega

/-- Parsing the bytes that `json.Marshal` writes for a `Content` succeeds and
gives the document of the content. -/
theorem Content.parse_Marshal (raw : Bool) (c : Content) :
    json.parse (c.Marshal raw) = some c.document := by
  unfold json.parse
  have h := Content.parseValue_Marshal raw 9997 c []
  rw [List.append_nil] at h
  have e : json.maxNestingDepth + 1 = 9997 + 4 := by decide
  rw [e, h]
  rfl

theorem keyMatches_facts :
    json.keyMatches (str "id") (str "id") = true ∧
    json.keyMatches (str "type") (str "id") = false ∧
    json.keyMatches (str "type") (str "type") = true ∧
    json.keyMatches (str "status") (str "id") = false ∧
    json.keyMatches (str "status") (str "type") = false ∧
    json.keyMatches (str "status") (str "status") = true ∧
    json.keyMatches (str "title") (str "id") = false ∧
    json.keyMatches (str "title") (str "type") = false ∧
    json.keyMatches (str "title") (str "status") = false ∧
    json.keyMatches (str "title") (str "title") = true ∧
    json.keyMatches (str "body") (str "id") = false ∧
    json.keyMatches (str "body") (str "type") = false ∧
    json.keyMatches (str "body") (str "status") = false ∧
    json.keyMatches (str "body") (str "title") = false ∧
    json.keyMatches (str "body") (str "body") = true ∧
    json.keyMatches (str "version") (str "id") = false ∧
    json.keyMatches (str "version") (str "type") = false ∧
    json.keyMatches (str "version") (str "status") = false ∧
    json.keyMatches (str "version") (str "title") = false ∧
    json.keyMatches (str "version") (str "body") = false ∧
    json.keyMatches (str "version") (str "version") = true ∧
    json.keyMatches (str "ancestors") (str "id") = false ∧
    json.keyMatches (str "ancestors") (str "type") = false ∧
    json.keyMatches (str "ancestors") (str "status") = false ∧
    json.keyMatches (str "ancestors") (str "title") = false ∧
    json.keyMatches (str "ancestors") (str "body") = false ∧
    json.keyMatches (str "ancestors") (str "version") = false ∧
    json.keyMatches (str "ancestors") (str "ancestors") = true ∧
    json.keyMatches (str "storage") (str "storage") = true ∧
    json.keyMatches (str "value") (str "value") = true ∧
    json.keyMatches (str "representation") (str "value") = false ∧
    json.keyMatches (str "representation") (str "representation") = true ∧
    json.keyMatches (str "number") (str "number") = true := by
  decide

theorem decodeElements_ancestors (l : List ContentAncestor)
    (h : ∀ a ∈ l, utf8.ValidString a.Id = true) :
    json.decodeElements {} (json.decodeStruct ContentAncestor.setField)
      (l.map ContentAncestor.document) [] = .ok l := by
  have hk : json.keyMatches (str "id") (str "id") = true := keyMatches_facts.1
  induction l with
  | nil => rfl
  | cons a l ih =>
    have ha := h a (List.mem_cons_self _ _)
    simp only [List.map_cons, json.decodeElements, ContentAncestor.document, json.decodeStruct,
      json.decodeMembers, ContentAncestor.setField, hk, if_true, json.decodeString, Except.map,
      List.headD_nil, List.tail_nil,
      coerceUTF8_valid a.Id ha, ih (fun b hb => h b (List.mem_cons_of_mem _ hb))]

/-- Decoding the document of a well-formed content into a zero `Content`
gives the content back. -/
theorem Content.decode_document (c : Content) (h : c.WellFormed) :
    json.decodeStruct ContentCell.setField {} c.document = .ok { val := c, spare := [] } := by
  obtain ⟨h1, h2, h3, h4, h5, h6, h7, h8, h9⟩ := h
  obtain ⟨k1, k2, k3, k4, k5, k6, k7, k8, k9, k10, k11, k12, k13, k14, k15, k16, k17, k18, k19,
    k20, k21, k22, k23, k24, k25, k26, k27, k28, k29, k30, k31, k32, k33⟩ := keyMatches_facts
  have hanc : json.decodeSlice {} (json.decodeStruct ContentAncestor.setField)
      { elems := none, spare := [] }
      (match c.Ancestors with
        | none => json.JSON.null
        | some l => json.JSON.array (l.map ContentAncestor.document)) =
      .ok { elems := c.Ancestors, spare := [] } := by
    rcases hA : c.Ancestors with _ | l
    · rfl
    · rw [hA] at h7
      rcases l with _ | ⟨a, l⟩
      · rfl
      · have := decodeElements_ancestors (a :: l) h7
        simp only [List.map_cons] at this
        simp only [List.map_cons, json.decodeSlice, Option.getD_none, List.append_nil, this,
          List.drop_nil]
  rcases c with ⟨cid, cty, cst, cti, ⟨⟨cva, cre⟩⟩, ⟨cnu⟩, can⟩
  simp only at h1 h2 h3 h4 h5 h6 h8 h9 hanc
  simp only [Content.document, json.decodeStruct, json.decodeMembers, ContentCell.setField,
    ContentBody.setField, ContentStorage.setField, ContentVersion.setField,
    k1, k2, k3, k4, k5, k6, k7, k8, k9, k10, k11, k12, k13, k14, k15, k16, k17, k18, k19,
    k20, k21, k22, k23, k24, k25, k26, k27, k28, k29, k30, k31, k32, k33,
    if_true, if_false, Bool.false_eq_true, json.decodeString, json.decodeInt, Except.map,
    coerceUTF8_valid _ h1, coerceUTF8_valid _ h2, coerceUTF8_valid _ h3, coerceUTF8_valid _ h4,
    coerceUTF8_valid _ h5, coerceUTF8_valid _ h6, ParseInt_AppendInt _ h8 h9, hanc]

/-! ### content.go: JSON round trip and replies -/

set_option maxRecDepth 100000 in
/-- C9 as stated fails: a `Content` with a non-empty title, body and ancestor
list whose title is not valid UTF-8 does not survive the round trip; the
encoder replaces the offending byte by U+FFFD, in either way of writing it. -/
theorem C9_roundtrip_fails_on_invalid_utf8 :
    exampleLatin1Page.Title ≠ [] ∧ exampleLatin1Page.Body.Storage.Value ≠ [] ∧
      exampleLatin1Page.Ancestors ≠ none ∧ exampleLatin1Page.Ancestors ≠ some [] ∧
      Content.Unmarshal (exampleLatin1Page.Marshal false) =
        .ok { exampleLatin1Page with Title := [0x63, 0x61, 0x66, 0xEF, 0xBF, 0xBD] } ∧
      Content.Unmarshal (exampleLatin1Page.Marshal false) ≠ .ok exampleLatin1Page ∧
      Content.Unmarshal (exampleLatin1Page.Marshal true) =
        .ok { exampleLatin1Page with Title := [0x63, 0x61, 0x66, 0xEF, 0xBF, 0xBD] } ∧
      Content.Unmarshal (exampleLatin1Page.Marshal true) ≠ .ok exampleLatin1Page := by
  refine ⟨by decide, by decide, by decide, by decide, by decide!, by decide!, by decide!,
    by decide!⟩

/-- C9, amended: for every `Content` whose strings are valid UTF-8 (and whose
version number is a 64-bit `int`), serializing it under the field names of
its tags and deserializing the bytes into a fresh `Content` yields a value
equal to the original, field for field. -/
theorem C9_roundtrip_of_valid_utf8 (raw : Bool) (c : Content) (h : c.WellFormed) :
    Content.Unmarshal (c.Marshal raw) = .ok c := by
  unfold Content.Unmarshal json.UnmarshalWith
  rw [Content.parse_Marshal]
  simp only [Content.decode_document c h, Except.map]

set_option maxRecDepth 100000 in
/-- C9 at a concrete page. -/
theorem C9_roundtrip_of_valid_utf8_witness :
    examplePage.WellFormed ∧ Content.Unmarshal (examplePage.Marshal false) = .ok examplePage :=
  ⟨by unfold Content.WellFormed; decide!,
    C9_roundtrip_of_valid_utf8 false examplePage (by unfold Content.WellFormed; decide!)⟩

theorem Except.map_eq_ok {α β : Type} {f : α → β} {x : Except Error α} {y : β}
    (h : Except.map f x = .ok y) : ∃ a, x = .ok a ∧ y = f a := by
  cases x with
  | error e => cases h
  | ok a =>
    simp only [Except.map, Except.ok.injEq] at h
    exact ⟨a, rfl, h.symm⟩

theorem ContentCell.setField_unknown (c : ContentCell) (key : Bytes) (v : json.JSON)
    (h : Content.hasField key = false) : ContentCell.setField c key v = .ok c := by
  simp only [Content.hasField, Bool.or_eq_false_iff] at h
  obtain ⟨⟨⟨⟨⟨⟨h1, h2⟩, h3⟩, h4⟩, h5⟩, h6⟩, h7⟩ := h
  simp only [ContentCell.setField, h1, h2, h3, h4, h5, h6, h7, if_false, Bool.false_eq_true]

theorem ContentCell.decodeMembers_unknown (ms : List (Bytes × json.JSON)) (c : ContentCell)
    (h : ∀ m ∈ ms, Content.hasField m.1 = false) :
    json.decodeMembers ContentCell.setField ms c = .ok c := by
  induction ms with
  | nil => rfl
  | cons m ms ih =>
    have hm := h m (List.mem_cons_self _ _)
    simp only [json.decodeMembers, ContentCell.setField_unknown c m.1 m.2 hm]
    exact ih (fun k hk => h k (List.mem_cons_of_mem _ hk))

/-- Members whose keys select no field of `Content` do not change what an
object decodes to. -/
theorem ContentCell.decodeMembers_filter (ms : List (Bytes × json.JSON)) (c : ContentCell) :
    json.decodeMembers ContentCell.setField ms c =
      json.decodeMembers ContentCell.setField (ms.filter (fun m => Content.hasField m.1)) c := by
  induction ms generalizing c with
  | nil => rfl
  | cons m ms ih =>
    by_cases hm : Content.hasField m.1 = true
    · simp only [List.filter_cons, hm, if_true, json.decodeMembers]
      cases ContentCell.setField c m.1 m.2 with
      | error e => rfl
      | ok next => exact ih next
    · have hm' : Content.hasField m.1 = false := by simpa using hm
      simp only [List.filter_cons, hm', json.decodeMembers,
        ContentCell.setField_unknown c m.1 m.2 hm', Bool.false_eq_true, if_false]
      exact ih c

/-- A member changes no field but the one its key selects. -/
theorem ContentCell.setField_keeps (c c' : ContentCell) (key : Bytes) (v : json.JSON)
    (h : ContentCell.setField c key v = .ok c') :
    (json.keyMatches key (str "id") = false → c'.val.Id = c.val.Id) ∧
    (json.keyMatches key (str "type") = false → c'.val.Type_ = c.val.Type_) ∧
    (json.keyMatches key (str "status") = false → c'.val.Status = c.val.Status) ∧
    (json.keyMatches key (str "title") = false → c'.val.Title = c.val.Title) ∧
    (json.keyMatches key (str "body") = false → c'.val.Body = c.val.Body) ∧
    (json.keyMatches key (str "version") = false → c'.val.Version = c.val.Version) ∧
    (json.keyMatches key (str "ancestors") = false → c'.val.Ancestors = c.val.Ancestors) := by
  unfold ContentCell.setField at h
  split_ifs at h with h1 h2 h3 h4 h5 h6 h7
  · obtain ⟨x, _, rfl⟩ := Except.map_eq_ok h
    refine ⟨fun hk => ?_, fun _ => rfl, fun _ => rfl, fun _ => rfl, fun _ => rfl, fun _ => rfl,
      fun _ => rfl⟩
    rw [h1] at hk; cases hk
  · obtain ⟨x, _, rfl⟩ := Except.map_eq_ok h
    refine ⟨fun _ => rfl, fun hk => ?_, fun _ => rfl, fun _ => rfl, fun _ => rfl, fun _ => rfl,
      fun _ => rfl⟩
    rw [h2] at hk; cases hk
  · obtain ⟨x, _, rfl⟩ := Except.map_eq_ok h
    refine ⟨fun _ => rfl, fun _ => rfl, fun hk => ?_, fun _ => rfl, fun _ => rfl, fun _ => rfl,
      fun _ => rfl⟩
    rw [h3] at hk; cases hk
  · obtain ⟨x, _, rfl⟩ := Except.map_eq_ok h
    refine ⟨fun _ => rfl, fun _ => rfl, fun _ => rfl, fun hk => ?_, fun _ => rfl, fun _ => rfl,
      fun _ => rfl⟩
    rw [h4] at hk; cases hk
  · obtain ⟨x, _, rfl⟩ := Except.map_eq_ok h
    refine ⟨fun _ => rfl, fun _ => rfl, fun _ => rfl, fun _ => rfl, fun hk => ?_, fun _ => rfl,
      fun _ => rfl⟩
    rw [h5] at hk; cases hk
  · obtain ⟨x, _, rfl⟩ := Except.map_eq_ok h
    refine ⟨fun _ => rfl, fun _ => rfl, fun _ => rfl, fun _ => rfl, fun _ => rfl, fun hk => ?_,
      fun _ => rfl⟩
    rw [h6] at hk; cases hk
  · obtain ⟨x, _, rfl⟩ := Except.map_eq_ok h
    refine ⟨fun _ => rfl, fun _ => rfl, fun _ => rfl, fun _ => rfl, fun _ => rfl, fun _ => rfl,
      fun hk => ?_⟩
    rw [h7] at hk; cases hk
  · cases h
    exact ⟨fun _ => rfl, fun _ => rfl, fun _ => rfl, fun _ => rfl, fun _ => rfl, fun _ => rfl,
      fun _ => rfl⟩

/-- What no member of an object touches is the same after the object is
decoded. -/
theorem decodeMembers_keeps {α β : Type} (setField : α → Bytes → json.JSON → Except Error α)
    (proj : α → β) (P : Bytes → Prop)
    (hstep : ∀ c c' k v, setField c k v = .ok c' → P k → proj c' = proj c) :
    ∀ (ms : List (Bytes × json.JSON)) (c c' : α), json.decodeMembers setField ms c = .ok c' →
      (∀ m ∈ ms, P m.1) → proj c' = proj c := by
  intro ms
  induction ms with
  | nil =>
    intro c c' h _
    simp only [json.decodeMembers, Except.ok.injEq] at h
    rw [h]
  | cons m ms ih =>
    intro c c' h hP
    simp only [json.decodeMembers] at h
    cases hs : setField c m.1 m.2 with
    | error e => rw [hs] at h; cases h
    | ok next =>
      rw [hs] at h
      rw [ih next c' h (fun k hk => hP k (List.mem_cons_of_mem _ hk))]
      exact hstep c next m.1 m.2 hs (hP m (List.mem_cons_self _ _))

theorem parse_of_isObject (data : Bytes) (h : json.isObject data = true) :
    json.parse data = some (.object (json.membersOf data)) := by
  unfold json.isObject at h
  unfold json.membersOf
  cases hp : json.parse data with
  | none => rw [hp] at h; cases h
  | some v =>
    rw [hp] at h
    cases v <;> first | rfl | cases h

/-- What `json.Unmarshal` gives for a reply that is a JSON object. -/
theorem Content.Unmarshal_object (reply : Bytes) (hobj : json.isObject reply = true) :
    Content.Unmarshal reply =
      (json.decodeMembers ContentCell.setField (json.membersOf reply) {}).map
        (fun c => c.val) := by
  unfold Content.Unmarshal json.UnmarshalWith
  rw [parse_of_isObject reply hobj]
  rfl

theorem decodeReply_ok {β : Type} (k : Bytes → Except Error β) (res : Bytes) (r : β)
    (h : k res = .ok r) : decodeReply k (.ok res) = .ok r := by
  simp [decodeReply, h]

theorem GetContent_eq (go : GoRelease) (w : Wiki) (contentID : Bytes) (expand : List Bytes)
    (sent : List http.Request) (u : url.URL) (req : http.Request)
    (hu : w.existingContentEndpoint go contentID = .ok u)
    (hreq : http.NewRequest go (str "GET")
      (url.URL.String { u with
        RawQuery := (url.Values.Encode
          (url.Values.Set [] (str "expand") (strings.Join expand (str ",")))) }) none = .ok req) :
    w.GetContent go contentID expand sent =
      (decodeReply Content.Unmarshal (w.transport sent req), sent ++ [req]) := by
  unfold Wiki.GetContent
  simp only [Run.bind_eq, Run.pure_eq, hu, Run.ofExcept_ok_bind, hreq]
  exact sendRequest_decode w req sent Content.Unmarshal

set_option maxRecDepth 100000 in
/-- C10 as stated fails: the reply `{}` lacks every field, and `GetContent`,
`CreateContent` and `UpdateContent` return the zero-valued `Content` with no
error. -/
theorem C10_empty_object_is_not_an_error :
    ((exampleWiki (constTransport (str "\x7b\x7d"))).GetContent GoRelease.go122
      (str "123") [] []).1 = .ok {} ∧
    ((exampleWiki (constTransport (str "\x7b\x7d"))).CreateContent GoRelease.go122
      examplePage []).1 = .ok {} ∧
    ((exampleWiki (constTransport (str "\x7b\x7d"))).UpdateContent GoRelease.go122
      examplePage []).1 = .ok {} := by
  refine ⟨by decide!, by decide!, by decide!⟩

/-- C10, amended: deserialization ignores unknown members and leaves missing
fields at their zero value; no field is required.  For a reply that is a JSON
object: what it deserializes to is what those of its members whose keys
select a field of `Content` decode to, the other members having no effect;
when no key selects a field (the object `{}`, or unknown members only) it is
the zero `Content` with no error; a field that no key selects is left at its
zero value; and `GetContent`, `UpdateContent` and `CreateContent` return what
the reply deserializes to. -/
theorem C10_missing_fields_stay_zero_unknown_ignored (go : GoRelease) (w : Wiki)
    (sent : List http.Request) (reply : Bytes) (hobj : json.isObject reply = true) :
    Content.Unmarshal reply =
      (json.decodeMembers ContentCell.setField
        ((json.membersOf reply).filter (fun m => Content.hasField m.1)) {}).map
        (fun c => c.val) ∧
    ((∀ m ∈ json.membersOf reply, Content.hasField m.1 = false) →
      Content.Unmarshal reply = .ok {}) ∧
    (∀ c, Content.Unmarshal reply = .ok c →
      ((∀ m ∈ json.membersOf reply, json.keyMatches m.1 (str "id") = false) → c.Id = []) ∧
      ((∀ m ∈ json.membersOf reply, json.keyMatches m.1 (str "type") = false) →
        c.Type_ = []) ∧
      ((∀ m ∈ json.membersOf reply, json.keyMatches m.1 (str "status") = false) →
        c.Status = []) ∧
      ((∀ m ∈ json.membersOf reply, json.keyMatches m.1 (str "title") = false) →
        c.Title = []) ∧
      ((∀ m ∈ json.membersOf reply, json.keyMatches m.1 (str "body") = false) →
        c.Body = {}) ∧
      ((∀ m ∈ json.membersOf reply, json.keyMatches m.1 (str "version") = false) →
        c.Version = {}) ∧
      ((∀ m ∈ json.membersOf reply, json.keyMatches m.1 (str "ancestors") = false) →
        c.Ancestors = none)) ∧
    (∀ contentID expand u req,
      url.ParseRequestURI go (w.endPoint.String ++ str "/content/" ++ contentID) = .ok u →
      http.NewRequest go (str "GET")
        (url.URL.String { u with
          RawQuery := (url.Values.Encode
            (url.Values.Set [] (str "expand") (strings.Join expand (str ",")))) }) none =
        .ok req →
      w.transport sent req = .ok reply →
      w.GetContent go contentID expand sent =
        (decodeReply Content.Unmarshal (.ok reply), sent ++ [req])) ∧
    (∀ c u req0,
      url.ParseRequestURI go (w.endPoint.String ++ str "/content/" ++ c.Id) = .ok u →
      http.NewRequest go (str "PUT") u.String (some (c.Marshal go.rawReplacement)) = .ok req0 →
      ∃ req, req.Body = some (c.Marshal go.rawReplacement) ∧
        (w.transport sent req = .ok reply →
          w.UpdateContent go c sent =
            (decodeReply Content.Unmarshal (.ok reply), sent ++ [req]))) ∧
    (∀ c u req0, url.ParseRequestURI go (w.endPoint.String ++ str "/content") = .ok u →
      http.NewRequest go (str "POST") u.String (some (c.Marshal go.rawReplacement)) = .ok req0 →
      ∃ req, req.Body = some (c.Marshal go.rawReplacement) ∧
        (w.transport sent req = .ok reply →
          w.CreateContent go c sent =
            (decodeReply Content.Unmarshal (.ok reply), sent ++ [req]))) := by
  have hun := Content.Unmarshal_object reply hobj
  generalize json.membersOf reply = ms at hun ⊢
  refine ⟨?_, ?_, ?_, ?_, ?_, ?_⟩
  · rw [hun, ContentCell.decodeMembers_filter]
  · intro hunk
    rw [hun, ContentCell.decodeMembers_unknown ms {} hunk]
    rfl
  · intro c hc
    rw [hun] at hc
    obtain ⟨cell, hcell, rfl⟩ := Except.map_eq_ok hc
    refine ⟨fun h => ?_, fun h => ?_, fun h => ?_, fun h => ?_, fun h => ?_, fun h => ?_,
      fun h => ?_⟩
    · exact decodeMembers_keeps ContentCell.setField (fun x => x.val.Id)
        (fun k => json.keyMatches k (str "id") = false)
        (fun a b k v hs hk => (ContentCell.setField_keeps a b k v hs).1 hk) ms {} cell hcell h
    · exact decodeMembers_keeps ContentCell.setField (fun x => x.val.Type_)
        (fun k => json.keyMatches k (str "type") = false)
        (fun a b k v hs hk => (ContentCell.setField_keeps a b k v hs).2.1 hk) ms {} cell hcell h
    · exact decodeMembers_keeps ContentCell.setField (fun x => x.val.Status)
        (fun k => json.keyMatches k (str "status") = false)
        (fun a b k v hs hk => (ContentCell.setField_keeps a b k v hs).2.2.1 hk) ms {} cell hcell h
    · exact decodeMembers_keeps ContentCell.setField (fun x => x.val.Title)
        (fun k => json.keyMatches k (str "title") = false)
        (fun a b k v hs hk => (ContentCell.setField_keeps a b k v hs).2.2.2.1 hk) ms {} cell
        hcell h
    · exact decodeMembers_keeps ContentCell.setField (fun x => x.val.Body)
        (fun k => json.keyMatches k (str "body") = false)
        (fun a b k v hs hk => (ContentCell.setField_keeps a b k v hs).2.2.2.2.1 hk) ms {} cell
        hcell h
    · exact decodeMembers_keeps ContentCell.setField (fun x => x.val.Version)
        (fun k => json.keyMatches k (str "version") = false)
        (fun a b k v hs hk => (ContentCell.setField_keeps a b k v hs).2.2.2.2.2.1 hk) ms {} cell
        hcell h
    · exact decodeMembers_keeps ContentCell.setField (fun x => x.val.Ancestors)
        (fun k => json.keyMatches k (str "ancestors") = false)
        (fun a b k v hs hk => (ContentCell.setField_keeps a b k v hs).2.2.2.2.2.2 hk) ms {} cell
        hcell h
  · intro contentID expand u req hu hreq ht
    rw [GetContent_eq go w contentID expand sent u req hu hreq, ht]
  · intro c u req0 hu hreq
    have hu' : w.existingContentEndpoint go c.Id = .ok u := hu
    unfold Wiki.UpdateContent
    rw [Run.bind_eq, hu', Run.ofExcept_ok_bind]
    obtain ⟨req, he, _, _, _, hb⟩ :=
      internalCreateOrUpdateContent_eq go w c u _ sent req0 (by decide) hreq
    refine ⟨req, hb, fun ht => ?_⟩
    rw [he, ht]
  · intro c u req0 hu hreq
    have hu' : w.newContentEndpoint go = .ok u := hu
    unfold Wiki.CreateContent
    rw [Run.bind_eq, hu', Run.ofExcept_ok_bind]
    obtain ⟨req, he, _, _, _, hb⟩ :=
      internalCreateOrUpdateContent_eq go w c u _ sent req0 (by decide) hreq
    refine ⟨req, hb, fun ht => ?_⟩
    rw [he, ht]

set_option maxRecDepth 100000 in
/-- C10 at a concrete reply: an object with the members id and title and with
three members that no field is tagged with.  It deserializes to the `Content`
with that id and title and every other field zero, and `GetContent` returns
it. -/
theorem C10_missing_fields_stay_zero_unknown_ignored_witness :
    Content.Unmarshal exampleMixedReply = .ok { Id := str "5", Title := str "T" } ∧
      Content.Unmarshal exampleUnknownReply = .ok {} ∧
      (exampleWiki (constTransport exampleMixedReply)).GetContent GoRelease.go122 (str "123")
          [str "body.storage", str "version"] [] =
        (.ok { Id := str "5", Title := str "T" },
          [] ++ [exampleGet (str "/rest/api/content/123")
            (str "expand=body.storage%2Cversion")]) :=
  have h := C10_missing_fields_stay_zero_unknown_ignored GoRelease.go122
    (exampleWiki (constTransport exampleMixedReply)) [] exampleMixedReply (by decide!)
  ⟨h.1.trans (by decide!),
    (C10_missing_fields_stay_zero_unknown_ignored GoRelease.go122
      (exampleWiki (constTransport exampleUnknownReply)) [] exampleUnknownReply
      (by decide!)).2.1 (by decide!),
    (h.2.2.2.1 (str "123") [str "body.storage", str "version"]
      { Scheme := str "https", Host := str "wiki.example.com",
        Path := str "/rest/api/content/123" }
      (exampleGet (str "/rest/api/content/123") (str "expand=body.storage%2Cversion"))
      (by decide!) (by decide!) rfl).trans (by decide!)⟩

set_option maxRecDepth 100000 in
/-- C6 as stated fails: for a `Content` with an empty `Id` the body of the
request that `CreateContent` sends is an object whose first member is `id`. -/
theorem C6_body_has_id_member :
    ((exampleWiki (constTransport [])).CreateContent GoRelease.go122 {} []).2.map
        (fun req => req.Body.bind (fun b => (json.parse b).bind json.JSON.objectKeys)) =
      [some [str "id", str "type", str "status", str "title", str "body", str "version",
        str "ancestors"]] ∧
    ((exampleWiki (constTransport [])).CreateContent GoRelease.go122 {} []).2.map
        (fun req => req.Body) =
      [some (str "\x7b\"id\":\"\",\"type\":\"\",\"status\":\"\",\"title\":\"\",\"body\":\x7b\"storage\":\x7b\"value\":\"\",\"representation\":\"\"\x7d\x7d,\"version\":\x7b\"number\":0\x7d,\"ancestors\":null\x7d")] := by
  refine ⟨by decide!, by decide!⟩

/-- C6, amended: the body of the request that `CreateContent` sends is the
JSON serialization of `c` with its id: an object with the members id, type,
status, title, body, version and ancestors, in this order.  Its id member is
always there, also when `c.Id` is empty, and is the string `c.Id` in which
each byte that is not valid UTF-8 is replaced by U+FFFD: `c.Id` itself when
`c.Id` is valid UTF-8.  When all strings of `c` are valid UTF-8 the body
deserializes to `c`. -/
theorem C6_body_serializes_all_fields_with_id (go : GoRelease) (w : Wiki) (c : Content)
    (sent : List http.Request) (u : url.URL) (req0 : http.Request)
    (hu : url.ParseRequestURI go (w.endPoint.String ++ str "/content") = .ok u)
    (hreq : http.NewRequest go (str "POST") u.String (some (c.Marshal go.rawReplacement)) =
      .ok req0) :
    ∃ req, (w.CreateContent go c sent).2 = sent ++ [req] ∧
      req.Body = some (c.Marshal go.rawReplacement) ∧
      json.parse (c.Marshal go.rawReplacement) = some c.document ∧
      c.document.objectKeys =
        some [str "id", str "type", str "status", str "title", str "body", str "version",
          str "ancestors"] ∧
      (∃ ms, c.document = .object ((str "id", .string (json.coerceUTF8 c.Id)) :: ms)) ∧
      (utf8.ValidString c.Id = true → json.coerceUTF8 c.Id = c.Id) ∧
      (c.WellFormed → Content.Unmarshal (c.Marshal go.rawReplacement) = .ok c) := by
  obtain ⟨req, he, _, _, _, hb⟩ :=
    internalCreateOrUpdateContent_eq go w c u (str "POST") sent req0 (by decide) hreq
  have hu' : w.newContentEndpoint go = .ok u := hu
  refine ⟨req, ?_, hb, Content.parse_Marshal _ c, rfl, ⟨_, rfl⟩, coerceUTF8_valid c.Id, ?_⟩
  · unfold Wiki.CreateContent
    rw [Run.bind_eq, hu', Run.ofExcept_ok_bind, he]
  · intro hwf
    unfold Content.Unmarshal json.UnmarshalWith
    rw [Content.parse_Marshal]
    simp only [Content.decode_document c hwf, Except.map]

set_option maxRecDepth 100000 in
/-- C6 at a concrete page, through the amended statement. -/
theorem C6_body_serializes_all_fields_with_id_witness :
    ∃ req, ((exampleWiki (constTransport [])).CreateContent GoRelease.go122 examplePage []).2 =
        [] ++ [req] ∧
      req.Body = some (examplePage.Marshal false) ∧
      json.parse (examplePage.Marshal false) = some examplePage.document ∧
      examplePage.document.objectKeys =
        some [str "id", str "type", str "status", str "title", str "body", str "version",
          str "ancestors"] ∧
      (∃ ms, examplePage.document =
        .object ((str "id", .string (json.coerceUTF8 examplePage.Id)) :: ms)) ∧
      (utf8.ValidString examplePage.Id = true → json.coerceUTF8 examplePage.Id = examplePage.Id) ∧
      (examplePage.WellFormed → Content.Unmarshal (examplePage.Marshal false) = .ok examplePage) :=
  C6_body_serializes_all_fields_with_id GoRelease.go122 (exampleWiki (constTransport []))
    examplePage []
    { Scheme := str "https", Host := str "wiki.example.com", Path := str "/rest/api/content" }
    { Method := str "POST",
      URL := { Scheme := str "https", Host := str "wiki.example.com",
               Path := str "/rest/api/content" },
      Header := [], Body := some (examplePage.Marshal false), Host := str "wiki.example.com" }
    (by decide!) (by decide!)

/-! ### net/url: escaping -/

set_option maxRecDepth 100000 in
theorem escapeByte_query_all :
    ∀ c : Byte, (url.escapeByte c url.encoding.encodeQueryComponent).all
      (fun x => decide (x.val ∉ [0x26, 0x3B, 0x3D, 0x23, 0x3F])) = true := by
  decide!

set_option maxRecDepth 100000 in
theorem escapeByte_other_all :
    ∀ c : Byte,
      ((url.escapeByte c url.encoding.encodePath).all (fun x => decide (x.val ∉ [0x23, 0x3F])) &&
        (url.escapeByte c url.encoding.encodeHost).all (fun x => decide (x.val ∉ [0x23, 0x3F])) &&
        (url.escapeByte c url.encoding.encodeUserPassword).all
          (fun x => decide (x.val ∉ [0x23, 0x3F]))) = true := by
  decide!

set_option maxRecDepth 100000 in
theorem validEncoded_byte :
    ∀ c : Byte,
      (decide (c.val ∈ [0x21, 0x24, 0x26, 0x27, 0x28, 0x29, 0x2A, 0x2B, 0x2C, 0x3B, 0x3D, 0x3A,
        0x40, 0x5B, 0x5D, 0x25]) || !url.shouldEscape c url.encoding.encodePath) = true →
      c.val ≠ 0x23 ∧ c.val ≠ 0x3F := by
  decide!

set_option maxRecDepth 100000 in
theorem shouldEscape_query_false :
    ∀ c : Byte, url.shouldEscape c url.encoding.encodeQueryComponent = false →
      c.val ≠ 0x25 ∧ c.val ≠ 0x2B := by
  decide!

set_option maxRecDepth 100000 in
theorem upperhex_ishex :
    ∀ c : Byte, url.ishex (url.upperhex (c.val / 16)) = true ∧
      url.ishex (url.upperhex (c.val % 16)) = true := by
  decide!

set_option maxRecDepth 100000 in
theorem unhex_upperhex :
    ∀ c : Byte, byte (url.unhex (url.upperhex (c.val / 16)) * 16 +
      url.unhex (url.upperhex (c.val % 16))) = c := by
  decide!

theorem unescape_escapeByte (c : Byte) (rest r : Bytes)
    (h : url.unescape rest url.encoding.encodeQueryComponent = .ok r) :
    url.unescape (url.escapeByte c url.encoding.encodeQueryComponent ++ rest)
      url.encoding.encodeQueryComponent = .ok (c :: r) := by
  unfold url.escapeByte
  by_cases hs : url.shouldEscape c url.encoding.encodeQueryComponent = true
  · rw [if_pos hs]
    by_cases hsp : c.val = 0x20
    · rw [if_pos ⟨hsp, rfl⟩]
      have hc : c = 0x20 := Fin.ext hsp
      subst hc
      simp only [List.cons_append, List.nil_append]
      rw [url.unescape.eq_def]
      simp [h, Fin.coe_ofNat_eq_mod]
    · rw [if_neg (fun hh => hsp hh.1)]
      have h1 := upperhex_ishex c
      have h2 := unhex_upperhex c
      simp only [List.cons_append, List.nil_append]
      rw [url.unescape.eq_def]
      simp [h, Fin.coe_ofNat_eq_mod, h1.1, h1.2, h2]
  · have hs' : url.shouldEscape c url.encoding.encodeQueryComponent = false := by simpa using hs
    have h1 := shouldEscape_query_false c hs'
    simp only [hs', Bool.false_eq_true, if_false, List.cons_append, List.nil_append]
    rw [url.unescape.eq_def]
    simp [h, h1.1, h1.2]

/-- `QueryUnescape` undoes `QueryEscape`. -/
theorem QueryUnescape_QueryEscape (s : Bytes) :
    url.QueryUnescape (url.QueryEscape s) = .ok s := by
  unfold url.QueryUnescape url.QueryEscape url.escape
  induction s with
  | nil => rfl
  | cons c s ih =>
    rw [List.flatMap_cons]
    exact unescape_escapeByte c _ s ih

theorem escape_query_clean (s : Bytes) :
    ∀ x ∈ url.QueryEscape s, x.val ∉ [0x26, 0x3B, 0x3D, 0x23, 0x3F] := by
  intro x hx
  unfold url.QueryEscape url.escape at hx
  rw [List.mem_flatMap] at hx
  obtain ⟨c, _, hxc⟩ := hx
  have := escapeByte_query_all c
  rw [List.all_eq_true] at this
  simpa using this x hxc

theorem escape_no_hash_question (s : Bytes) (mode : url.encoding)
    (hm : mode = url.encoding.encodePath ∨ mode = url.encoding.encodeHost ∨
      mode = url.encoding.encodeUserPassword) :
    ∀ x ∈ url.escape s mode, x.val ∉ [0x23, 0x3F] := by
  intro x hx
  unfold url.escape at hx
  rw [List.mem_flatMap] at hx
  obtain ⟨c, _, hxc⟩ := hx
  have := escapeByte_other_all c
  simp only [Bool.and_eq_true, List.all_eq_true] at this
  rcases hm with rfl | rfl | rfl
  · simpa using this.1.1 x hxc
  · simpa using this.1.2 x hxc
  · simpa using this.2 x hxc

/-! ### strings and queries -/

theorem Cut_append (a b : Bytes) (sep : Byte) (h : ∀ x ∈ a, x ≠ sep) :
    strings.Cut (a ++ sep :: b) sep = (a, b, true) := by
  induction a with
  | nil => simp [strings.Cut]
  | cons c a ih =>
    have hc : c ≠ sep := h c (List.mem_cons_self _ _)
    simp only [List.cons_append, strings.Cut, hc, if_false, List.append_eq]
    rw [ih (fun x hx => h x (List.mem_cons_of_mem _ hx))]

theorem Cut_none (a : Bytes) (sep : Byte) (h : ∀ x ∈ a, x ≠ sep) :
    strings.Cut a sep = (a, [], false) := by
  induction a with
  | nil => rfl
  | cons c a ih =>
    have hc : c ≠ sep := h c (List.mem_cons_self _ _)
    simp only [strings.Cut, hc, if_false]
    rw [ih (fun x hx => h x (List.mem_cons_of_mem _ hx))]

theorem Cut_prepend (p s : Bytes) (sep : Byte) (h : ∀ x ∈ p, x ≠ sep) :
    strings.Cut (p ++ s) sep =
      (p ++ (strings.Cut s sep).1, (strings.Cut s sep).2.1, (strings.Cut s sep).2.2) := by
  induction p with
  | nil => rfl
  | cons c p ih =>
    have hc : c ≠ sep := h c (List.mem_cons_self _ _)
    simp only [List.cons_append, strings.Cut, hc, if_false, List.append_eq]
    rw [ih (fun x hx => h x (List.mem_cons_of_mem _ hx))]

theorem Cut_spec (s : Bytes) (sep : Byte) :
    (∀ x ∈ (strings.Cut s sep).1, x ≠ sep) ∧
      ((strings.Cut s sep).2.2 = true → s = (strings.Cut s sep).1 ++ sep :: (strings.Cut s sep).2.1) ∧
      ((strings.Cut s sep).2.2 = false → s = (strings.Cut s sep).1 ∧ (strings.Cut s sep).2.1 = []) := by
  induction s with
  | nil => simp [strings.Cut]
  | cons c s ih =>
    by_cases hc : c = sep
    · subst hc
      simp [strings.Cut]
    · obtain ⟨h1, h2, h3⟩ := ih
      simp only [strings.Cut, hc, if_false]
      refine ⟨?_, ?_, ?_⟩
      · intro x hx
        rcases List.mem_cons.mp hx with rfl | hx
        · exact hc
        · exact h1 x hx
      · intro hf
        rw [List.cons_append, ← h2 hf]
      · intro hf
        obtain ⟨e1, e2⟩ := h3 hf
        exact ⟨by rw [← e1], e2⟩

theorem Contains_false (s : Bytes) (sep : Byte) (h : ∀ x ∈ s, x ≠ sep) :
    strings.Contains s sep = false := by
  unfold strings.Contains
  rw [List.any_eq_false]
  intro x hx
  simpa using h x hx

theorem splitOn_no_sep (s : Bytes) (sep : Byte) (h : ∀ x ∈ s, x ≠ sep) :
    url.splitOn s sep = [s] := by
  induction s with
  | nil => rfl
  | cons c s ih =>
    have hc : c ≠ sep := h c (List.mem_cons_self _ _)
    simp only [url.splitOn, hc, if_false]
    rw [ih (fun x hx => h x (List.mem_cons_of_mem _ hx))]

theorem Encode_Set (k v : Bytes) :
    url.Values.Encode (url.Values.Set [] k v) = url.QueryEscape k ++ [0x3D] ++ url.QueryEscape v := by
  simp [url.Values.Encode, url.Values.Set, strings.Join]

set_option maxRecDepth 100000 in
theorem expand_facts :
    url.QueryEscape (str "expand") = str "expand" ∧
      url.QueryUnescape (str "expand") = .ok (str "expand") ∧
      (str "expand").all (fun x => decide (x.val ∉ [0x26, 0x3B, 0x3D, 0x23, 0x3F])) = true ∧
      str "expand" ≠ [] := by
  decide!

/-- The query that `GetContent` and `GetContentChildPages` encode: `expand=`
followed by the escaped value. -/
theorem expand_query (v : Bytes) :
    url.Values.Encode (url.Values.Set [] (str "expand") v) =
      str "expand" ++ 0x3D :: url.QueryEscape v := by
  rw [Encode_Set, expand_facts.1]
  simp

theorem expand_query_clean (v : Bytes) :
    ∀ x ∈ str "expand" ++ 0x3D :: url.QueryEscape v, x.val ∉ [0x26, 0x3B, 0x23, 0x3F] := by
  intro x hx
  have h1 := expand_facts.2.2.1
  rw [List.all_eq_true] at h1
  rcases List.mem_append.mp hx with h | h
  · have := h1 x h
    simp only [decide_eq_true_eq] at this
    intro hc
    apply this
    simp only [List.mem_cons, List.mem_singleton, List.not_mem_nil, or_false] at hc ⊢
    omega
  · rcases List.mem_cons.mp h with rfl | h
    · decide
    · have := escape_query_clean v x h
      intro hc
      apply this
      simp only [List.mem_cons, List.mem_singleton, List.not_mem_nil, or_false] at hc ⊢
      omega

/-- Decoding the query `expand=` + escaped value gives the one parameter
`expand` with the value. -/
theorem ParseQuery_expand (v : Bytes) :
    url.ParseQuery (str "expand" ++ 0x3D :: url.QueryEscape v) =
      ([(str "expand", [v])], none) := by
  have hclean := expand_query_clean v
  have hamp : ∀ x ∈ str "expand" ++ 0x3D :: url.QueryEscape v, x ≠ 0x26 := by
    intro x hx hc
    apply hclean x hx
    subst hc
    decide
  have hsemi : ∀ x ∈ str "expand" ++ 0x3D :: url.QueryEscape v, x ≠ 0x3B := by
    intro x hx hc
    apply hclean x hx
    subst hc
    decide
  have heq : ∀ x ∈ str "expand", x ≠ 0x3D := by
    have h1 := expand_facts.2.2.1
    rw [List.all_eq_true] at h1
    intro x hx hc
    have := h1 x hx
    subst hc
    revert this
    decide
  unfold url.ParseQuery
  rw [splitOn_no_sep _ _ hamp]
  have hne : str "expand" ++ 0x3D :: url.QueryEscape v ≠ [] := by simp
  simp only [url.parseQueryLoop, Contains_false _ _ hsemi, Bool.false_eq_true, if_false, hne,
    Cut_append _ _ _ heq, expand_facts.2.1, QueryUnescape_QueryEscape, url.Values.Add]

/-! ### net/url: parsing -/

theorem getSchemeLoop_spec (raw : Bytes) :
    ∀ (cs pre : Bytes) (scheme rest : Bytes), raw = pre ++ cs →
      (∀ x ∈ pre, url.isSchemeByte x) →
      url.getSchemeLoop raw pre.length cs = .ok (scheme, rest) →
      (scheme = [] ∧ rest = raw) ∨
        (raw = scheme ++ 0x3A :: rest ∧ ∀ x ∈ scheme, url.isSchemeByte x) := by
  intro cs
  induction cs with
  | nil =>
    intro pre scheme rest _ _ h
    simp only [url.getSchemeLoop, Except.ok.injEq, Prod.mk.injEq] at h
    exact Or.inl ⟨h.1.symm, h.2.symm⟩
  | cons c cs ih =>
    intro pre scheme rest hraw hpre h
    have hnext : raw = (pre ++ [c]) ++ cs := by rw [hraw]; simp
    have hlen : (pre ++ [c]).length = pre.length + 1 := by simp
    rw [url.getSchemeLoop] at h
    by_cases c1 : (0x61 ≤ c.val ∧ c.val ≤ 0x7A) ∨ (0x41 ≤ c.val ∧ c.val ≤ 0x5A)
    · rw [if_pos c1, ← hlen] at h
      refine ih (pre ++ [c]) scheme rest hnext ?_ h
      intro x hx
      rcases List.mem_append.mp hx with hx | hx
      · exact hpre x hx
      · simp only [List.mem_singleton] at hx
        subst hx
        unfold url.isSchemeByte
        omega
    · rw [if_neg c1] at h
      by_cases c2 : (0x30 ≤ c.val ∧ c.val ≤ 0x39) ∨ c.val = 0x2B ∨ c.val = 0x2D ∨ c.val = 0x2E
      · rw [if_pos c2] at h
        by_cases c3 : pre.length = 0
        · rw [if_pos c3] at h
          simp only [Except.ok.injEq, Prod.mk.injEq] at h
          exact Or.inl ⟨h.1.symm, h.2.symm⟩
        · rw [if_neg c3, ← hlen] at h
          refine ih (pre ++ [c]) scheme rest hnext ?_ h
          intro x hx
          rcases List.mem_append.mp hx with hx | hx
          · exact hpre x hx
          · simp only [List.mem_singleton] at hx
            subst hx
            unfold url.isSchemeByte
            omega
      · rw [if_neg c2] at h
        by_cases c4 : c.val = 0x3A
        · rw [if_pos c4] at h
          by_cases c3 : pre.length = 0
          · rw [if_pos c3] at h
            cases h
          · rw [if_neg c3] at h
            simp only [Except.ok.injEq, Prod.mk.injEq] at h
            obtain ⟨h1, h2⟩ := h
            have ht : raw.take pre.length = pre := by
              rw [hraw]
              exact List.take_left' rfl
            rw [ht] at h1
            subst h1 h2
            have hc : c = 0x3A := Fin.ext c4
            subst hc
            exact Or.inr ⟨hraw, hpre⟩
        · rw [if_neg c4] at h
          simp only [Except.ok.injEq, Prod.mk.injEq] at h
          exact Or.inl ⟨h.1.symm, h.2.symm⟩

theorem getScheme_spec (raw scheme rest : Bytes) (h : url.getScheme raw = .ok (scheme, rest)) :
    (scheme = [] ∧ rest = raw) ∨
      (raw = scheme ++ 0x3A :: rest ∧ ∀ x ∈ scheme, url.isSchemeByte x) :=
  getSchemeLoop_spec raw raw [] scheme rest rfl (by simp) h

theorem ToLower_scheme (s : Bytes) (h : ∀ x ∈ s, url.isSchemeByte x) :
    ∀ x ∈ strings.ToLower s, x.val ∉ [0x23, 0x3F] := by
  intro x hx
  unfold strings.ToLower at hx
  rw [List.mem_map] at hx
  obtain ⟨c, hc, rfl⟩ := hx
  have := h c hc
  have hb := c.isLt
  unfold url.isSchemeByte at this
  split_ifs with h1
  · simp only [byte_val, List.mem_cons, List.mem_singleton, List.not_mem_nil, or_false]
    omega
  · simp only [List.mem_cons, List.mem_singleton, List.not_mem_nil, or_false]
    omega

theorem setPath_fields (u v : url.URL) (p : Bytes) (h : url.URL.setPath u p = .ok v) :
    v.Scheme = u.Scheme ∧ v.Opaque = u.Opaque ∧ v.RawQuery = u.RawQuery ∧
      v.Fragment = u.Fragment := by
  unfold url.URL.setPath at h
  cases hp : url.unescape p url.encoding.encodePath with
  | error e => rw [hp] at h; cases h
  | ok path =>
    rw [hp] at h
    simp only at h
    split_ifs at h <;> (cases h; exact ⟨rfl, rfl, rfl, rfl⟩)

theorem parse_spec (go : GoRelease)
    (raw : Bytes) (vr : Bool) (u : url.URL) (h : url.parse go raw vr = .ok u)
    (hstar : raw ≠ [0x2A]) :
    u.Fragment = [] ∧ (∀ x ∈ u.Scheme, x.val ∉ [0x23, 0x3F]) ∧
      ∃ scheme rest0, url.getScheme raw = .ok (scheme, rest0) ∧
        u.RawQuery =
          (if strings.endsWith rest0 0x3F ∧ strings.Count rest0 0x3F = 1 then []
           else (strings.Cut rest0 0x3F).2.1) := by
  unfold url.parse at h
  rw [if_neg hstar] at h
  by_cases h1 : url.stringContainsCTLByte raw = true
  · rw [if_pos h1] at h; cases h
  · rw [if_neg h1] at h
    by_cases h2 : raw = [] ∧ vr = true
    · rw [if_pos h2] at h; cases h
    · rw [if_neg h2] at h
      cases hg : url.getScheme raw with
      | error e => rw [hg] at h; cases h
      | ok sr =>
        obtain ⟨scheme, rest0⟩ := sr
        rw [hg] at h
        dsimp only at h
        have hsch : ∀ x ∈ strings.ToLower scheme, x.val ∉ [0x23, 0x3F] := by
          rcases getScheme_spec raw scheme rest0 hg with ⟨rfl, _⟩ | ⟨_, hs⟩
          · simp [strings.ToLower]
          · exact ToLower_scheme scheme hs
        suffices hk : u.Fragment = [] ∧ u.Scheme = strings.ToLower scheme ∧
            u.RawQuery =
              (if strings.endsWith rest0 0x3F ∧ strings.Count rest0 0x3F = 1 then []
               else (strings.Cut rest0 0x3F).2.1) by
          exact ⟨hk.1, by rw [hk.2.1]; exact hsch, scheme, rest0, rfl, hk.2.2⟩
        by_cases hc : strings.endsWith rest0 0x3F = true ∧ strings.Count rest0 0x3F = 1
        · simp only [hc, and_self, if_true] at h ⊢
          split_ifs at h
          all_goals first
            | (cases h <;> exact ⟨rfl, rfl, rfl⟩)
            | (obtain ⟨e1, _, e3, e4⟩ := setPath_fields _ _ _ h; exact ⟨e4, e1, e3⟩)
            | (split at h
               · cases h
               · obtain ⟨e1, _, e3, e4⟩ := setPath_fields _ _ _ h
                 exact ⟨e4, e1, e3⟩)
        · simp only [hc, if_false] at h ⊢
          split_ifs at h
          all_goals first
            | (cases h <;> exact ⟨rfl, rfl, rfl⟩)
            | (obtain ⟨e1, _, e3, e4⟩ := setPath_fields _ _ _ h; exact ⟨e4, e1, e3⟩)
            | (split at h
               · cases h
               · obtain ⟨e1, _, e3, e4⟩ := setPath_fields _ _ _ h
                 exact ⟨e4, e1, e3⟩)

/-! ### net/url: the string of a URL and its query -/

theorem String_with_query (u : url.URL) (q : Bytes) (hq : q ≠ []) (hf : u.Fragment = []) :
    url.URL.String { u with RawQuery := q } = u.hierString ++ 0x3F :: q := by
  simp [url.URL.String, url.URL.hierString, url.URL.authorityString, url.URL.EscapedPath, hq, hf]

theorem Userinfo_String_clean (ui : url.Userinfo) : ∀ x ∈ ui.String, x.val ∉ [0x23, 0x3F] := by
  unfold url.Userinfo.String
  intro x hx
  rcases List.mem_append.mp hx with h | h
  · exact escape_no_hash_question _ _ (Or.inr (Or.inr rfl)) x h
  · split_ifs at h
    · rcases List.mem_cons.mp h with rfl | h
      · decide
      · exact escape_no_hash_question _ _ (Or.inr (Or.inr rfl)) x h
    · simp at h

theorem EscapedPath_clean (u : url.URL) : ∀ x ∈ u.EscapedPath, x.val ∉ [0x23, 0x3F] := by
  unfold url.URL.EscapedPath
  intro x hx
  split_ifs at hx with h1 h2
  · have hv := h1.2.1
    unfold url.validEncoded at hv
    rw [List.all_eq_true] at hv
    have := validEncoded_byte x (hv x hx)
    simp only [List.mem_cons, List.mem_singleton, List.not_mem_nil, or_false]
    omega
  · simp only [List.mem_singleton] at hx
    subst hx
    decide
  · exact escape_no_hash_question _ _ (Or.inl rfl) x hx

theorem authorityString_clean (u : url.URL) (hs : ∀ x ∈ u.Scheme, x.val ∉ [0x23, 0x3F]) :
    ∀ x ∈ u.authorityString, x.val ∉ [0x23, 0x3F] := by
  unfold url.URL.authorityString
  intro x hx
  rcases List.mem_append.mp hx with h | h
  · by_cases g : u.Scheme ≠ []
    · rw [if_pos g] at h
      rcases List.mem_append.mp h with h | h
      · exact hs x h
      · simp only [List.mem_singleton] at h
        subst h
        decide
    · rw [if_neg g] at h
      exact absurd h (List.not_mem_nil _)
  · by_cases g1 : u.Scheme ≠ [] ∨ u.Host ≠ [] ∨ u.User ≠ none
    · rw [if_pos g1] at h
      by_cases g2 : u.OmitHost = true ∧ u.Host = [] ∧ u.User = none
      · rw [if_pos g2] at h
        exact absurd h (List.not_mem_nil _)
      · rw [if_neg g2] at h
        simp only [List.mem_append] at h
        rcases h with (h | h) | h
        · by_cases g3 : u.Host ≠ [] ∨ u.Path ≠ [] ∨ u.User ≠ none
          · rw [if_pos g3] at h
            simp only [List.mem_cons, List.mem_singleton, List.not_mem_nil, or_false,
              or_self] at h
            subst h
            decide
          · rw [if_neg g3] at h
            exact absurd h (List.not_mem_nil _)
        · cases hU : u.User with
          | none =>
            rw [hU] at h
            exact absurd h (List.not_mem_nil _)
          | some ui =>
            rw [hU] at h
            simp only [List.mem_append, List.mem_singleton] at h
            rcases h with h | h
            · exact Userinfo_String_clean ui x h
            · subst h
              decide
        · by_cases g4 : u.Host ≠ []
          · rw [if_pos g4] at h
            exact escape_no_hash_question _ _ (Or.inr (Or.inl rfl)) x h
          · rw [if_neg g4] at h
            exact absurd h (List.not_mem_nil _)
    · rw [if_neg g1] at h
      exact absurd h (List.not_mem_nil _)

/-- For a URL that is not opaque, what `String()` writes before the query
holds no `#` and no `?`. -/
theorem hierString_clean (u : url.URL) (ho : u.Opaque = [])
    (hs : ∀ x ∈ u.Scheme, x.val ∉ [0x23, 0x3F]) :
    ∀ x ∈ u.hierString, x.val ∉ [0x23, 0x3F] := by
  unfold url.URL.hierString
  rw [if_neg (by simp [ho])]
  intro x hx
  simp only [List.mem_append] at hx
  rcases hx with ((h | h) | h) | h
  · exact authorityString_clean u hs x h
  · by_cases g : u.EscapedPath ≠ [] ∧ u.EscapedPath.head? ≠ some 0x2F ∧ u.Host ≠ []
    · rw [if_pos g] at h
      simp only [List.mem_singleton] at h
      subst h
      decide
    · rw [if_neg g] at h
      exact absurd h (List.not_mem_nil _)
  · split_ifs at h
    all_goals first
      | exact absurd h (List.not_mem_nil _)
      | (simp only [List.mem_cons, List.mem_singleton, List.not_mem_nil, or_false] at h
         rcases h with rfl | rfl <;> decide)
  · exact EscapedPath_clean u x h

theorem not_mem_of_val {l : Bytes} {c : Byte} {bad : List Nat} (h : ∀ x ∈ l, x.val ∉ bad)
    (hc : c.val ∈ bad) : ∀ x ∈ l, x ≠ c := by
  intro x hx e
  subst e
  exact h x hx hc

/-- `url.Parse` on a string made of a part without `#` and `?`, a `?` and a
non-empty query without `#` and `?`: the parsed URL has that query and no
fragment. -/
theorem Parse_query (go : GoRelease)
    (hier q : Bytes) (v : url.URL) (hh : ∀ x ∈ hier, x.val ∉ [0x23, 0x3F])
    (hq : ∀ x ∈ q, x.val ∉ [0x23, 0x3F]) (hne : q ≠ [])
    (hp : url.Parse go (hier ++ 0x3F :: q) = .ok v) : v.RawQuery = q ∧ v.Fragment = [] := by
  have hS : ∀ x ∈ hier ++ 0x3F :: q, x ≠ 0x23 := by
    intro x hx
    rcases List.mem_append.mp hx with h | h
    · exact not_mem_of_val hh (by decide) x h
    · rcases List.mem_cons.mp h with rfl | h
      · decide
      · exact not_mem_of_val hq (by decide) x h
  unfold url.Parse at hp
  rw [Cut_none _ _ hS] at hp
  simp only [if_true] at hp
  cases hpar : url.parse go (hier ++ 0x3F :: q) false with
  | error e => rw [hpar] at hp; cases hp
  | ok u =>
    rw [hpar] at hp
    cases hp
    have hstar : hier ++ 0x3F :: q ≠ [0x2A] := by
      intro e
      have := congrArg List.length e
      have hl : 0 < q.length := List.length_pos.mpr hne
      simp only [List.length_append, List.length_cons, List.length_nil] at this
      omega
    obtain ⟨hfrag, _, scheme, rest0, hg, hrq⟩ := parse_spec go _ _ _ hpar hstar
    refine ⟨?_, hfrag⟩
    have hcutS := Cut_append hier q 0x3F (not_mem_of_val hh (by decide))
    -- the part before rest0 holds no `?`
    have hpre : ∃ p, hier ++ 0x3F :: q = p ++ rest0 ∧ ∀ x ∈ p, x ≠ 0x3F := by
      rcases getScheme_spec _ scheme rest0 hg with ⟨_, e⟩ | ⟨e, hs⟩
      · exact ⟨[], by rw [e]; rfl, by simp⟩
      · refine ⟨scheme ++ [0x3A], by rw [e]; simp, ?_⟩
        intro x hx
        rcases List.mem_append.mp hx with h | h
        · have := hs x h
          unfold url.isSchemeByte at this
          intro e2
          subst e2
          revert this
          decide
        · simp only [List.mem_singleton] at h
          subst h
          decide
    obtain ⟨p, hp1, hp2⟩ := hpre
    have hcut2 := Cut_prepend p rest0 0x3F hp2
    rw [← hp1, hcutS] at hcut2
    simp only [Prod.mk.injEq] at hcut2
    obtain ⟨_, hq2, hfound⟩ := hcut2
    have hrest := (Cut_spec rest0 0x3F).2.1 hfound.symm
    rw [← hq2] at hrest
    -- rest0 does not end in `?`
    have hend : strings.endsWith rest0 0x3F = false := by
      unfold strings.endsWith
      obtain ⟨b, q', hbq⟩ := List.exists_cons_of_ne_nil hne
      subst hbq
      rw [hrest, List.getLast?_append_of_ne_nil _ (by simp), List.getLast?_cons_cons,
        List.getLast?_eq_getLast _ (by simp)]
      have hm := List.getLast_mem (l := b :: q') (by simp)
      have hx := not_mem_of_val hq (c := 0x3F) (by decide) _ hm
      simpa using hx
    rw [hrq, hend]
    simp only [Bool.false_eq_true, false_and, if_false]
    exact hq2.symm

/-! ### content.go: the expand query -/

theorem GetContentChildPages_eq (go : GoRelease)
    (w : Wiki) (contentID : Bytes) (expand : List Bytes)
    (sent : List http.Request) (u : url.URL) (req : http.Request)
    (hu : w.contentChildPagesEndpoint go contentID = .ok u)
    (hreq : http.NewRequest go (str "GET")
      (url.URL.String { u with
        RawQuery := (url.Values.Encode
          (url.Values.Set [] (str "expand") (strings.Join expand (str ",")))) }) none = .ok req) :
    w.GetContentChildPages go contentID expand sent =
      (decodeReply ChildResults.Unmarshal (w.transport sent req), sent ++ [req]) := by
  unfold Wiki.GetContentChildPages
  simp only [Run.bind_eq, Run.pure_eq, hu, Run.ofExcept_ok_bind, hreq]
  exact sendRequest_decode w req sent ChildResults.Unmarshal

/-- The request that `http.NewRequest` builds from an endpoint parsed by
`ParseRequestURI` with the encoded `expand` query set. -/
theorem expand_request (go : GoRelease)
    (raw : Bytes) (hraw : raw ≠ [0x2A]) (u : url.URL) (v : Bytes)
    (req : http.Request) (hu : url.ParseRequestURI go raw = .ok u) (ho : u.Opaque = [])
    (hreq : http.NewRequest go (str "GET")
      (url.URL.String { u with
        RawQuery := (url.Values.Encode (url.Values.Set [] (str "expand") v)) }) none = .ok req) :
    req.Method = str "GET" ∧
      req.URL.RawQuery = str "expand=" ++ url.QueryEscape v ∧
      req.URL.Fragment = [] ∧
      url.ParseQuery req.URL.RawQuery = ([(str "expand", [v])], none) := by
  obtain ⟨hfrag, hsch, _⟩ := parse_spec go raw true u hu hraw
  have hqne : str "expand" ++ 0x3D :: url.QueryEscape v ≠ [] := by simp
  rw [expand_query, String_with_query u _ hqne hfrag] at hreq
  obtain ⟨hm, p, hp, hurl⟩ := NewRequest_method hreq (by decide)
  have hclean : ∀ x ∈ str "expand" ++ 0x3D :: url.QueryEscape v, x.val ∉ [0x23, 0x3F] := by
    intro x hx hc
    apply expand_query_clean v x hx
    simp only [List.mem_cons, List.mem_singleton, List.not_mem_nil, or_false] at hc ⊢
    omega
  obtain ⟨hq, hf⟩ := Parse_query go _ _ p (hierString_clean u ho hsch) hclean hqne hp
  have he : str "expand=" = str "expand" ++ [0x3D] := by decide
  have hrq : req.URL.RawQuery = str "expand=" ++ url.QueryEscape v := by
    rw [hurl, he]
    simp only [List.append_assoc, List.singleton_append]
    exact hq
  refine ⟨hm, hrq, by rw [hurl]; exact hf, ?_⟩
  rw [hrq, he]
  simp only [List.append_assoc, List.singleton_append]
  exact ParseQuery_expand v

theorem endpoint_ne_star (a b : Bytes) : a ++ str "/content/" ++ b ≠ [0x2A] := by
  intro e
  have h := congrArg List.length e
  have hl : (str "/content/").length = 9 := by decide
  simp only [List.length_append, hl, List.length_cons, List.length_nil] at h
  omega

/-- C3: for a content ID whose endpoint parses to a URL that is not opaque,
and every list of expand fields, the GET request that `GetContent` and
`GetContentChildPages` send has the query `expand=` followed by the escaped
comma-joined list and no fragment; decoding the query gives exactly one
parameter, `expand`, whose value is the fields joined with `,`; for the empty
list the query is `expand=`, in both operations. -/
theorem C3_expand_query_is_the_joined_list (go : GoRelease) (w : Wiki) (contentID : Bytes)
    (expand : List Bytes) (sent : List http.Request) :
    (∀ u req, w.existingContentEndpoint go contentID = .ok u → u.Opaque = [] →
      http.NewRequest go (str "GET")
        (url.URL.String { u with
          RawQuery := (url.Values.Encode
            (url.Values.Set [] (str "expand") (strings.Join expand (str ",")))) }) none =
        .ok req →
      (w.GetContent go contentID expand sent).2 = sent ++ [req] ∧
        req.Method = str "GET" ∧
        req.URL.RawQuery = str "expand=" ++ url.QueryEscape (strings.Join expand (str ",")) ∧
        req.URL.Fragment = [] ∧
        url.ParseQuery req.URL.RawQuery =
          ([(str "expand", [strings.Join expand (str ",")])], none) ∧
        (expand = [] → req.URL.RawQuery = str "expand=")) ∧
    (∀ u req, w.contentChildPagesEndpoint go contentID = .ok u → u.Opaque = [] →
      http.NewRequest go (str "GET")
        (url.URL.String { u with
          RawQuery := (url.Values.Encode
            (url.Values.Set [] (str "expand") (strings.Join expand (str ",")))) }) none =
        .ok req →
      (w.GetContentChildPages go contentID expand sent).2 = sent ++ [req] ∧
        req.Method = str "GET" ∧
        req.URL.RawQuery = str "expand=" ++ url.QueryEscape (strings.Join expand (str ",")) ∧
        req.URL.Fragment = [] ∧
        url.ParseQuery req.URL.RawQuery =
          ([(str "expand", [strings.Join expand (str ",")])], none) ∧
        (expand = [] → req.URL.RawQuery = str "expand=")) := by
  constructor
  · intro u req hu ho hreq
    obtain ⟨h1, h2, h3, h4⟩ :=
      expand_request go _ (endpoint_ne_star w.endPoint.String contentID) u _ req hu ho hreq
    refine ⟨by rw [GetContent_eq go w contentID expand sent u req hu hreq], h1, h2, h3, h4, ?_⟩
    intro he
    rw [h2, he]
    rfl
  · intro u req hu ho hreq
    have hne : w.endPoint.String ++ str "/content/" ++ contentID ++ str "/child/page" ≠ [0x2A] := by
      rw [List.append_assoc]
      exact endpoint_ne_star w.endPoint.String _
    obtain ⟨h1, h2, h3, h4⟩ := expand_request go _ hne u _ req hu ho hreq
    refine ⟨by rw [GetContentChildPages_eq go w contentID expand sent u req hu hreq], h1, h2, h3,
      h4, ?_⟩
    intro he
    rw [h2, he]
    rfl

set_option maxRecDepth 100000 in
/-- C3 at a concrete input: two expand fields, one with a space. -/
theorem C3_expand_query_is_the_joined_list_witness :
    ((exampleWiki (constTransport [])).GetContent GoRelease.go122 (str "123")
        [str "body.storage", str "version"] []).2 =
      [] ++ [exampleGet (str "/rest/api/content/123") (str "expand=body.storage%2Cversion")] ∧
    url.ParseQuery (str "expand=body.storage%2Cversion") =
      ([(str "expand", [str "body.storage,version"])], none) :=
  have h := (C3_expand_query_is_the_joined_list GoRelease.go122
    (exampleWiki (constTransport [])) (str "123")
    [str "body.storage", str "version"] []).1
    { Scheme := str "https", Host := str "wiki.example.com", Path := str "/rest/api/content/123" }
    (exampleGet (str "/rest/api/content/123") (str "expand=body.storage%2Cversion"))
    (by decide!) (by decide!) (by decide!)
  ⟨h.1, h.2.2.2.2.1⟩

end Confluence
